import Mathlib

/-!
nsdynmemLIB: a boundary-tag allocator over one caller-supplied buffer

Shallow embedding of `source/nsdynmemLIB/nsdynmemLIB.c` (the build without
`STANDARD_MALLOC`) and properties of it.

Conventions of the embedding

* `int` is 32 bits wide and `sizeof(int)` is 4 (the source itself divides the
  heap size by the literal 4 in `ns_dyn_mem_longest_free_block`).  `size_t` is
  32 or 64 bits wide, chosen by a `DataModel`.
* An `int *` is represented by its address divided by `sizeof(int)`: memory is
  a total map from word addresses to words, the null pointer is word address 0.
  Byte addresses appear only in `ns_dyn_mem_init`, whose buffer argument is a
  `uint8_t *`.
* Words and addresses are mathematical integers.  Conversions that the C
  source performs between integer types of different width are written out
  with `to_uint` and `to_sint`.  Sums of a pointer and a word read from
  memory are not reduced: they are those of the source as long as the word
  fits `int` and the sum stays inside the address space (`addr_words`); the
  statements that rest on such a sum for arbitrary memory contents carry
  these bounds.
* The static variables of the translation unit, the caller-owned statistics
  record and the sequence of reason codes handed to the registered failure
  callback form the `State`.  The critical-section calls are no-ops of the
  sequential model.
-/

namespace NsDynMem

/-! ## Integer conversions -/

/-- Conversion to an unsigned integer type of `w` bits. -/
def to_uint (w : Nat) (x : Int) : Int := x % ((2 ^ w : Nat) : Int)

/-- Conversion to a signed (two's complement) integer type of `w` bits. -/
def to_sint (w : Nat) (x : Int) : Int :=
  (x + ((2 ^ (w - 1) : Nat) : Int)) % ((2 ^ w : Nat) : Int) - ((2 ^ (w - 1) : Nat) : Int)

/-- The two data models considered: 32-bit `size_t` or 64-bit `size_t`. -/
inductive DataModel
  | ILP32
  | LP64
  deriving DecidableEq, Repr

/-- Width of `size_t` in bits. -/
def size_t_bits : DataModel → Nat
  | .ILP32 => 32
  | .LP64 => 64

/-- Conversion to `size_t`. -/
def to_size_t (dm : DataModel) (x : Int) : Int := to_uint (size_t_bits dm) x

/-- The value of `sizeof(int)`. -/
def sizeof_int : Int := 4

/-- Number of `int` words in the address space: a pointer is as wide as
`size_t` and an `int` takes 4 bytes, so the word addresses are
`0 .. addr_words - 1`. -/
def addr_words (dm : DataModel) : Int := ((2 ^ (size_t_bits dm - 2) : Nat) : Int)

/-- The C library function `abs` on `int`. -/
def c_abs (x : Int) : Int := if x < 0 then -x else x

/-! ## Data model -/

/-- Reason codes passed to the failure callback (those the source uses). -/
inductive heap_fail_t
  | NS_DYN_MEM_DOUBLE_FREE
  | NS_DYN_MEM_ALLOCATE_SIZE_NOT_VALID
  | NS_DYN_MEM_POINTER_NOT_VALID
  | NS_DYN_MEM_HEAP_SECTOR_CORRUPTED
  | NS_DYN_MEM_HEAP_SECTOR_UNITIALIZED
  deriving DecidableEq, Repr

/-- Kind of statistics update, as in the source. -/
inductive mem_stat_update_t
  | DEV_HEAP_ALLOC_OK
  | DEV_HEAP_ALLOC_FAIL
  | DEV_HEAP_FREE
  deriving DecidableEq, Repr

/-- Modelled from the spec: the declaration of `mem_stat_t` is in
`nsdynmemLIB.h`, which is not among the sources.  The record has the counters
the spec lists (capacity, active allocation count, bytes currently allocated,
historical maximum, cumulative bytes, allocation failures); the first four are
kept as `int16_t` values and the last two as `uint32_t` values by
`dev_stat_update`. -/
structure mem_stat_t where
  heap_sector_size : Int
  heap_sector_alloc_cnt : Int
  heap_sector_allocated_bytes : Int
  heap_sector_allocated_bytes_max : Int
  heap_alloc_total_bytes : Int
  heap_alloc_fail_cnt : Int
  deriving DecidableEq, Repr

/-- The allocator state: the statics of the translation unit, the statistics
record `mem_stat_info_ptr` points to (`none` for a null pointer), the word
memory, and the reason codes the registered callback has received so far. -/
structure State where
  heap_failure_callback : Bool
  heap_main : Int
  heap_main_end : Int
  heap_size : Int
  mem_stat_info_ptr : Option mem_stat_t
  mem : Int → Int
  reported : List heap_fail_t

/-- Store of one word. -/
def write (m : Int → Int) (a v : Int) : Int → Int :=
  fun x => if x = a then v else m x

/-! ## The operations -/

/-- Embeds `heap_failure`: the callback is invoked only when one is registered. -/
def heap_failure (reason : heap_fail_t) (s : State) : State :=
  if s.heap_failure_callback then { s with reported := s.reported ++ [reason] } else s

/-- Embeds `ns_dyn_mem_init`.  `heap` is the byte address of the buffer,
`h_size` its length (`uint16_t`), `passed_fptr` and `info_ptr` tell whether the
callback and the statistics pointer are non-null. -/
def ns_dyn_mem_init (heap : Int) (h_size : Int) (passed_fptr : Bool) (info_ptr : Bool)
    (s : State) : State :=
  let temp_int := heap % sizeof_int
  let heap1 := if temp_int ≠ 0 then heap + (sizeof_int - temp_int) else heap
  let h_size1 := if temp_int ≠ 0 then to_uint 16 (h_size - (sizeof_int - temp_int)) else h_size
  let temp_int := h_size1 % sizeof_int
  let h_size2 := if temp_int ≠ 0 then to_uint 16 (h_size1 - (sizeof_int - temp_int)) else h_size1
  let heap_main := heap1 / sizeof_int
  let temp_int := h_size2 / sizeof_int
  let temp_int := temp_int - 2
  let ptr := heap_main
  let mem1 := write s.mem ptr (-temp_int)
  let ptr := ptr + (temp_int + 1)
  let mem2 := write mem1 ptr (-temp_int)
  { heap_failure_callback := passed_fptr
    heap_main := heap_main
    heap_main_end := ptr
    heap_size := h_size2
    mem_stat_info_ptr :=
      if info_ptr then
        some { heap_sector_size := to_sint 16 h_size2
               heap_sector_alloc_cnt := 0
               heap_sector_allocated_bytes := 0
               heap_sector_allocated_bytes_max := 0
               heap_alloc_total_bytes := 0
               heap_alloc_fail_cnt := 0 }
      else s.mem_stat_info_ptr
    mem := mem2
    reported := s.reported }

/-- Embeds `dev_stat_update`; `size` is the `int16_t` argument. -/
def dev_stat_update (type : mem_stat_update_t) (size : Int) (s : State) : State :=
  match s.mem_stat_info_ptr with
  | none => s
  | some st =>
    match type with
    | .DEV_HEAP_ALLOC_OK =>
      let cnt := to_sint 16 (st.heap_sector_alloc_cnt + 1)
      let bytes := to_sint 16 (st.heap_sector_allocated_bytes + size)
      let bytes_max :=
        if st.heap_sector_allocated_bytes_max < bytes then bytes
        else st.heap_sector_allocated_bytes_max
      let total := to_uint 32 (st.heap_alloc_total_bytes + size)
      let st1 : mem_stat_t :=
        { st with heap_sector_alloc_cnt := cnt
                  heap_sector_allocated_bytes := bytes
                  heap_sector_allocated_bytes_max := bytes_max
                  heap_alloc_total_bytes := total }
      { s with mem_stat_info_ptr := some st1 }
    | .DEV_HEAP_ALLOC_FAIL =>
      let st1 : mem_stat_t :=
        { st with heap_alloc_fail_cnt := to_uint 32 (st.heap_alloc_fail_cnt + 1) }
      { s with mem_stat_info_ptr := some st1 }
    | .DEV_HEAP_FREE =>
      let st1 : mem_stat_t :=
        { st with heap_sector_alloc_cnt := to_sint 16 (st.heap_sector_alloc_cnt - 1)
                  heap_sector_allocated_bytes :=
                    to_sint 16 (st.heap_sector_allocated_bytes - size) }
      { s with mem_stat_info_ptr := some st1 }

/-- Embeds `convert_allocation_size`: the checks only report, the word count is
returned in every case.  The comparison with `heap_size - 2 * sizeof(int)` and
the rounding are done in `size_t`, the result is converted to `int`. -/
def convert_allocation_size (dm : DataModel) (requested_bytes : Int) (s : State) : State × Int :=
  let s1 :=
    if s.heap_main = 0 then heap_failure .NS_DYN_MEM_HEAP_SECTOR_UNITIALIZED s
    else if requested_bytes < 1 then heap_failure .NS_DYN_MEM_ALLOCATE_SIZE_NOT_VALID s
    else if to_size_t dm requested_bytes > to_size_t dm (s.heap_size - 2 * sizeof_int) then
      heap_failure .NS_DYN_MEM_ALLOCATE_SIZE_NOT_VALID s
    else s
  (s1, to_sint 32 (to_size_t dm (requested_bytes + sizeof_int - 1) / sizeof_int))

/-- Embeds `ns_block_validate`: 0 for a valid block, -1 otherwise. -/
def ns_block_validate (mem : Int → Int) (block_start : Int) (direction : Int) : Int :=
  let size_start := mem block_start
  let end_ :=
    if direction > 0 then block_start + (1 + c_abs size_start)
    else block_start - (1 + c_abs size_start)
  if size_start ≠ 0 ∧ size_start = mem end_ then 0 else -1

/-- Result of the scan loop of `ns_dyn_mem_internal_alloc`: the state, `retval`
and the final value of the local `data_size`. -/
structure ScanResult where
  state : State
  retval : Int
  data_size : Int

/-- The `while (moved < h_size)` loop of `ns_dyn_mem_internal_alloc`.  Every
iteration that does not leave the loop adds at least 2 to `moved`, so
`h_size` iterations are enough; the first argument bounds their number and
running out of it is the same as leaving the loop
(see `alloc_loop_fuel_irrelevant`). -/
def alloc_loop (direction h_size : Int) :
    Nat → State → Int → Int → Int → ScanResult
  | 0, s, data_size, _, _ => ⟨s, 0, data_size⟩
  | fuel + 1, s, data_size, ptr, moved =>
    if moved < h_size then
      if ns_block_validate s.mem ptr direction = 0 then
        let block_data_size := s.mem ptr
        if block_data_size < 0 then
          let block_data_size := -block_data_size
          if block_data_size ≥ data_size then
            let split := decide (block_data_size > data_size + 4)
            let hole_ptr := if direction > 0 then ptr + data_size + 2 else ptr - (data_size + 2)
            let hole_size := block_data_size - data_size - 2
            let mem1 := if split then write s.mem hole_ptr (-hole_size) else s.mem
            let hole_ptr :=
              if direction > 0 then hole_ptr + (hole_size + 1) else hole_ptr - (hole_size + 1)
            let mem2 := if split then write mem1 hole_ptr (-hole_size) else mem1
            let data_size := if split then data_size else block_data_size
            let mem3 := write mem2 ptr data_size
            let retval := if direction > 0 then ptr + 1 else ptr - data_size
            let ptr := if direction > 0 then ptr + 1 + data_size else ptr - data_size - 1
            let mem4 := write mem3 ptr data_size
            ⟨{ s with mem := mem4 }, retval, data_size⟩
          else
            alloc_loop direction h_size fuel s data_size
              (if direction > 0 then ptr + (block_data_size + 2) else ptr - (block_data_size + 2))
              (moved + (block_data_size + 2))
        else
          alloc_loop direction h_size fuel s data_size
            (if direction > 0 then ptr + (block_data_size + 2) else ptr - (block_data_size + 2))
            (moved + (block_data_size + 2))
      else
        ⟨heap_failure .NS_DYN_MEM_HEAP_SECTOR_CORRUPTED s, 0, data_size⟩
    else ⟨s, 0, data_size⟩

/-- Embeds `ns_dyn_mem_internal_alloc`; the result is the new state and the
returned pointer (0 for null). -/
def ns_dyn_mem_internal_alloc (dm : DataModel) (alloc_size : Int) (direction : Int)
    (s : State) : State × Int :=
  let c := convert_allocation_size dm alloc_size s
  let data_size := c.2
  if data_size ≠ 0 then
    let h_size := c.1.heap_size / sizeof_int
    let ptr := if direction > 0 then c.1.heap_main else c.1.heap_main_end
    let r := alloc_loop direction h_size h_size.toNat c.1 data_size ptr 0
    let s2 :=
      if r.state.mem_stat_info_ptr.isSome then
        if r.retval ≠ 0 then
          dev_stat_update .DEV_HEAP_ALLOC_OK (to_sint 16 ((r.data_size + 2) * sizeof_int)) r.state
        else
          dev_stat_update .DEV_HEAP_ALLOC_FAIL 0 r.state
      else r.state
    (s2, r.retval)
  else (c.1, 0)

/-- Embeds `ns_dyn_mem_alloc` (scan from the end of the pool). -/
def ns_dyn_mem_alloc (dm : DataModel) (alloc_size : Int) (s : State) : State × Int :=
  ns_dyn_mem_internal_alloc dm alloc_size (-1) s

/-- Embeds `ns_dyn_mem_temporary_alloc` (scan from the start of the pool). -/
def ns_dyn_mem_temporary_alloc (dm : DataModel) (alloc_size : Int) (s : State) : State × Int :=
  ns_dyn_mem_internal_alloc dm alloc_size 1 s

/-- Embeds `ns_free_and_merge_with_adjacent_blocks`. -/
def ns_free_and_merge_with_adjacent_blocks (cur_block data_size : Int) (s : State) : State :=
  let start := cur_block
  let end_ := cur_block + data_size + 1
  let mem1 := write s.mem cur_block (-data_size)
  let mem2 := write mem1 end_ (-data_size)
  let merged_data_size := data_size
  let left := decide (cur_block ≠ s.heap_main ∧ mem2 (cur_block - 1) < 0)
  let merged_data_size :=
    if left then merged_data_size + (2 - mem2 (cur_block - 1)) else merged_data_size
  let start := if left then start - (2 - mem2 (cur_block - 1)) else start
  let right := decide (end_ ≠ s.heap_main_end ∧ mem2 (end_ + 1) < 0)
  let merged_data_size :=
    if right then merged_data_size + (2 - mem2 (end_ + 1)) else merged_data_size
  let end_ := if right then end_ + 1 + (1 - mem2 (end_ + 1)) else end_
  let mem3 := write mem2 start (-merged_data_size)
  let mem4 := write mem3 end_ (-merged_data_size)
  { s with mem := mem4 }

/-- Embeds `ns_dyn_mem_free`; `block` is the pointer (0 for null). -/
def ns_dyn_mem_free (block : Int) (s : State) : State :=
  if block = 0 then s
  else if s.heap_main = 0 then heap_failure .NS_DYN_MEM_HEAP_SECTOR_UNITIALIZED s
  else
    let ptr := block - 1
    let size := s.mem ptr
    if size < 0 then heap_failure .NS_DYN_MEM_DOUBLE_FREE s
    else if ptr < s.heap_main ∨ ptr ≥ s.heap_main_end then
      heap_failure .NS_DYN_MEM_POINTER_NOT_VALID s
    else if ptr + size ≥ s.heap_main_end then
      heap_failure .NS_DYN_MEM_POINTER_NOT_VALID s
    else if ns_block_validate s.mem ptr 1 ≠ 0 then
      heap_failure .NS_DYN_MEM_HEAP_SECTOR_CORRUPTED s
    else
      let s1 := ns_free_and_merge_with_adjacent_blocks ptr size s
      if s1.mem_stat_info_ptr.isSome then
        dev_stat_update .DEV_HEAP_FREE (to_sint 16 ((size + 2) * sizeof_int)) s1
      else s1

/-- The state before `ns_dyn_mem_init` has run: all statics are zero; the
memory content is arbitrary. -/
def boot (mem : Int → Int) : State :=
  { heap_failure_callback := false
    heap_main := 0
    heap_main_end := 0
    heap_size := 0
    mem_stat_info_ptr := none
    mem := mem
    reported := [] }

/-! ## Block chains -/

/-- Number of words a block with tag `t` occupies: payload and two tags. -/
def block_words (t : Int) : Int := c_abs t + 2

/-- Number of words a sequence of blocks occupies. -/
def span : List Int → Int
  | [] => 0
  | t :: ts => block_words t + span ts

/-- The words from `a` on, read in direction `dir` (1 up, -1 down), form the
blocks with tags `ts`: each block has a non-zero tag at its near end, the same
tag `|t| + 1` words further, and the next block starts right after. -/
def DChain (mem : Int → Int) (dir : Int) : Int → List Int → Prop
  | _, [] => True
  | a, t :: ts =>
    t ≠ 0 ∧ mem a = t ∧ mem (a + dir * (c_abs t + 1)) = t ∧
      DChain mem dir (a + dir * (c_abs t + 2)) ts

instance DChain.decide (mem : Int → Int) (dir : Int) :
    (a : Int) → (ts : List Int) → Decidable (DChain mem dir a ts)
  | _, [] => isTrue trivial
  | a, t :: ts =>
    have := DChain.decide mem dir (a + dir * (c_abs t + 2)) ts
    if h : t ≠ 0 ∧ mem a = t ∧ mem (a + dir * (c_abs t + 1)) = t ∧
        DChain mem dir (a + dir * (c_abs t + 2)) ts then isTrue h else isFalse h

/-- The pool of `s` is the gapless chain of blocks with tags `ts` (positive:
allocated, negative: free), from `heap_main` to `heap_main_end`. -/
def WellFormed (s : State) (ts : List Int) : Prop :=
  DChain s.mem 1 s.heap_main ts ∧
    s.heap_main + span ts = s.heap_main_end + 1 ∧
    s.heap_size / sizeof_int = span ts

instance WellFormed.decide (s : State) (ts : List Int) : Decidable (WellFormed s ts) := by
  unfold WellFormed; infer_instance

/-- Payload pointers and sizes of the allocated blocks of a chain that starts
at word address `a`. -/
def ptrs : Int → List Int → List (Int × Int)
  | _, [] => []
  | a, t :: ts =>
    if 0 < t then (a + 1, t) :: ptrs (a + block_words t) ts else ptrs (a + block_words t) ts

/-- A block that the first-fit scan for `d` words passes over: allocated, or
free and smaller than `d`. -/
def Skipped (d t : Int) : Prop := ¬ (t < 0 ∧ d ≤ -t)

instance Skipped.decide (d t : Int) : Decidable (Skipped d t) := by
  unfold Skipped; infer_instance

/-- States reachable from `ns_dyn_mem_init` by allocations of at least one byte
in either direction and by frees of live pointers, together with the list of
live pointers (returned by an allocation and not freed since). -/
inductive Reachable (dm : DataModel) : State → List Int → Prop
  | init (heap h_size : Int) (passed_fptr info_ptr : Bool) (s0 : State)
      (hheap : 0 ≤ heap) (hsize : 0 ≤ h_size ∧ h_size ≤ 65535) :
      Reachable dm (ns_dyn_mem_init heap h_size passed_fptr info_ptr s0) []
  | alloc (s : State) (live : List Int) (alloc_size direction : Int)
      (hr : Reachable dm s live) (hsz : 1 ≤ alloc_size ∧ alloc_size ≤ 32767)
      (hdir : direction = 1 ∨ direction = -1) :
      Reachable dm (ns_dyn_mem_internal_alloc dm alloc_size direction s).1
        (if (ns_dyn_mem_internal_alloc dm alloc_size direction s).2 = 0 then live
         else (ns_dyn_mem_internal_alloc dm alloc_size direction s).2 :: live)
  | free (s : State) (live : List Int) (p : Int)
      (hr : Reachable dm s live) (hp : p ∈ live) :
      Reachable dm (ns_dyn_mem_free p s) (live.erase p)

/-- Pools of fewer than three words, as `ns_dyn_mem_init` lays them out for
buffers too short to hold a block: no words at all, one word holding 1, or two
words holding 0. -/
def Degenerate (s : State) : Prop :=
  s.heap_size / sizeof_int = 0 ∨
  (s.heap_size / sizeof_int = 1 ∧ s.heap_main_end = s.heap_main ∧ s.mem s.heap_main = 1) ∨
  (s.heap_size / sizeof_int = 2 ∧ s.heap_main_end = s.heap_main + 1 ∧
    s.mem s.heap_main = 0 ∧ s.mem s.heap_main_end = 0)

/-- Invariant of the reachable states: the pool is degenerate and nothing is
live, or it is a well-formed chain in which every live pointer is the payload
pointer of an allocated block, without repetition. -/
def Inv (s : State) (live : List Int) : Prop :=
  0 ≤ s.heap_main ∧
  ((Degenerate s ∧ live = []) ∨
   (∃ tags, WellFormed s tags ∧ live.Nodup ∧ ∀ p ∈ live, ∃ t, (p, t) ∈ ptrs s.heap_main tags))

/-- A 64-byte pool at byte address 4096, with callback and statistics
registered, over zeroed memory. -/
def fresh64 : State := ns_dyn_mem_init 4096 64 true true (boot (fun _ => 0))

/-- The pool `ns_dyn_mem_init` makes of a word-aligned buffer of `len` bytes at
byte address 4096, with callback and statistics registered, over zeroed
memory. -/
def pool_of_length (len : Int) : State :=
  ns_dyn_mem_init 4096 len true true (boot (fun _ => 0))

/-- The 64-byte pool after an allocation of 10 bytes from the start, with the
footer of the remaining free block (9 words) overwritten by 5. -/
def damaged64 : State :=
  { (ns_dyn_mem_temporary_alloc .ILP32 10 fresh64).1 with
    mem := write (ns_dyn_mem_temporary_alloc .ILP32 10 fresh64).1.mem 1039 5 }

/-- No two free blocks of the chain are directly adjacent: of two consecutive
tags at most one is negative. -/
def NoAdjFree : List Int → Prop
  | a :: b :: ts => ¬ (a < 0 ∧ b < 0) ∧ NoAdjFree (b :: ts)
  | _ => True

instance NoAdjFree.decide : (ts : List Int) → Decidable (NoAdjFree ts)
  | [] => isTrue trivial
  | [_] => isTrue trivial
  | a :: b :: ts =>
    have := NoAdjFree.decide (b :: ts)
    if h : ¬ (a < 0 ∧ b < 0) ∧ NoAdjFree (b :: ts) then isTrue h else isFalse h

/-- A 64-byte pool at byte address 4096 laid out over memory that is not
zeroed: words 1031, 1032, 1034 and 1035 hold -1, 1, 1 and -3. -/
def stale64 : State :=
  ns_dyn_mem_init 4096 64 true true
    (boot (fun x => if x = 1031 then -1 else if x = 1032 then 1 else if x = 1034 then 1
      else if x = 1035 then -3 else 0))

/-- The 64-byte pool after two allocations of 10 bytes from the start
(pointers 1025 and 1030) and the free of 1025: a free block of 3 words, an
allocated block of 3 words and a free block of 4 words. -/
def merge64 : State :=
  ns_dyn_mem_free 1025
    (ns_dyn_mem_temporary_alloc .ILP32 10 (ns_dyn_mem_temporary_alloc .ILP32 10 fresh64).1).1

/-- The 64-byte pool with word 1030, inside its one free block, overwritten
by 100. -/
def overlong64 : State :=
  { fresh64 with mem := write fresh64.mem 1030 100 }

theorem c_abs_nonneg (x : Int) : 0 ≤ c_abs x := by
  unfold c_abs; split <;> omega

theorem c_abs_of_neg {x : Int} (h : x < 0) : c_abs x = -x := by
  unfold c_abs; simp [h]

theorem c_abs_of_pos {x : Int} (h : 0 < x) : c_abs x = x := by
  unfold c_abs; split <;> omega

theorem c_abs_pos {x : Int} (h : x ≠ 0) : 0 < c_abs x := by
  unfold c_abs; split <;> omega

theorem write_same (m : Int → Int) (a v : Int) : write m a v a = v := by
  simp [write]

theorem write_other (m : Int → Int) {a x : Int} (v : Int) (h : x ≠ a) : write m a v x = m x := by
  simp [write, h]

theorem span_nonneg (ts : List Int) : 0 ≤ span ts := by
  induction ts with
  | nil => simp [span]
  | cons t ts ih => have := c_abs_nonneg t; simp only [span, block_words]; omega

theorem span_append (xs ys : List Int) : span (xs ++ ys) = span xs + span ys := by
  induction xs with
  | nil => simp [span]
  | cons t ts ih =>
    show block_words t + span (ts ++ ys) = block_words t + span ts + span ys
    rw [ih]; ring

theorem length_le_span (ts : List Int) : (ts.length : Int) ≤ span ts := by
  induction ts with
  | nil => simp [span]
  | cons t ts ih =>
    have := c_abs_nonneg t
    simp only [span, block_words, List.length_cons]; push_cast; omega

theorem span_pos_of_ne_nil {ts : List Int} (h : ts ≠ []) : 0 < span ts := by
  cases ts with
  | nil => exact absurd rfl h
  | cons t ts =>
    have := c_abs_nonneg t
    have := span_nonneg ts
    simp only [span, block_words]; omega

theorem dchain_append (mem : Int → Int) {dir : Int} (xs ys : List Int) (a : Int) :
    DChain mem dir a (xs ++ ys) ↔ DChain mem dir a xs ∧ DChain mem dir (a + dir * span xs) ys := by
  induction xs generalizing a with
  | nil => simp [DChain, span]
  | cons t ts ih =>
    show (t ≠ 0 ∧ mem a = t ∧ mem (a + dir * (c_abs t + 1)) = t ∧
        DChain mem dir (a + dir * (c_abs t + 2)) (ts ++ ys)) ↔
      (t ≠ 0 ∧ mem a = t ∧ mem (a + dir * (c_abs t + 1)) = t ∧
        DChain mem dir (a + dir * (c_abs t + 2)) ts) ∧
      DChain mem dir (a + dir * (block_words t + span ts)) ys
    have e : a + dir * (c_abs t + 2) + dir * span ts = a + dir * (block_words t + span ts) := by
      unfold block_words; ring
    rw [ih, e]
    tauto

theorem dchain_frame {mem mem' : Int → Int} {dir : Int} (ts : List Int) (a : Int)
    (h : DChain mem dir a ts)
    (hf : ∀ k, 0 ≤ k → k < span ts → mem' (a + dir * k) = mem (a + dir * k)) :
    DChain mem' dir a ts := by
  induction ts generalizing a with
  | nil => trivial
  | cons t ts ih =>
    obtain ⟨h0, h1, h2, h3⟩ := h
    have hc := c_abs_nonneg t
    have hs := span_nonneg ts
    refine ⟨h0, ?_, ?_, ?_⟩
    · have := hf 0 (le_refl _) (by simp only [span, block_words]; omega)
      simpa [h1] using this
    · have := hf (c_abs t + 1) (by omega) (by simp only [span, block_words]; omega)
      rw [this, h2]
    · apply ih _ h3
      intro k hk0 hk1
      have := hf (c_abs t + 2 + k) (by omega) (by simp only [span, block_words]; omega)
      have e : a + dir * (c_abs t + 2) + dir * k = a + dir * (c_abs t + 2 + k) := by ring
      rw [e]; exact this

theorem span_reverse (ts : List Int) : span ts.reverse = span ts := by
  induction ts with
  | nil => rfl
  | cons t ts ih =>
    rw [List.reverse_cons, span_append, ih]
    simp only [span]; ring

theorem dchain_reverse (mem : Int → Int) (ts : List Int) (a : Int) :
    DChain mem 1 a ts ↔ DChain mem (-1) (a + span ts - 1) ts.reverse := by
  induction ts generalizing a with
  | nil => simp [DChain]
  | cons t ts ih =>
    have e1 : a + span (t :: ts) - 1 = a + 1 * (c_abs t + 2) + span ts - 1 := by
      simp only [span, block_words]; ring
    have e2 : a + span (t :: ts) - 1 + -1 * span ts.reverse = a + (c_abs t + 1) := by
      rw [span_reverse]; simp only [span, block_words]; ring
    rw [List.reverse_cons, dchain_append, e2, e1, ← ih]
    simp only [DChain, and_true]
    have e3 : a + 1 * (c_abs t + 1) = a + (c_abs t + 1) := by ring
    have e4 : a + (c_abs t + 1) + -1 * (c_abs t + 1) = a := by ring
    rw [e3, e4]
    tauto

/-! ## The scan loop on a chain -/

theorem validate_of_block {mem : Int → Int} {dir ptr t : Int} (hdir : dir = 1 ∨ dir = -1)
    (h0 : t ≠ 0) (h1 : mem ptr = t) (h2 : mem (ptr + dir * (c_abs t + 1)) = t) :
    ns_block_validate mem ptr dir = 0 := by
  rcases hdir with rfl | rfl
  · have e : ptr + (1 + c_abs t) = ptr + 1 * (c_abs t + 1) := by ring
    unfold ns_block_validate
    have hd : ((1 : Int) > 0) = True := by simp
    simp only [h1, hd, if_true, e, h2, ne_eq, h0, not_false_eq_true, and_self]
  · have e : ptr - (1 + c_abs t) = ptr + -1 * (c_abs t + 1) := by ring
    unfold ns_block_validate
    have hd : ((-1 : Int) > 0) = False := by simp
    simp only [h1, hd, if_false, e, h2, ne_eq, h0, not_false_eq_true, and_self, if_true]

theorem step_dir {dir : Int} (hdir : dir = 1 ∨ dir = -1) (ptr x : Int) :
    (if dir > 0 then ptr + x else ptr - x) = ptr + dir * x := by
  rcases hdir with rfl | rfl
  · simp
  · simp; ring

theorem alloc_loop_skip {dir : Int} (hdir : dir = 1 ∨ dir = -1) (h d : Int) (s : State) :
    ∀ (pre : List Int) (fuel : Nat) (ptr moved : Int),
      DChain s.mem dir ptr pre → (∀ t ∈ pre, Skipped d t) → moved + span pre ≤ h →
      alloc_loop dir h (pre.length + fuel) s d ptr moved
        = alloc_loop dir h fuel s d (ptr + dir * span pre) (moved + span pre) := by
  intro pre
  induction pre with
  | nil => intro fuel ptr moved _ _ _; simp [span]
  | cons t ts ih =>
    intro fuel ptr moved hc hsk hm
    obtain ⟨h0, h1, h2, h3⟩ := hc
    have hv := validate_of_block hdir h0 h1 h2
    have hca := c_abs_nonneg t
    have hsp := span_nonneg ts
    have hlt : moved < h := by simp only [span, block_words] at hm; omega
    have hfuel : (t :: ts).length + fuel = (ts.length + fuel) + 1 := by
      simp only [List.length_cons]; omega
    have hskt := hsk t (List.mem_cons_self _ _)
    have ih' := ih fuel (ptr + dir * (c_abs t + 2)) (moved + (c_abs t + 2)) h3
      (fun u hu => hsk u (List.mem_cons_of_mem _ hu))
      (by simp only [span, block_words] at hm; omega)
    have e1 : ptr + dir * (c_abs t + 2) + dir * span ts = ptr + dir * span (t :: ts) := by
      simp only [span, block_words]; ring
    have e2 : moved + (c_abs t + 2) + span ts = moved + span (t :: ts) := by
      simp only [span, block_words]; ring
    rw [e1, e2] at ih'
    rw [← ih', hfuel]
    conv_lhs => unfold alloc_loop
    simp only [hlt, hv, h1, if_true, step_dir hdir]
    by_cases ht : t < 0
    · have hnf : ¬ (-t ≥ d) := fun hge => hskt ⟨ht, hge⟩
      simp only [ht, hnf, if_true, if_false, c_abs_of_neg ht]
    · have htp : 0 < t := by omega
      simp only [ht, if_false, c_abs_of_pos htp]

theorem alloc_loop_hit {dir : Int} (hdir : dir = 1 ∨ dir = -1) (h d F : Int) (s : State)
    (fuel : Nat) (ptr moved : Int) (hlt : moved < h) (hF : 0 < F) (h1 : s.mem ptr = -F)
    (h2 : s.mem (ptr + dir * (F + 1)) = -F) (hd1 : 1 ≤ d) (hd : d ≤ F) :
    ∃ new : List Int,
      (alloc_loop dir h (fuel + 1) s d ptr moved).state
        = { s with mem := (alloc_loop dir h (fuel + 1) s d ptr moved).state.mem } ∧
      DChain (alloc_loop dir h (fuel + 1) s d ptr moved).state.mem dir ptr new ∧
      span new = F + 2 ∧
      (∀ x, (∀ k, 0 ≤ k → k < F + 2 → x ≠ ptr + dir * k) →
        (alloc_loop dir h (fuel + 1) s d ptr moved).state.mem x = s.mem x) ∧
      (alloc_loop dir h (fuel + 1) s d ptr moved).retval
        = (if dir > 0 then ptr + 1
           else ptr - (alloc_loop dir h (fuel + 1) s d ptr moved).data_size) ∧
      ((new = [d, -(F - d - 2)] ∧ (alloc_loop dir h (fuel + 1) s d ptr moved).data_size = d ∧
          d + 4 < F) ∨
       (new = [F] ∧ (alloc_loop dir h (fuel + 1) s d ptr moved).data_size = F ∧ F ≤ d + 4)) := by
  have hv : ns_block_validate s.mem ptr dir = 0 :=
    validate_of_block hdir (by omega) h1 (by rw [c_abs_of_neg (by omega)]; simpa using h2)
  have hneg : -F < 0 := by omega
  have hge : F ≥ d := hd
  unfold alloc_loop
  simp only [hlt, hv, h1, hneg, if_true, neg_neg, hge, step_dir hdir]
  by_cases hsplit : F > d + 4
  · refine ⟨[d, -(F - d - 2)], ?_⟩
    simp only [hsplit, decide_True, if_true]
    have hcd : c_abs d = d := c_abs_of_pos (by omega)
    have hch : c_abs (-(F - d - 2)) = F - d - 2 := by rw [c_abs_of_neg (by omega)]; ring
    rcases hdir with rfl | rfl
    · have hd0 : ((1 : Int) > 0) = True := by simp
      simp only [hd0, if_true]
      refine ⟨trivial, ?_, ?_, ?_, trivial, Or.inl ⟨trivial, trivial, trivial⟩⟩
      · simp only [DChain, hcd, hch, write]
        refine ⟨by omega, ?_, ?_, by omega, ?_, ?_, trivial⟩ <;> (split_ifs <;> omega)
      · simp only [span, block_words, hcd, hch]; ring
      · intro x hx
        have a0 := hx 0 (by omega) (by omega)
        have a1 := hx (d + 1) (by omega) (by omega)
        have a2 := hx (d + 2) (by omega) (by omega)
        have a3 := hx (F + 1) (by omega) (by omega)
        simp only [write]; split_ifs <;> omega
    · have hd0 : ((-1 : Int) > 0) = False := by simp
      simp only [hd0, if_false]
      refine ⟨trivial, ?_, ?_, ?_, trivial, Or.inl ⟨trivial, trivial, trivial⟩⟩
      · simp only [DChain, hcd, hch, write]
        refine ⟨by omega, ?_, ?_, by omega, ?_, ?_, trivial⟩ <;> (split_ifs <;> omega)
      · simp only [span, block_words, hcd, hch]; ring
      · intro x hx
        have a0 := hx 0 (by omega) (by omega)
        have a1 := hx (d + 1) (by omega) (by omega)
        have a2 := hx (d + 2) (by omega) (by omega)
        have a3 := hx (F + 1) (by omega) (by omega)
        simp only [write]; split_ifs <;> omega
  · refine ⟨[F], ?_⟩
    simp only [hsplit, decide_False, Bool.false_eq_true, if_false]
    have hcf : c_abs F = F := c_abs_of_pos hF
    rcases hdir with rfl | rfl
    · have hd0 : ((1 : Int) > 0) = True := by simp
      simp only [hd0, if_true]
      refine ⟨trivial, ?_, ?_, ?_, trivial, Or.inr ⟨trivial, trivial, by omega⟩⟩
      · simp only [DChain, hcf, write]
        refine ⟨by omega, ?_, ?_, trivial⟩ <;> (split_ifs <;> omega)
      · simp only [span, block_words, hcf]; ring
      · intro x hx
        have a0 := hx 0 (by omega) (by omega)
        have a3 := hx (F + 1) (by omega) (by omega)
        simp only [write]; split_ifs <;> omega
    · have hd0 : ((-1 : Int) > 0) = False := by simp
      simp only [hd0, if_false]
      refine ⟨trivial, ?_, ?_, ?_, trivial, Or.inr ⟨trivial, trivial, by omega⟩⟩
      · simp only [DChain, hcf, write]
        refine ⟨by omega, ?_, ?_, trivial⟩ <;> (split_ifs <;> omega)
      · simp only [span, block_words, hcf]; ring
      · intro x hx
        have a0 := hx 0 (by omega) (by omega)
        have a3 := hx (F + 1) (by omega) (by omega)
        simp only [write]; split_ifs <;> omega

theorem first_fit_split (d : Int) (ts : List Int) :
    (∀ t ∈ ts, Skipped d t) ∨
      ∃ pre F post, ts = pre ++ (-F) :: post ∧ (∀ t ∈ pre, Skipped d t) ∧ d ≤ F ∧ 0 < F := by
  induction ts with
  | nil => left; simp
  | cons t ts ih =>
    by_cases ht : t < 0 ∧ d ≤ -t
    · right
      exact ⟨[], -t, ts, by simp, by simp, ht.2, by omega⟩
    · rcases ih with ih | ⟨pre, F, post, e, hp, hd, hF⟩
      · left
        intro u hu
        rcases List.mem_cons.1 hu with rfl | hu
        · exact ht
        · exact ih u hu
      · right
        refine ⟨t :: pre, F, post, by simp [e], ?_, hd, hF⟩
        intro u hu
        rcases List.mem_cons.1 hu with rfl | hu
        · exact ht
        · exact hp u hu

theorem alloc_loop_no_fit {dir : Int} (hdir : dir = 1 ∨ dir = -1) (h d : Int) (s : State)
    (ts : List Int) (ptr0 : Int) (hc : DChain s.mem dir ptr0 ts) (hs : span ts = h)
    (hsk : ∀ t ∈ ts, Skipped d t) :
    alloc_loop dir h h.toNat s d ptr0 0 = ⟨s, 0, d⟩ := by
  have hl := length_le_span ts
  have hk : h.toNat = ts.length + (h.toNat - ts.length) := by omega
  rw [hk, alloc_loop_skip hdir h d s ts _ ptr0 0 hc hsk (by omega)]
  cases (h.toNat - ts.length) with
  | zero => rfl
  | succ k =>
    unfold alloc_loop
    have : ¬ (0 + span ts < h) := by omega
    simp only [this, if_false]

theorem alloc_loop_fit {dir : Int} (hdir : dir = 1 ∨ dir = -1) (h d F : Int) (s : State)
    (pre post : List Int) (ptr0 : Int) (hc : DChain s.mem dir ptr0 (pre ++ (-F) :: post))
    (hs : span (pre ++ (-F) :: post) = h) (hsk : ∀ t ∈ pre, Skipped d t)
    (hF : 0 < F) (hd1 : 1 ≤ d) (hd : d ≤ F) :
    ∃ new : List Int,
      (alloc_loop dir h h.toNat s d ptr0 0).state
        = { s with mem := (alloc_loop dir h h.toNat s d ptr0 0).state.mem } ∧
      DChain (alloc_loop dir h h.toNat s d ptr0 0).state.mem dir ptr0 (pre ++ new ++ post) ∧
      span new = F + 2 ∧
      (∀ x, (∀ k, 0 ≤ k → k < F + 2 → x ≠ ptr0 + dir * span pre + dir * k) →
        (alloc_loop dir h h.toNat s d ptr0 0).state.mem x = s.mem x) ∧
      (alloc_loop dir h h.toNat s d ptr0 0).retval
        = (if dir > 0 then ptr0 + dir * span pre + 1
           else ptr0 + dir * span pre - (alloc_loop dir h h.toNat s d ptr0 0).data_size) ∧
      ((new = [d, -(F - d - 2)] ∧ (alloc_loop dir h h.toNat s d ptr0 0).data_size = d ∧
          d + 4 < F) ∨
       (new = [F] ∧ (alloc_loop dir h h.toNat s d ptr0 0).data_size = F ∧ F ≤ d + 4)) := by
  have hl := length_le_span (pre ++ (-F) :: post)
  have hsp := span_nonneg pre
  have hspo := span_nonneg post
  have hcF : c_abs (-F) = F := by rw [c_abs_of_neg (by omega)]; ring
  have hspan : span (pre ++ (-F) :: post) = span pre + (F + 2) + span post := by
    rw [span_append]; simp only [span, block_words, hcF]; ring
  rw [List.length_append, List.length_cons] at hl
  push_cast at hl
  have hk : h.toNat = pre.length + ((h.toNat - pre.length - 1) + 1) := by omega
  obtain ⟨hcpre, hcrest⟩ := (dchain_append s.mem pre _ ptr0).1 hc
  obtain ⟨-, hb1, hb2, hcpost⟩ := hcrest
  rw [hcF] at hb2 hcpost
  rw [hk, alloc_loop_skip hdir h d s pre _ ptr0 0 hcpre hsk (by omega)]
  obtain ⟨new, e1, e2, e3, e4, e5, e6⟩ :=
    alloc_loop_hit hdir h d F s (h.toNat - pre.length - 1) (ptr0 + dir * span pre)
      (0 + span pre) (by omega) hF hb1 hb2 hd1 hd
  refine ⟨new, e1, ?_, e3, e4, e5, e6⟩
  rw [List.append_assoc, dchain_append, dchain_append]
  refine ⟨?_, e2, ?_⟩
  · apply dchain_frame pre ptr0 hcpre
    intro k hk0 hk1
    apply e4
    intro k2 hk2 _
    rcases hdir with rfl | rfl <;> omega
  · rw [e3]
    apply dchain_frame post _ hcpost
    intro k hk0 hk1
    apply e4
    intro k2 _ hk2
    rcases hdir with rfl | rfl <;> omega

/-! ## Frame facts of the reporter and of the statistics recorder -/

theorem heap_failure_mem (r : heap_fail_t) (s : State) : (heap_failure r s).mem = s.mem := by
  unfold heap_failure; split <;> rfl

theorem heap_failure_heap_main (r : heap_fail_t) (s : State) :
    (heap_failure r s).heap_main = s.heap_main := by
  unfold heap_failure; split <;> rfl

theorem heap_failure_heap_main_end (r : heap_fail_t) (s : State) :
    (heap_failure r s).heap_main_end = s.heap_main_end := by
  unfold heap_failure; split <;> rfl

theorem heap_failure_heap_size (r : heap_fail_t) (s : State) :
    (heap_failure r s).heap_size = s.heap_size := by
  unfold heap_failure; split <;> rfl

theorem heap_failure_stat (r : heap_fail_t) (s : State) :
    (heap_failure r s).mem_stat_info_ptr = s.mem_stat_info_ptr := by
  unfold heap_failure; split <;> rfl

theorem heap_failure_callback_eq (r : heap_fail_t) (s : State) :
    (heap_failure r s).heap_failure_callback = s.heap_failure_callback := by
  unfold heap_failure; split <;> rfl

theorem heap_failure_reported (r : heap_fail_t) (s : State) (h : s.heap_failure_callback = true) :
    (heap_failure r s).reported = s.reported ++ [r] := by
  unfold heap_failure; simp [h]

theorem dev_stat_update_mem (ty : mem_stat_update_t) (n : Int) (s : State) :
    (dev_stat_update ty n s).mem = s.mem := by
  unfold dev_stat_update; cases s.mem_stat_info_ptr <;> cases ty <;> rfl

theorem dev_stat_update_heap_main (ty : mem_stat_update_t) (n : Int) (s : State) :
    (dev_stat_update ty n s).heap_main = s.heap_main := by
  unfold dev_stat_update; cases s.mem_stat_info_ptr <;> cases ty <;> rfl

theorem dev_stat_update_heap_main_end (ty : mem_stat_update_t) (n : Int) (s : State) :
    (dev_stat_update ty n s).heap_main_end = s.heap_main_end := by
  unfold dev_stat_update; cases s.mem_stat_info_ptr <;> cases ty <;> rfl

theorem dev_stat_update_heap_size (ty : mem_stat_update_t) (n : Int) (s : State) :
    (dev_stat_update ty n s).heap_size = s.heap_size := by
  unfold dev_stat_update; cases s.mem_stat_info_ptr <;> cases ty <;> rfl

theorem dev_stat_update_reported (ty : mem_stat_update_t) (n : Int) (s : State) :
    (dev_stat_update ty n s).reported = s.reported := by
  unfold dev_stat_update; cases s.mem_stat_info_ptr <;> cases ty <;> rfl

theorem dev_stat_update_callback (ty : mem_stat_update_t) (n : Int) (s : State) :
    (dev_stat_update ty n s).heap_failure_callback = s.heap_failure_callback := by
  unfold dev_stat_update; cases s.mem_stat_info_ptr <;> cases ty <;> rfl

/-- Two states with the same pool: same memory, bounds and size. -/
theorem wellFormed_congr {s s' : State} {ts : List Int} (h : WellFormed s ts)
    (hm : s'.mem = s.mem) (h1 : s'.heap_main = s.heap_main)
    (h2 : s'.heap_main_end = s.heap_main_end) (h3 : s'.heap_size = s.heap_size) :
    WellFormed s' ts := by
  unfold WellFormed at *
  rw [hm, h1, h2, h3]; exact h

/-! ## Conversion of the request size -/

theorem convert_allocation_size_snd (dm : DataModel) (a : Int) (s : State)
    (ha : 1 ≤ a ∧ a ≤ 32767) : (convert_allocation_size dm a s).2 = (a + 3) / 4 := by
  unfold convert_allocation_size
  cases dm <;>
    simp only [to_size_t, to_uint, size_t_bits, to_sint, sizeof_int] <;>
    norm_num <;> omega

theorem convert_allocation_size_fst (dm : DataModel) (a : Int) (s : State) :
    (convert_allocation_size dm a s).1 = s ∨
      ∃ r, (convert_allocation_size dm a s).1 = heap_failure r s := by
  unfold convert_allocation_size
  simp only
  split_ifs
  · exact Or.inr ⟨_, rfl⟩
  · exact Or.inr ⟨_, rfl⟩
  · exact Or.inr ⟨_, rfl⟩
  · exact Or.inl rfl

theorem convert_allocation_size_frame (dm : DataModel) (a : Int) (s : State) :
    (convert_allocation_size dm a s).1.mem = s.mem ∧
    (convert_allocation_size dm a s).1.heap_main = s.heap_main ∧
    (convert_allocation_size dm a s).1.heap_main_end = s.heap_main_end ∧
    (convert_allocation_size dm a s).1.heap_size = s.heap_size ∧
    (convert_allocation_size dm a s).1.mem_stat_info_ptr = s.mem_stat_info_ptr ∧
    (convert_allocation_size dm a s).1.heap_failure_callback = s.heap_failure_callback := by
  rcases convert_allocation_size_fst dm a s with h | ⟨r, h⟩
  · rw [h]; simp
  · rw [h]
    exact ⟨heap_failure_mem _ _, heap_failure_heap_main _ _, heap_failure_heap_main_end _ _,
      heap_failure_heap_size _ _, heap_failure_stat _ _, heap_failure_callback_eq _ _⟩

/-! ## Payload pointers of a chain -/

theorem ptrs_append (xs ys : List Int) (a : Int) :
    ptrs a (xs ++ ys) = ptrs a xs ++ ptrs (a + span xs) ys := by
  induction xs generalizing a with
  | nil => simp [ptrs, span]
  | cons t ts ih =>
    have e : a + block_words t + span ts = a + (block_words t + span ts) := by ring
    show ptrs a (t :: (ts ++ ys)) = ptrs a (t :: ts) ++ ptrs (a + (block_words t + span ts)) ys
    simp only [ptrs]
    split <;> simp [ih, e]

theorem ptrs_bounds {a p t : Int} {ts : List Int} (h : (p, t) ∈ ptrs a ts) :
    0 < t ∧ a + 1 ≤ p ∧ p + t + 1 ≤ a + span ts := by
  induction ts generalizing a with
  | nil => simp [ptrs] at h
  | cons u us ih =>
    have hu := c_abs_nonneg u
    have hs := span_nonneg us
    simp only [ptrs] at h
    simp only [span, block_words]
    split at h
    · rename_i hpos
      rcases List.mem_cons.1 h with e | h
      · simp only [Prod.mk.injEq] at e
        obtain ⟨rfl, rfl⟩ := e
        rw [c_abs_of_pos hpos]; omega
      · have := ih h; simp only [block_words] at this; omega
    · have := ih h; simp only [block_words] at this; omega

theorem ptrs_mem_split {a p t : Int} {ts : List Int} (h : (p, t) ∈ ptrs a ts) :
    ∃ pre post, ts = pre ++ t :: post ∧ p = a + span pre + 1 ∧ 0 < t := by
  induction ts generalizing a with
  | nil => simp [ptrs] at h
  | cons u us ih =>
    simp only [ptrs] at h
    have hrec : (p, t) ∈ ptrs (a + block_words u) us →
        ∃ pre post, u :: us = pre ++ t :: post ∧ p = a + span pre + 1 ∧ 0 < t := by
      intro h
      obtain ⟨pre, post, e, hp, ht⟩ := ih h
      exact ⟨u :: pre, post, by simp [e], by simp only [span]; omega, ht⟩
    split at h
    · rename_i hpos
      rcases List.mem_cons.1 h with e | h
      · simp only [Prod.mk.injEq] at e
        obtain ⟨rfl, rfl⟩ := e
        exact ⟨[], us, by simp, by simp [span], hpos⟩
      · exact hrec h
    · exact hrec h

theorem ptrs_disjoint {a : Int} {ts : List Int} {x y : Int × Int}
    (hx : x ∈ ptrs a ts) (hy : y ∈ ptrs a ts) (hne : x.1 ≠ y.1) :
    x.1 + x.2 < y.1 ∨ y.1 + y.2 < x.1 := by
  induction ts generalizing a with
  | nil => simp [ptrs] at hx
  | cons u us ih =>
    obtain ⟨p, t⟩ := x
    obtain ⟨q, v⟩ := y
    simp only [ptrs] at hx hy
    simp only at hne ⊢
    by_cases hpos : 0 < u
    · simp only [hpos, if_true] at hx hy
      have hcu := c_abs_of_pos hpos
      rcases List.mem_cons.1 hx with e | hx <;> rcases List.mem_cons.1 hy with e2 | hy
      · simp only [Prod.mk.injEq] at e e2; omega
      · simp only [Prod.mk.injEq] at e
        have := ptrs_bounds hy; simp only [block_words] at this; omega
      · simp only [Prod.mk.injEq] at e2
        have := ptrs_bounds hx; simp only [block_words] at this; omega
      · exact ih hx hy
    · simp only [hpos, if_false] at hx hy
      exact ih hx hy

theorem ptrs_chain_tag {mem : Int → Int} {a p t : Int} {ts : List Int}
    (hc : DChain mem 1 a ts) (h : (p, t) ∈ ptrs a ts) : mem (p - 1) = t ∧ mem (p + t) = t := by
  obtain ⟨pre, post, rfl, hp, ht⟩ := ptrs_mem_split h
  obtain ⟨-, -, h1, h2, -⟩ := (dchain_append mem pre _ a).1 hc
  rw [c_abs_of_pos ht] at h2
  have e1 : p - 1 = a + 1 * span pre := by omega
  have e2 : p + t = a + 1 * span pre + 1 * (t + 1) := by omega
  rw [e1, e2]; exact ⟨h1, h2⟩

/-! ## The scan on a well-formed pool, in address order -/

theorem alloc_loop_wf {dir : Int} (hdir : dir = 1 ∨ dir = -1) (d : Int) (s : State)
    (tags : List Int) (hwf : WellFormed s tags) (hd1 : 1 ≤ d) (r : ScanResult)
    (hr : r = alloc_loop dir (s.heap_size / sizeof_int) (s.heap_size / sizeof_int).toNat s d
      (if dir > 0 then s.heap_main else s.heap_main_end) 0) :
    (r = ⟨s, 0, d⟩ ∧ ∀ t ∈ tags, Skipped d t) ∨
    (∃ pre F post new, tags = pre ++ (-F) :: post ∧ 0 < F ∧ d ≤ F ∧
      r.state = { s with mem := r.state.mem } ∧
      DChain r.state.mem 1 s.heap_main (pre ++ new ++ post) ∧ span new = F + 2 ∧
      ptrs (s.heap_main + span pre) new = [(r.retval, r.data_size)] ∧
      (∀ x, x < s.heap_main + span pre ∨ s.heap_main + span pre + F + 2 ≤ x →
        r.state.mem x = s.mem x) ∧
      ((dir = 1 ∧ (∀ t ∈ pre, Skipped d t) ∧
          ((new = [d, -(F - d - 2)] ∧ d + 4 < F) ∨ (new = [F] ∧ F ≤ d + 4))) ∨
       (dir = -1 ∧ (∀ t ∈ post, Skipped d t) ∧
          ((new = [-(F - d - 2), d] ∧ d + 4 < F) ∨ (new = [F] ∧ F ≤ d + 4))))) := by
  obtain ⟨hc, hend, hsz⟩ := hwf
  rcases hdir with rfl | rfl
  · have hd0 : ((1 : Int) > 0) = True := by simp
    simp only [hd0, if_true] at hr
    rcases first_fit_split d tags with hsk | ⟨pre, F, post, rfl, hsk, hdF, hF⟩
    · left
      rw [alloc_loop_no_fit (Or.inl rfl) _ d s tags _ hc hsz.symm hsk] at hr
      exact ⟨hr, hsk⟩
    · right
      obtain ⟨new, e1, e2, e3, e4, e5, e6⟩ :=
        alloc_loop_fit (Or.inl rfl) _ d F s pre post _ hc hsz.symm hsk hF hd1 hdF
      rw [← hr] at e1 e2 e4 e5 e6
      simp only [hd0, if_true] at e5
      refine ⟨pre, F, post, new, rfl, hF, hdF, e1, e2, e3, ?_, ?_, Or.inl ⟨rfl, hsk, ?_⟩⟩
      · rcases e6 with ⟨rfl, hds, hlt⟩ | ⟨rfl, hds, hle⟩
        · have h1 : 0 < d := by omega
          have h2 : ¬ (0 < -(F - d - 2)) := by omega
          simp only [ptrs, h1, h2, if_true, if_false, e5, hds]
          simp
        · simp only [ptrs, hF, if_true, e5, hds]
          simp
      · intro x hx
        apply e4
        intro k hk0 hk1
        omega
      · rcases e6 with ⟨rfl, -, hlt⟩ | ⟨rfl, -, hle⟩
        · exact Or.inl ⟨rfl, hlt⟩
        · exact Or.inr ⟨rfl, hle⟩
  · have hd0 : ((-1 : Int) > 0) = False := by simp
    simp only [hd0, if_false] at hr
    have hcr := (dchain_reverse s.mem tags s.heap_main).1 hc
    have hend' : s.heap_main + span tags - 1 = s.heap_main_end := by omega
    rw [hend'] at hcr
    have hszr : span tags.reverse = s.heap_size / sizeof_int := by rw [span_reverse, hsz]
    rcases first_fit_split d tags.reverse with hsk | ⟨pre, F, post, hrev, hsk, hdF, hF⟩
    · left
      rw [alloc_loop_no_fit (Or.inr rfl) _ d s tags.reverse _ hcr hszr hsk] at hr
      exact ⟨hr, fun u hu => hsk u (List.mem_reverse.2 hu)⟩
    · right
      have htags : tags = post.reverse ++ (-F) :: pre.reverse := by
        have := congrArg List.reverse hrev
        simpa using this
      rw [hrev] at hcr hszr
      obtain ⟨new, e1, e2, e3, e4, e5, e6⟩ :=
        alloc_loop_fit (Or.inr rfl) _ d F s pre post _ hcr hszr hsk hF hd1 hdF
      rw [← hr] at e1 e2 e4 e5 e6
      simp only [hd0, if_false] at e5
      have hcF : c_abs (-F) = F := by rw [c_abs_of_neg (by omega)]; ring
      have hsp1 : span tags = span post + (F + 2) + span pre := by
        rw [htags, span_append, span_reverse]
        simp only [span, span_reverse, block_words, hcF]; ring
      have hsp2 : span (post.reverse ++ new.reverse ++ pre.reverse) = span tags := by
        rw [span_append, span_append, span_reverse, span_reverse, span_reverse, e3, hsp1]
      have hfw : DChain r.state.mem 1 s.heap_main (post.reverse ++ new.reverse ++ pre.reverse) := by
        rw [dchain_reverse, hsp2, hend']
        simpa [List.reverse_append, List.append_assoc] using e2
      refine ⟨post.reverse, F, pre.reverse, new.reverse, htags, hF, hdF, e1, hfw,
        by rw [span_reverse, e3], ?_, ?_, Or.inr ⟨rfl, ?_, ?_⟩⟩
      · rw [span_reverse]
        rcases e6 with ⟨rfl, hds, hlt⟩ | ⟨rfl, hds, hle⟩
        · have h1 : 0 < d := by omega
          have h2 : ¬ (0 < -(F - d - 2)) := by omega
          have hch : c_abs (-(F - d - 2)) = F - d - 2 := by
            rw [c_abs_of_neg (by omega)]; ring
          simp only [List.reverse_cons, List.reverse_nil, List.nil_append, List.singleton_append,
            ptrs, h1, h2, if_true, if_false, e5, hds, block_words, hch]
          simp only [List.cons.injEq, Prod.mk.injEq, and_true]
          omega
        · simp only [List.reverse_cons, List.reverse_nil, List.nil_append, ptrs, hF, if_true,
            e5, hds]
          simp only [List.cons.injEq, Prod.mk.injEq, and_true]
          omega
      · intro x hx
        rw [span_reverse] at hx
        apply e4
        intro k hk0 hk1
        omega
      · intro u hu
        exact hsk u (List.mem_reverse.1 hu)
      · rcases e6 with ⟨rfl, -, hlt⟩ | ⟨rfl, -, hle⟩
        · exact Or.inl ⟨rfl, hlt⟩
        · exact Or.inr ⟨rfl, hle⟩

theorem internal_alloc_unfold (dm : DataModel) (a dir : Int) (s : State)
    (ha : 1 ≤ a ∧ a ≤ 32767) :
    ∃ s2 : State,
      ns_dyn_mem_internal_alloc dm a dir s =
        (s2, (alloc_loop dir ((convert_allocation_size dm a s).1.heap_size / sizeof_int)
          ((convert_allocation_size dm a s).1.heap_size / sizeof_int).toNat
          (convert_allocation_size dm a s).1 ((a + 3) / 4)
          (if dir > 0 then (convert_allocation_size dm a s).1.heap_main
           else (convert_allocation_size dm a s).1.heap_main_end) 0).retval) ∧
      (s2 = (alloc_loop dir ((convert_allocation_size dm a s).1.heap_size / sizeof_int)
          ((convert_allocation_size dm a s).1.heap_size / sizeof_int).toNat
          (convert_allocation_size dm a s).1 ((a + 3) / 4)
          (if dir > 0 then (convert_allocation_size dm a s).1.heap_main
           else (convert_allocation_size dm a s).1.heap_main_end) 0).state ∨
       ∃ ty n, s2 = dev_stat_update ty n
        (alloc_loop dir ((convert_allocation_size dm a s).1.heap_size / sizeof_int)
          ((convert_allocation_size dm a s).1.heap_size / sizeof_int).toNat
          (convert_allocation_size dm a s).1 ((a + 3) / 4)
          (if dir > 0 then (convert_allocation_size dm a s).1.heap_main
           else (convert_allocation_size dm a s).1.heap_main_end) 0).state) := by
  have hd := convert_allocation_size_snd dm a s ha
  have hd0 : (a + 3) / 4 ≠ 0 := by omega
  unfold ns_dyn_mem_internal_alloc
  simp only [hd, ne_eq, hd0, not_false_eq_true, if_true]
  refine ⟨_, rfl, ?_⟩
  split_ifs <;> first | exact Or.inl rfl | exact Or.inr ⟨_, _, rfl⟩

theorem internal_alloc_wf (dm : DataModel) (a dir : Int) (s : State) (tags : List Int)
    (hwf : WellFormed s tags) (h0 : 0 ≤ s.heap_main) (ha : 1 ≤ a ∧ a ≤ 32767)
    (hdir : dir = 1 ∨ dir = -1) :
    (ns_dyn_mem_internal_alloc dm a dir s).1.heap_main = s.heap_main ∧
    (ns_dyn_mem_internal_alloc dm a dir s).1.heap_main_end = s.heap_main_end ∧
    (ns_dyn_mem_internal_alloc dm a dir s).1.heap_size = s.heap_size ∧
    (((ns_dyn_mem_internal_alloc dm a dir s).2 = 0 ∧
        (ns_dyn_mem_internal_alloc dm a dir s).1.mem = s.mem) ∨
     ((ns_dyn_mem_internal_alloc dm a dir s).2 ≠ 0 ∧
        ∃ pre F post new size, tags = pre ++ (-F) :: post ∧ 0 < F ∧
          WellFormed (ns_dyn_mem_internal_alloc dm a dir s).1 (pre ++ new ++ post) ∧
          span new = F + 2 ∧
          ptrs (s.heap_main + span pre) new
            = [((ns_dyn_mem_internal_alloc dm a dir s).2, size)])) := by
  obtain ⟨s2, he, hs2⟩ := internal_alloc_unfold dm a dir s ha
  obtain ⟨f1, f2, f3, f4, -, -⟩ := convert_allocation_size_frame dm a s
  have hwf1 : WellFormed (convert_allocation_size dm a s).1 tags :=
    wellFormed_congr hwf f1 f2 f3 f4
  have hd1 : 1 ≤ (a + 3) / 4 := by omega
  rw [he]
  simp only
  have key := alloc_loop_wf hdir ((a + 3) / 4) _ tags hwf1 hd1 _ rfl
  generalize (alloc_loop dir ((convert_allocation_size dm a s).1.heap_size / sizeof_int)
          ((convert_allocation_size dm a s).1.heap_size / sizeof_int).toNat
          (convert_allocation_size dm a s).1 ((a + 3) / 4)
          (if dir > 0 then (convert_allocation_size dm a s).1.heap_main
           else (convert_allocation_size dm a s).1.heap_main_end) 0) = r at key hs2
  have hfr : s2.mem = r.state.mem ∧ s2.heap_main = r.state.heap_main ∧
      s2.heap_main_end = r.state.heap_main_end ∧ s2.heap_size = r.state.heap_size := by
    rcases hs2 with rfl | ⟨ty, n, rfl⟩
    · exact ⟨rfl, rfl, rfl, rfl⟩
    · exact ⟨dev_stat_update_mem _ _ _, dev_stat_update_heap_main _ _ _,
        dev_stat_update_heap_main_end _ _ _, dev_stat_update_heap_size _ _ _⟩
  obtain ⟨g1, g2, g3, g4⟩ := hfr
  rcases key with ⟨hr, -⟩ | ⟨pre, F, post, new, htags, hF, hdF, e1, e2, e3, e4, e5, e6⟩
  · rw [hr] at g1 g2 g3 g4
    simp only at g1 g2 g3 g4
    refine ⟨by rw [g2, f2], by rw [g3, f3], by rw [g4, f4], Or.inl ⟨by rw [hr], by rw [g1, f1]⟩⟩
  · have hst : r.state.heap_main = s.heap_main ∧ r.state.heap_main_end = s.heap_main_end ∧
        r.state.heap_size = s.heap_size := by
      rw [e1]; exact ⟨f2, f3, f4⟩
    obtain ⟨k1, k2, k3⟩ := hst
    refine ⟨by rw [g2, k1], by rw [g3, k2], by rw [g4, k3], Or.inr ⟨?_, ?_⟩⟩
    · rw [f2] at e4
      have hb := @ptrs_bounds (s.heap_main + span pre) r.retval r.data_size new
        (by rw [e4]; simp)
      have := span_nonneg pre
      omega
    · refine ⟨pre, F, post, new, r.data_size, htags, hF, ?_, e3, by rw [← f2]; exact e4⟩
      obtain ⟨hc, hend, hsz⟩ := hwf
      have hcF : c_abs (-F) = F := by rw [c_abs_of_neg (by omega)]; ring
      have hspan : span (pre ++ new ++ post) = span tags := by
        rw [htags, span_append, span_append, span_append, e3]
        simp only [span, block_words, hcF]; ring
      refine ⟨?_, ?_, ?_⟩
      · rw [g1, g2, k1]; rw [f2] at e2; exact e2
      · rw [g2, g3, k1, k2, hspan]; exact hend
      · rw [g4, k3, hspan]; exact hsz

/-! ## Freeing a block of a well-formed pool -/

theorem free_merge_mem (cur t : Int) (s : State) (ht : 0 < t) :
    (ns_free_and_merge_with_adjacent_blocks cur t s).mem
      = write (write (write (write s.mem cur (-t)) (cur + t + 1) (-t))
          (cur - (if cur ≠ s.heap_main ∧ s.mem (cur - 1) < 0 then 2 - s.mem (cur - 1) else 0))
          (-(t + (if cur ≠ s.heap_main ∧ s.mem (cur - 1) < 0 then 2 - s.mem (cur - 1) else 0)
              + (if cur + t + 1 ≠ s.heap_main_end ∧ s.mem (cur + t + 2) < 0
                  then 2 - s.mem (cur + t + 2) else 0))))
          (cur + t + 1 + (if cur + t + 1 ≠ s.heap_main_end ∧ s.mem (cur + t + 2) < 0
                  then 2 - s.mem (cur + t + 2) else 0))
          (-(t + (if cur ≠ s.heap_main ∧ s.mem (cur - 1) < 0 then 2 - s.mem (cur - 1) else 0)
              + (if cur + t + 1 ≠ s.heap_main_end ∧ s.mem (cur + t + 2) < 0
                  then 2 - s.mem (cur + t + 2) else 0))) := by
  have r1 : write (write s.mem cur (-t)) (cur + t + 1) (-t) (cur - 1) = s.mem (cur - 1) := by
    rw [write_other _ _ (by omega), write_other _ _ (by omega)]
  have r2 : write (write s.mem cur (-t)) (cur + t + 1) (-t) (cur + t + 1 + 1)
      = s.mem (cur + t + 2) := by
    rw [write_other _ _ (by omega), write_other _ _ (by omega)]
    congr 1; ring
  unfold ns_free_and_merge_with_adjacent_blocks
  simp only [r1, r2]
  rcases Classical.em (cur ≠ s.heap_main ∧ s.mem (cur - 1) < 0) with hL | hL <;>
    rcases Classical.em (cur + t + 1 ≠ s.heap_main_end ∧ s.mem (cur + t + 2) < 0)
      with hR | hR
  · simp only [eq_true hL, eq_true hR, decide_True, if_true, add_zero, sub_zero]
    ring_nf
  · simp only [eq_true hL, eq_false hR, decide_True, decide_False, if_true, if_false,
      Bool.false_eq_true, add_zero, sub_zero]
  · simp only [eq_false hL, eq_true hR, decide_True, decide_False, if_true, if_false,
      Bool.false_eq_true, add_zero, sub_zero]
    ring_nf
  · simp only [eq_false hL, eq_false hR, decide_False, if_false,
      Bool.false_eq_true, add_zero, sub_zero]

theorem free_merge_frame (cur t : Int) (s : State) :
    ns_free_and_merge_with_adjacent_blocks cur t s
      = { s with mem := (ns_free_and_merge_with_adjacent_blocks cur t s).mem } := rfl

theorem left_amount (mem : Int → Int) (a cur : Int) (pre : List Int)
    (hc : DChain mem 1 a pre) (hcur : cur = a + span pre) :
    ∃ preK L, 0 ≤ L ∧ span preK + L = span pre ∧ DChain mem 1 a preK ∧
      ptrs a preK = ptrs a pre ∧
      (if cur ≠ a ∧ mem (cur - 1) < 0 then 2 - mem (cur - 1) else 0) = L ∧
      ((L = 0 ∧ preK = pre ∧ (pre = [] ∨ ∃ pre0 l, pre = pre0 ++ [l] ∧ 0 < l)) ∨
       (∃ l, pre = preK ++ [l] ∧ l < 0 ∧ L = 2 - l)) := by
  rcases List.eq_nil_or_concat pre with rfl | ⟨pre0, l, hpre⟩
  · refine ⟨[], 0, le_refl _, by simp [span], hc, rfl, ?_, Or.inl ⟨rfl, rfl, Or.inl rfl⟩⟩
    have : ¬ (cur ≠ a ∧ mem (cur - 1) < 0) := by
      simp only [span] at hcur; intro h; exact h.1 (by omega)
    simp only [eq_false this, if_false]
  · rw [List.concat_eq_append] at hpre
    subst hpre
    obtain ⟨hc0, hl0, -, hl2, -⟩ := (dchain_append mem pre0 [l] a).1 hc
    have hsp : span (pre0 ++ [l]) = span pre0 + (c_abs l + 2) := by
      rw [span_append]; simp only [span, block_words]; ring
    have hs0 := span_nonneg pre0
    have hca := c_abs_nonneg l
    have haddr : a + 1 * span pre0 + 1 * (c_abs l + 1) = cur - 1 := by rw [hcur, hsp]; ring
    rw [haddr] at hl2
    have hne : cur ≠ a := by omega
    by_cases hneg : l < 0
    · refine ⟨pre0, 2 - l, by omega, ?_, hc0, ?_, ?_, Or.inr ⟨l, rfl, hneg, rfl⟩⟩
      · rw [hsp, c_abs_of_neg hneg]; ring
      · rw [ptrs_append]
        have : ¬ (0 < l) := by omega
        simp [ptrs, this]
      · have : cur ≠ a ∧ mem (cur - 1) < 0 := ⟨hne, by rw [hl2]; exact hneg⟩
        rw [if_pos this, hl2]
    · refine ⟨pre0 ++ [l], 0, le_refl _, by omega, hc, rfl, ?_,
        Or.inl ⟨rfl, rfl, Or.inr ⟨pre0, l, rfl, by omega⟩⟩⟩
      have : ¬ (cur ≠ a ∧ mem (cur - 1) < 0) := by
        intro h; rw [hl2] at h; exact hneg h.2
      simp only [eq_false this, if_false]

theorem right_amount (mem : Int → Int) (c e1 E : Int) (post : List Int)
    (hc : DChain mem 1 c post) (he1 : e1 + 1 = c) (hE : c + span post = E + 1) :
    ∃ postK R, 0 ≤ R ∧ R + span postK = span post ∧ DChain mem 1 (c + R) postK ∧
      ptrs (c + R) postK = ptrs c post ∧
      (if e1 ≠ E ∧ mem c < 0 then 2 - mem c else 0) = R ∧
      ((R = 0 ∧ postK = post ∧ (post = [] ∨ ∃ r post0, post = r :: post0 ∧ 0 < r)) ∨
       (∃ r, post = r :: postK ∧ r < 0 ∧ R = 2 - r)) := by
  cases post with
  | nil =>
    refine ⟨[], 0, le_refl _, by simp [span], by simpa using hc, by simp, ?_,
      Or.inl ⟨rfl, rfl, Or.inl rfl⟩⟩
    have : ¬ (e1 ≠ E ∧ mem c < 0) := by
      simp only [span] at hE; intro h; exact h.1 (by omega)
    simp only [eq_false this, if_false]
  | cons r post0 =>
    have hc' := hc
    obtain ⟨hr0, hr1, -, hr3⟩ := hc
    have hs0 := span_nonneg post0
    have hca := c_abs_nonneg r
    simp only [span, block_words] at hE
    have hne : e1 ≠ E := by omega
    by_cases hneg : r < 0
    · have e : c + 1 * (c_abs r + 2) = c + (2 - r) := by rw [c_abs_of_neg hneg]; ring
      rw [e] at hr3
      refine ⟨post0, 2 - r, by omega, ?_, hr3, ?_, ?_, Or.inr ⟨r, rfl, hneg, rfl⟩⟩
      · simp only [span, block_words, c_abs_of_neg hneg]; ring
      · have : ¬ (0 < r) := by omega
        simp only [ptrs, this, if_false, block_words, c_abs_of_neg hneg]
        congr 1; ring
      · have : e1 ≠ E ∧ mem c < 0 := ⟨hne, by rw [hr1]; exact hneg⟩
        rw [if_pos this, hr1]
    · refine ⟨r :: post0, 0, le_refl _, by omega, ?_, by simp, ?_,
        Or.inl ⟨rfl, rfl, Or.inr ⟨r, post0, rfl, by omega⟩⟩⟩
      · simpa using hc'
      · have : ¬ (e1 ≠ E ∧ mem c < 0) := by
          intro h; rw [hr1] at h; exact hneg h.2
        simp only [eq_false this, if_false]

theorem merge_chain (mem : Int → Int) (a cur t L R : Int) (preK postK : List Int)
    (hpre : DChain mem 1 a preK) (hcur : cur = a + span preK + L)
    (hpost : DChain mem 1 (cur + t + 2 + R) postK) (hL : 0 ≤ L) (hR : 0 ≤ R) (ht : 0 < t) :
    DChain (write (write (write (write mem cur (-t)) (cur + t + 1) (-t)) (cur - L)
        (-(t + L + R))) (cur + t + 1 + R) (-(t + L + R))) 1 a
      (preK ++ [-(t + L + R)] ++ postK) := by
  have hs0 := span_nonneg preK
  have hcm : c_abs (-(t + L + R)) = t + L + R := by rw [c_abs_of_neg (by omega)]; ring
  rw [List.append_assoc, dchain_append, List.singleton_append]
  refine ⟨?_, by omega, ?_, ?_, ?_⟩
  · apply dchain_frame preK a hpre
    intro k hk0 hk1
    rw [write_other _ _ (by omega), write_other _ _ (by omega), write_other _ _ (by omega),
      write_other _ _ (by omega)]
  · have e : a + 1 * span preK = cur - L := by omega
    rw [e, write_other _ _ (by omega), write_same]
  · have e : a + 1 * span preK + 1 * (c_abs (-(t + L + R)) + 1) = cur + t + 1 + R := by
      rw [hcm]; omega
    rw [e, write_same]
  · have e : a + 1 * span preK + 1 * (c_abs (-(t + L + R)) + 2) = cur + t + 2 + R := by
      rw [hcm]; omega
    rw [e]
    apply dchain_frame postK _ hpost
    intro k hk0 hk1
    rw [write_other _ _ (by omega), write_other _ _ (by omega), write_other _ _ (by omega),
      write_other _ _ (by omega)]

theorem free_success_eq (s : State) (p t : Int) (hp0 : p ≠ 0) (hm0 : s.heap_main ≠ 0)
    (ht : s.mem (p - 1) = t) (htpos : 0 < t) (hlo : s.heap_main ≤ p - 1)
    (hhi : p - 1 + t < s.heap_main_end) (hfoot : s.mem (p + t) = t) :
    ns_dyn_mem_free p s =
      (if (ns_free_and_merge_with_adjacent_blocks (p - 1) t s).mem_stat_info_ptr.isSome then
        dev_stat_update .DEV_HEAP_FREE (to_sint 16 ((t + 2) * sizeof_int))
          (ns_free_and_merge_with_adjacent_blocks (p - 1) t s)
       else ns_free_and_merge_with_adjacent_blocks (p - 1) t s) := by
  have hv : ns_block_validate s.mem (p - 1) 1 = 0 := by
    apply validate_of_block (Or.inl rfl) (t := t) (by omega) ht
    rw [c_abs_of_pos htpos]
    have e : p - 1 + 1 * (t + 1) = p + t := by ring
    rw [e]; exact hfoot
  unfold ns_dyn_mem_free
  have c1 : ¬ (t < 0) := by omega
  have c2 : ¬ (p - 1 < s.heap_main ∨ p - 1 ≥ s.heap_main_end) := by omega
  have c3 : ¬ (p - 1 + t ≥ s.heap_main_end) := by omega
  simp only [hp0, hm0, ht, c1, c2, c3, hv, if_false, ne_eq, not_true_eq_false]

theorem free_wf (s : State) (tags : List Int) (p t : Int) (hwf : WellFormed s tags)
    (h0 : 0 < s.heap_main) (hp : (p, t) ∈ ptrs s.heap_main tags) :
    ∃ pre post preK postK L R,
      tags = pre ++ t :: post ∧ p = s.heap_main + span pre + 1 ∧ 0 < t ∧
      0 ≤ L ∧ 0 ≤ R ∧ span preK + L = span pre ∧ R + span postK = span post ∧
      ((L = 0 ∧ preK = pre ∧ (pre = [] ∨ ∃ pre0 l, pre = pre0 ++ [l] ∧ 0 < l)) ∨
        (∃ l, pre = preK ++ [l] ∧ l < 0 ∧ L = 2 - l)) ∧
      ((R = 0 ∧ postK = post ∧ (post = [] ∨ ∃ r post0, post = r :: post0 ∧ 0 < r)) ∨
        (∃ r, post = r :: postK ∧ r < 0 ∧ R = 2 - r)) ∧
      WellFormed (ns_dyn_mem_free p s) (preK ++ [-(t + L + R)] ++ postK) ∧
      ptrs s.heap_main (preK ++ [-(t + L + R)] ++ postK)
        = ptrs s.heap_main pre ++ ptrs (s.heap_main + span pre + t + 2) post ∧
      ns_dyn_mem_free p s =
        (if s.mem_stat_info_ptr.isSome then
          dev_stat_update .DEV_HEAP_FREE (to_sint 16 ((t + 2) * sizeof_int))
            (ns_free_and_merge_with_adjacent_blocks (p - 1) t s)
         else ns_free_and_merge_with_adjacent_blocks (p - 1) t s) := by
  obtain ⟨pre, post, rfl, hpe, htpos⟩ := ptrs_mem_split hp
  obtain ⟨hc, hend, hsz⟩ := hwf
  obtain ⟨htag, hfoot⟩ := ptrs_chain_tag hc hp
  have hsp : span (pre ++ t :: post) = span pre + (t + 2) + span post := by
    rw [span_append]; simp only [span, block_words, c_abs_of_pos htpos]; ring
  have hs1 := span_nonneg pre
  have hs2 := span_nonneg post
  obtain ⟨hcpre, -, -, -, hcpost⟩ := (dchain_append s.mem pre _ s.heap_main).1 hc
  rw [c_abs_of_pos htpos] at hcpost
  have ec : s.heap_main + 1 * span pre + 1 * (t + 2) = p - 1 + t + 2 := by omega
  rw [ec] at hcpost
  obtain ⟨preK, L, hL0, hLs, hcK, hpK, hLif, hLshape⟩ :=
    left_amount s.mem s.heap_main (p - 1) pre hcpre (by omega)
  obtain ⟨postK, R, hR0, hRs, hcPK, hpPK, hRif, hRshape⟩ :=
    right_amount s.mem (p - 1 + t + 2) (p - 1 + t + 1) s.heap_main_end post hcpost (by ring)
      (by omega)
  have hfree := free_success_eq s p t (by omega) (by omega) htag htpos (by omega) (by omega) hfoot
  have hmem := free_merge_mem (p - 1) t s htpos
  rw [hLif, hRif] at hmem
  have hchain := merge_chain s.mem s.heap_main (p - 1) t L R preK postK hcK (by omega) hcPK
    hL0 hR0 htpos
  rw [← hmem] at hchain
  have hcm : c_abs (-(t + L + R)) = t + L + R := by rw [c_abs_of_neg (by omega)]; ring
  have hspan' : span (preK ++ [-(t + L + R)] ++ postK) = span (pre ++ t :: post) := by
    rw [span_append, span_append, hsp]
    simp only [span, block_words, hcm]; omega
  refine ⟨pre, post, preK, postK, L, R, rfl, hpe, htpos, hL0, hR0, hLs, hRs, hLshape, hRshape,
    ?_, ?_, hfree⟩
  · rw [hfree]
    have hM : WellFormed (ns_free_and_merge_with_adjacent_blocks (p - 1) t s)
        (preK ++ [-(t + L + R)] ++ postK) := by
      refine ⟨hchain, ?_, ?_⟩
      · rw [hspan']; exact hend
      · rw [hspan']; exact hsz
    split
    · exact wellFormed_congr hM (dev_stat_update_mem _ _ _) (dev_stat_update_heap_main _ _ _)
        (dev_stat_update_heap_main_end _ _ _) (dev_stat_update_heap_size _ _ _)
    · exact hM
  · rw [ptrs_append, ptrs_append, hpK]
    have hneg : ¬ (0 < -(t + L + R)) := by omega
    simp only [ptrs, hneg, if_false, List.append_nil, span_append, span, block_words, hcm]
    have e1 : s.heap_main + (span preK + (t + L + R + 2 + 0)) = p - 1 + t + 2 + R := by omega
    have e2 : s.heap_main + span pre + t + 2 = p - 1 + t + 2 := by omega
    rw [e1, e2, hpPK]

/-! ## Initialisation -/

theorem to_uint16_bounds (x : Int) : 0 ≤ to_uint 16 x ∧ to_uint 16 x ≤ 65535 := by
  unfold to_uint
  norm_num
  omega

theorem init_shape (heap h_size : Int) (cb info : Bool) (s0 : State)
    (hheap : 0 ≤ heap) (hsize : 0 ≤ h_size ∧ h_size ≤ 65535) :
    0 ≤ (ns_dyn_mem_init heap h_size cb info s0).heap_main ∧
    0 ≤ (ns_dyn_mem_init heap h_size cb info s0).heap_size ∧
    (ns_dyn_mem_init heap h_size cb info s0).heap_size ≤ 65535 ∧
    (ns_dyn_mem_init heap h_size cb info s0).heap_main_end
      = (ns_dyn_mem_init heap h_size cb info s0).heap_main
        + (ns_dyn_mem_init heap h_size cb info s0).heap_size / sizeof_int - 1 ∧
    (ns_dyn_mem_init heap h_size cb info s0).mem (ns_dyn_mem_init heap h_size cb info s0).heap_main
      = 2 - (ns_dyn_mem_init heap h_size cb info s0).heap_size / sizeof_int ∧
    (ns_dyn_mem_init heap h_size cb info s0).mem
        (ns_dyn_mem_init heap h_size cb info s0).heap_main_end
      = 2 - (ns_dyn_mem_init heap h_size cb info s0).heap_size / sizeof_int := by
  have b1 := to_uint16_bounds (h_size - (sizeof_int - heap % sizeof_int))
  have hs1 : 0 ≤ (if heap % sizeof_int ≠ 0 then
      to_uint 16 (h_size - (sizeof_int - heap % sizeof_int)) else h_size) ∧
      (if heap % sizeof_int ≠ 0 then
      to_uint 16 (h_size - (sizeof_int - heap % sizeof_int)) else h_size) ≤ 65535 := by
    split <;> omega
  generalize hg1 : (if heap % sizeof_int ≠ 0 then
      to_uint 16 (h_size - (sizeof_int - heap % sizeof_int)) else h_size) = h1 at hs1
  have b2 := to_uint16_bounds (h1 - (sizeof_int - h1 % sizeof_int))
  have hs2 : 0 ≤ (if h1 % sizeof_int ≠ 0 then
      to_uint 16 (h1 - (sizeof_int - h1 % sizeof_int)) else h1) ∧
      (if h1 % sizeof_int ≠ 0 then
      to_uint 16 (h1 - (sizeof_int - h1 % sizeof_int)) else h1) ≤ 65535 := by
    split <;> omega
  generalize hg2 : (if h1 % sizeof_int ≠ 0 then
      to_uint 16 (h1 - (sizeof_int - h1 % sizeof_int)) else h1) = h2 at hs2
  have hmain : 0 ≤ (if heap % sizeof_int ≠ 0 then heap + (sizeof_int - heap % sizeof_int)
      else heap) / sizeof_int := by
    unfold sizeof_int; split <;> omega
  unfold ns_dyn_mem_init
  simp only [hg1, hg2]
  refine ⟨hmain, hs2.1, hs2.2, by ring, ?_, ?_⟩
  · simp only [write]; split_ifs <;> omega
  · simp only [write]; split_ifs <;> omega

theorem init_inv (heap h_size : Int) (cb info : Bool) (s0 : State)
    (hheap : 0 ≤ heap) (hsize : 0 ≤ h_size ∧ h_size ≤ 65535) :
    Inv (ns_dyn_mem_init heap h_size cb info s0) [] := by
  obtain ⟨i1, i2, i3, i4, i5, i6⟩ := init_shape heap h_size cb info s0 hheap hsize
  generalize ns_dyn_mem_init heap h_size cb info s0 = s at *
  refine ⟨i1, ?_⟩
  have hh : 0 ≤ s.heap_size / sizeof_int := by unfold sizeof_int; omega
  by_cases h3 : 3 ≤ s.heap_size / sizeof_int
  · right
    refine ⟨[2 - s.heap_size / sizeof_int], ⟨?_, ?_, ?_⟩, List.nodup_nil, by simp⟩
    · have hc : c_abs (2 - s.heap_size / sizeof_int) = s.heap_size / sizeof_int - 2 := by
        rw [c_abs_of_neg (by omega)]; ring
      refine ⟨by omega, i5, ?_, trivial⟩
      rw [hc]
      have e : s.heap_main + 1 * (s.heap_size / sizeof_int - 2 + 1) = s.heap_main_end := by
        rw [i4]; ring
      rw [e]; exact i6
    · simp only [span, block_words]
      rw [c_abs_of_neg (by omega), i4]; ring
    · simp only [span, block_words]
      rw [c_abs_of_neg (by omega)]; ring
  · left
    refine ⟨?_, rfl⟩
    unfold Degenerate
    have : s.heap_size / sizeof_int = 0 ∨ s.heap_size / sizeof_int = 1 ∨
        s.heap_size / sizeof_int = 2 := by omega
    rcases this with h | h | h
    · exact Or.inl h
    · refine Or.inr (Or.inl ⟨h, by rw [i4, h]; ring, by rw [i5, h]; ring⟩)
    · refine Or.inr (Or.inr ⟨h, by rw [i4, h]; ring, by rw [i5, h]; ring, by rw [i6, h]; ring⟩)

/-! ## Preservation of the invariant -/

theorem degenerate_loop (dir d : Int) (s : State) (hdeg : Degenerate s) :
    (alloc_loop dir (s.heap_size / sizeof_int) (s.heap_size / sizeof_int).toNat s d
      (if dir > 0 then s.heap_main else s.heap_main_end) 0).retval = 0 ∧
    (alloc_loop dir (s.heap_size / sizeof_int) (s.heap_size / sizeof_int).toNat s d
      (if dir > 0 then s.heap_main else s.heap_main_end) 0).state.mem = s.mem ∧
    (alloc_loop dir (s.heap_size / sizeof_int) (s.heap_size / sizeof_int).toNat s d
      (if dir > 0 then s.heap_main else s.heap_main_end) 0).state.heap_main = s.heap_main ∧
    (alloc_loop dir (s.heap_size / sizeof_int) (s.heap_size / sizeof_int).toNat s d
      (if dir > 0 then s.heap_main else s.heap_main_end) 0).state.heap_main_end
        = s.heap_main_end ∧
    (alloc_loop dir (s.heap_size / sizeof_int) (s.heap_size / sizeof_int).toNat s d
      (if dir > 0 then s.heap_main else s.heap_main_end) 0).state.heap_size = s.heap_size := by
  rcases hdeg with h | ⟨h, he, hm⟩ | ⟨h, he, hm, hme⟩
  · rw [h]
    exact ⟨rfl, rfl, rfl, rfl, rfl⟩
  · rw [h]
    have hp : (if dir > 0 then s.heap_main else s.heap_main_end) = s.heap_main := by
      split
      · rfl
      · exact he
    have hn : ¬ ((1 : Int) < 0) := by omega
    have hfuel : (1 : Int).toNat = 0 + 1 := rfl
    rw [hp, hfuel, alloc_loop]
    simp only [zero_lt_one, if_true, hm, hn, if_false]
    split
    · rw [alloc_loop]
      exact ⟨rfl, rfl, rfl, rfl, rfl⟩
    · exact ⟨rfl, heap_failure_mem _ _, heap_failure_heap_main _ _,
        heap_failure_heap_main_end _ _, heap_failure_heap_size _ _⟩
  · rw [h]
    have hz : s.mem (if dir > 0 then s.heap_main else s.heap_main_end) = 0 := by
      split <;> assumption
    have hv : ns_block_validate s.mem (if dir > 0 then s.heap_main else s.heap_main_end) dir
        ≠ 0 := by
      unfold ns_block_validate
      simp only [hz, ne_eq, not_true_eq_false, false_and, if_false]
      omega
    have hfuel : (2 : Int).toNat = 1 + 1 := rfl
    rw [hfuel, alloc_loop]
    have h2 : (0 : Int) < 2 := by omega
    rw [if_pos h2, if_neg hv]
    exact ⟨rfl, heap_failure_mem _ _, heap_failure_heap_main _ _,
        heap_failure_heap_main_end _ _, heap_failure_heap_size _ _⟩

theorem degenerate_congr {s s' : State} (h : Degenerate s)
    (hm : s'.mem = s.mem) (h1 : s'.heap_main = s.heap_main)
    (h2 : s'.heap_main_end = s.heap_main_end) (h3 : s'.heap_size = s.heap_size) :
    Degenerate s' := by
  unfold Degenerate at *
  rw [hm, h1, h2, h3]; exact h

theorem internal_alloc_degenerate (dm : DataModel) (a dir : Int) (s : State)
    (hdeg : Degenerate s) (ha : 1 ≤ a ∧ a ≤ 32767) :
    (ns_dyn_mem_internal_alloc dm a dir s).2 = 0 ∧
    (ns_dyn_mem_internal_alloc dm a dir s).1.mem = s.mem ∧
    (ns_dyn_mem_internal_alloc dm a dir s).1.heap_main = s.heap_main ∧
    (ns_dyn_mem_internal_alloc dm a dir s).1.heap_main_end = s.heap_main_end ∧
    (ns_dyn_mem_internal_alloc dm a dir s).1.heap_size = s.heap_size := by
  obtain ⟨s2, he, hs2⟩ := internal_alloc_unfold dm a dir s ha
  obtain ⟨f1, f2, f3, f4, -, -⟩ := convert_allocation_size_frame dm a s
  have hdeg1 : Degenerate (convert_allocation_size dm a s).1 := degenerate_congr hdeg f1 f2 f3 f4
  obtain ⟨k0, k1, k2, k3, k4⟩ := degenerate_loop dir ((a + 3) / 4) _ hdeg1
  rw [he]
  simp only
  rcases hs2 with rfl | ⟨ty, n, rfl⟩
  · exact ⟨k0, by rw [k1, f1], by rw [k2, f2], by rw [k3, f3], by rw [k4, f4]⟩
  · exact ⟨k0, by rw [dev_stat_update_mem, k1, f1], by rw [dev_stat_update_heap_main, k2, f2],
      by rw [dev_stat_update_heap_main_end, k3, f3], by rw [dev_stat_update_heap_size, k4, f4]⟩

theorem alloc_inv (dm : DataModel) (a dir : Int) (s : State) (live : List Int)
    (hinv : Inv s live) (ha : 1 ≤ a ∧ a ≤ 32767) (hdir : dir = 1 ∨ dir = -1) :
    Inv (ns_dyn_mem_internal_alloc dm a dir s).1
      (if (ns_dyn_mem_internal_alloc dm a dir s).2 = 0 then live
       else (ns_dyn_mem_internal_alloc dm a dir s).2 :: live) := by
  obtain ⟨h0, hcase⟩ := hinv
  rcases hcase with ⟨hdeg, rfl⟩ | ⟨tags, hwf, hnd, hlive⟩
  · obtain ⟨k0, k1, k2, k3, k4⟩ := internal_alloc_degenerate dm a dir s hdeg ha
    rw [if_pos k0]
    exact ⟨by rw [k2]; exact h0, Or.inl ⟨degenerate_congr hdeg k1 k2 k3 k4, rfl⟩⟩
  · obtain ⟨k2, k3, k4, hres⟩ := internal_alloc_wf dm a dir s tags hwf h0 ha hdir
    refine ⟨by rw [k2]; exact h0, Or.inr ?_⟩
    rcases hres with ⟨hz, hmem⟩ | ⟨hnz, pre, F, post, new, size, htags, hF, hwf', hsp, hptr⟩
    · rw [if_pos hz]
      exact ⟨tags, wellFormed_congr hwf hmem k2 k3 k4, hnd, by rw [k2]; exact hlive⟩
    · rw [if_neg hnz]
      have hcF : c_abs (-F) = F := by rw [c_abs_of_neg (by omega)]; ring
      have hold : ptrs s.heap_main tags
          = ptrs s.heap_main pre ++ ptrs (s.heap_main + span pre + (F + 2)) post := by
        have hneg : ¬ (0 < -F) := by omega
        rw [htags, ptrs_append]
        simp only [ptrs, hneg, if_false, block_words, hcF]
      have hnew : ptrs s.heap_main (pre ++ new ++ post)
          = ptrs s.heap_main pre ++ ((ns_dyn_mem_internal_alloc dm a dir s).2, size)
              :: ptrs (s.heap_main + span pre + (F + 2)) post := by
        rw [List.append_assoc, ptrs_append, ptrs_append, hptr, hsp]
        simp [add_assoc]
      have hb := @ptrs_bounds (s.heap_main + span pre)
        (ns_dyn_mem_internal_alloc dm a dir s).2 size new (by rw [hptr]; simp)
      refine ⟨pre ++ new ++ post, hwf', ?_, ?_⟩
      · refine List.nodup_cons.2 ⟨?_, hnd⟩
        intro hmem
        obtain ⟨t, ht⟩ := hlive _ hmem
        rw [hold] at ht
        rcases List.mem_append.1 ht with ht | ht
        · have := ptrs_bounds ht; omega
        · have := ptrs_bounds ht; omega
      · intro p hp
        rw [k2, hnew]
        rcases List.mem_cons.1 hp with rfl | hp
        · exact ⟨size, by simp⟩
        · obtain ⟨t, ht⟩ := hlive p hp
          rw [hold] at ht
          refine ⟨t, ?_⟩
          rcases List.mem_append.1 ht with ht | ht
          · exact List.mem_append_left _ ht
          · exact List.mem_append_right _ (List.mem_cons_of_mem _ ht)

theorem free_inv (s : State) (live : List Int) (p : Int) (hinv : Inv s live) (hp : p ∈ live) :
    Inv (ns_dyn_mem_free p s) (live.erase p) := by
  obtain ⟨h0, hcase⟩ := hinv
  rcases hcase with ⟨-, rfl⟩ | ⟨tags, hwf, hnd, hlive⟩
  · simp at hp
  · obtain ⟨t, ht⟩ := hlive p hp
    have hb := ptrs_bounds ht
    by_cases hz : s.heap_main = 0
    · have hfree : ns_dyn_mem_free p s
          = heap_failure .NS_DYN_MEM_HEAP_SECTOR_UNITIALIZED s := by
        unfold ns_dyn_mem_free
        have : p ≠ 0 := by omega
        simp only [this, hz, if_true, if_false]
      rw [hfree]
      refine ⟨by rw [heap_failure_heap_main]; exact h0, Or.inr ⟨tags, ?_, hnd.erase p, ?_⟩⟩
      · exact wellFormed_congr hwf (heap_failure_mem _ _) (heap_failure_heap_main _ _)
          (heap_failure_heap_main_end _ _) (heap_failure_heap_size _ _)
      · intro q hq
        rw [heap_failure_heap_main]
        exact hlive q (List.mem_of_mem_erase hq)
    · obtain ⟨pre, post, preK, postK, L, R, htags, hpe, htpos, -, -, -, -, -, -, hwf', hptrs, hfe⟩ :=
        free_wf s tags p t hwf (by omega) ht
      have hmain : (ns_dyn_mem_free p s).heap_main = s.heap_main := by
        rw [hfe]
        split
        · exact dev_stat_update_heap_main _ _ _
        · rfl
      refine ⟨by rw [hmain]; exact h0,
        Or.inr ⟨preK ++ [-(t + L + R)] ++ postK, hwf', hnd.erase p, ?_⟩⟩
      intro q hq
      have hq' := (List.Nodup.mem_erase_iff hnd).1 hq
      obtain ⟨u, hu⟩ := hlive q hq'.2
      refine ⟨u, ?_⟩
      rw [hmain, hptrs]
      rw [htags, ptrs_append] at hu
      simp only [ptrs, htpos, if_true, block_words, c_abs_of_pos htpos] at hu
      rcases List.mem_append.1 hu with hu | hu
      · exact List.mem_append_left _ hu
      · rcases List.mem_cons.1 hu with e | hu
        · simp only [Prod.mk.injEq] at e
          exact absurd (by omega) hq'.1
        · apply List.mem_append_right
          have e : s.heap_main + span pre + t + 2 = s.heap_main + span pre + (t + 2) := by ring
          rw [e]; exact hu

theorem reachable_inv (dm : DataModel) (s : State) (live : List Int)
    (hr : Reachable dm s live) : Inv s live := by
  induction hr with
  | init heap h_size cb info s0 hheap hsize => exact init_inv heap h_size cb info s0 hheap hsize
  | alloc s live a dir _ hsz hdir ih => exact alloc_inv dm a dir s live ih hsz hdir
  | free s live p _ hp ih => exact free_inv s live p ih hp

/-! ## Outcomes of `ns_dyn_mem_free` -/

theorem free_failure_or_merge (s : State) (p : Int) (hp : p ≠ 0) (hm : s.heap_main ≠ 0) :
    (∃ r, ns_dyn_mem_free p s = heap_failure r s) ∨
    (0 < s.mem (p - 1) ∧
      ns_dyn_mem_free p s =
        (if s.mem_stat_info_ptr.isSome then
          dev_stat_update .DEV_HEAP_FREE (to_sint 16 ((s.mem (p - 1) + 2) * sizeof_int))
            (ns_free_and_merge_with_adjacent_blocks (p - 1) (s.mem (p - 1)) s)
         else ns_free_and_merge_with_adjacent_blocks (p - 1) (s.mem (p - 1)) s)) := by
  unfold ns_dyn_mem_free
  simp only [hp, hm, if_false]
  by_cases c1 : s.mem (p - 1) < 0
  · left; exact ⟨_, by rw [if_pos c1]⟩
  · rw [if_neg c1]
    by_cases c2 : p - 1 < s.heap_main ∨ p - 1 ≥ s.heap_main_end
    · left; exact ⟨_, by rw [if_pos c2]⟩
    · rw [if_neg c2]
      by_cases c3 : p - 1 + s.mem (p - 1) ≥ s.heap_main_end
      · left; exact ⟨_, by rw [if_pos c3]⟩
      · rw [if_neg c3]
        by_cases c4 : ns_block_validate s.mem (p - 1) 1 ≠ 0
        · left; exact ⟨_, by rw [if_pos c4]⟩
        · rw [if_neg c4]
          right
          refine ⟨?_, rfl⟩
          have hne : s.mem (p - 1) ≠ 0 := by
            intro h0
            apply c4
            unfold ns_block_validate
            simp [h0]
          omega

theorem free_merge_header_negative (cur t : Int) (s : State) (ht : 0 < t) :
    (ns_free_and_merge_with_adjacent_blocks cur t s).mem cur < 0 := by
  rw [free_merge_mem cur t s ht]
  have hL : 0 ≤ (if cur ≠ s.heap_main ∧ s.mem (cur - 1) < 0 then 2 - s.mem (cur - 1) else 0) := by
    split
    · rename_i h; have := h.2; omega
    · exact le_refl _
  have hR : 0 ≤ (if cur + t + 1 ≠ s.heap_main_end ∧ s.mem (cur + t + 2) < 0
      then 2 - s.mem (cur + t + 2) else 0) := by
    split
    · rename_i h; have := h.2; omega
    · exact le_refl _
  generalize (if cur ≠ s.heap_main ∧ s.mem (cur - 1) < 0 then 2 - s.mem (cur - 1) else 0) = L
    at hL
  generalize (if cur + t + 1 ≠ s.heap_main_end ∧ s.mem (cur + t + 2) < 0
      then 2 - s.mem (cur + t + 2) else 0) = R at hR
  simp only [write]
  split_ifs <;> omega

/-! ## Tags written by a successful scan -/

theorem alloc_loop_success (dir h d : Int) (hd : 1 ≤ d) :
    ∀ (fuel : Nat) (s : State) (ptr moved : Int),
      (alloc_loop dir h fuel s d ptr moved).retval ≠ 0 →
      0 < (alloc_loop dir h fuel s d ptr moved).data_size ∧
      (alloc_loop dir h fuel s d ptr moved).state.mem
          ((alloc_loop dir h fuel s d ptr moved).retval - 1)
        = (alloc_loop dir h fuel s d ptr moved).data_size ∧
      (alloc_loop dir h fuel s d ptr moved).state.mem
          ((alloc_loop dir h fuel s d ptr moved).retval
            + (alloc_loop dir h fuel s d ptr moved).data_size)
        = (alloc_loop dir h fuel s d ptr moved).data_size := by
  intro fuel
  induction fuel with
  | zero => intro s ptr moved hne; exact absurd rfl hne
  | succ n ih =>
    intro s ptr moved
    rw [alloc_loop]
    by_cases c0 : moved < h
    · rw [if_pos c0]
      by_cases c1 : ns_block_validate s.mem ptr dir = 0
      · rw [if_pos c1]
        simp only
        by_cases c2 : s.mem ptr < 0
        · rw [if_pos c2]
          by_cases c3 : -s.mem ptr ≥ d
          · rw [if_pos c3]
            intro _
            by_cases c4 : -s.mem ptr > d + 4 <;> by_cases c5 : dir > 0 <;>
              simp only [c4, c5, decide_True, decide_False, if_true, if_false,
                Bool.false_eq_true, write] <;>
              refine ⟨by omega, ?_, ?_⟩ <;> first | trivial | omega
          · rw [if_neg c3]; exact ih _ _ _
        · rw [if_neg c2]; exact ih _ _ _
      · rw [if_neg c1]; intro hne; exact absurd rfl hne
    · rw [if_neg c0]; intro hne; exact absurd rfl hne

theorem to_size_t_of_small (dm : DataModel) (x : Int) (h0 : 0 ≤ x) (h1 : x < 4294967296) :
    to_size_t dm x = x := by
  cases dm <;> simp only [to_size_t, to_uint, size_t_bits] <;> norm_num <;> omega

/-! ## The bound on the number of loop iterations -/

theorem validate_tag_ne_zero {mem : Int → Int} {ptr dir : Int}
    (h : ns_block_validate mem ptr dir = 0) : mem ptr ≠ 0 := by
  intro h0
  unfold ns_block_validate at h
  simp [h0] at h

theorem alloc_loop_fuel (dir h d : Int) :
    ∀ (fuel fuel2 : Nat) (s : State) (ptr moved : Int),
      (h - moved).toNat ≤ fuel → (h - moved).toNat ≤ fuel2 →
      alloc_loop dir h fuel s d ptr moved = alloc_loop dir h fuel2 s d ptr moved := by
  intro fuel
  induction fuel with
  | zero =>
    intro fuel2 s ptr moved h1 _
    have hge : ¬ (moved < h) := by omega
    cases fuel2 with
    | zero => rfl
    | succ m => rw [alloc_loop, alloc_loop, if_neg hge]
  | succ n ih =>
    intro fuel2 s ptr moved h1 h2
    cases fuel2 with
    | zero =>
      have hge : ¬ (moved < h) := by omega
      rw [alloc_loop, alloc_loop, if_neg hge]
    | succ m =>
      rw [alloc_loop, alloc_loop]
      by_cases c0 : moved < h
      · rw [if_pos c0, if_pos c0]
        by_cases c1 : ns_block_validate s.mem ptr dir = 0
        · rw [if_pos c1, if_pos c1]
          have hne := validate_tag_ne_zero c1
          simp only
          by_cases c2 : s.mem ptr < 0
          · rw [if_pos c2, if_pos c2]
            by_cases c3 : -s.mem ptr ≥ d
            · rw [if_pos c3, if_pos c3]
            · rw [if_neg c3, if_neg c3]
              exact ih m s _ _ (by omega) (by omega)
          · rw [if_neg c2, if_neg c2]
            exact ih m s _ _ (by omega) (by omega)
        · rw [if_neg c1, if_neg c1]
      · rw [if_neg c0, if_neg c0]

/-- The number of iterations granted in `ns_dyn_mem_internal_alloc`, `h_size`,
is never exhausted: any larger bound gives the same result, whatever the
memory holds. -/
theorem alloc_loop_fuel_irrelevant (dir h d : Int) (fuel : Nat) (s : State) (ptr : Int)
    (hf : h.toNat ≤ fuel) :
    alloc_loop dir h fuel s d ptr 0 = alloc_loop dir h h.toNat s d ptr 0 :=
  alloc_loop_fuel dir h d fuel h.toNat s ptr 0 (by simpa using hf) (by simp)

/-! ## Allocation followed by free on a pool that is one free block -/

theorem convert_allocation_size_valid (dm : DataModel) (a : Int) (s : State)
    (hinit : s.heap_main ≠ 0) (hsize : s.heap_size ≤ 65535)
    (ha : 1 ≤ a ∧ a ≤ s.heap_size - 2 * sizeof_int) (ha16 : a ≤ 32767) :
    (convert_allocation_size dm a s).1 = s := by
  have hs8 : s.heap_size - 2 * sizeof_int = s.heap_size - 8 := by unfold sizeof_int; ring
  rw [hs8] at ha
  unfold convert_allocation_size
  have c2 : ¬ (a < 1) := by omega
  have c3 : ¬ (to_size_t dm a > to_size_t dm (s.heap_size - 2 * sizeof_int)) := by
    rw [hs8, to_size_t_of_small dm a (by omega) (by omega),
      to_size_t_of_small dm (s.heap_size - 8) (by omega) (by omega)]
    omega
  simp only [hinit, c2, c3, if_false]

theorem free_null (s : State) : ns_dyn_mem_free 0 s = s := by
  unfold ns_dyn_mem_free
  simp

/-! ## The operations never change the descriptors of the pool -/

theorem alloc_loop_heap_main (dir h d : Int) :
    ∀ (fuel : Nat) (s : State) (ptr moved : Int),
      (alloc_loop dir h fuel s d ptr moved).state.heap_main = s.heap_main := by
  intro fuel
  induction fuel with
  | zero => intro s ptr moved; rfl
  | succ n ih =>
    intro s ptr moved
    rw [alloc_loop]
    by_cases c0 : moved < h
    · rw [if_pos c0]
      by_cases c1 : ns_block_validate s.mem ptr dir = 0
      · rw [if_pos c1]
        simp only
        by_cases c2 : s.mem ptr < 0
        · rw [if_pos c2]
          by_cases c3 : -s.mem ptr ≥ d
          · rw [if_pos c3]
          · rw [if_neg c3]; exact ih _ _ _
        · rw [if_neg c2]; exact ih _ _ _
      · rw [if_neg c1]; exact heap_failure_heap_main _ _
    · rw [if_neg c0]

theorem internal_alloc_heap_main (dm : DataModel) (a dir : Int) (s : State) :
    (ns_dyn_mem_internal_alloc dm a dir s).1.heap_main = s.heap_main := by
  obtain ⟨-, f2, -⟩ := convert_allocation_size_frame dm a s
  unfold ns_dyn_mem_internal_alloc
  simp only
  split_ifs <;>
    first
      | exact f2
      | (rw [dev_stat_update_heap_main, alloc_loop_heap_main]; exact f2)
      | (rw [alloc_loop_heap_main]; exact f2)

theorem free_heap_main (p : Int) (s : State) :
    (ns_dyn_mem_free p s).heap_main = s.heap_main := by
  by_cases hp : p = 0
  · rw [hp, free_null]
  · by_cases hm : s.heap_main = 0
    · unfold ns_dyn_mem_free
      simp only [hp, hm, if_true, if_false]
      rw [heap_failure_heap_main, hm]
    · rcases free_failure_or_merge s p hp hm with ⟨r, hr⟩ | ⟨-, he⟩
      · rw [hr, heap_failure_heap_main]
      · rw [he]
        split
        · exact dev_stat_update_heap_main _ _ _
        · rfl

/-- On a pool that is a single free block of `N ≥ 1` words, a valid request in
either direction followed by `ns_dyn_mem_free` of the returned pointer gives
back the single free block of `N` words and reports nothing. -/
theorem round_trip_single_block (dm : DataModel) (s : State) (N a dir : Int)
    (hwf : WellFormed s [-N]) (hN : 0 < N) (hmain : 0 < s.heap_main)
    (hsize : s.heap_size ≤ 65535) (ha : 1 ≤ a ∧ a ≤ s.heap_size - 2 * sizeof_int)
    (ha16 : a ≤ 32767) (hdir : dir = 1 ∨ dir = -1) :
    WellFormed (ns_dyn_mem_free (ns_dyn_mem_internal_alloc dm a dir s).2
        (ns_dyn_mem_internal_alloc dm a dir s).1) [-N] ∧
    (ns_dyn_mem_free (ns_dyn_mem_internal_alloc dm a dir s).2
        (ns_dyn_mem_internal_alloc dm a dir s).1).reported = s.reported := by
  have ha' : 1 ≤ a ∧ a ≤ 32767 := ⟨ha.1, ha16⟩
  obtain ⟨s2, he, hs2⟩ := internal_alloc_unfold dm a dir s ha'
  rw [convert_allocation_size_valid dm a s (by omega) hsize ha ha16] at he hs2
  rw [he]
  simp only
  have key := alloc_loop_wf hdir ((a + 3) / 4) s [-N] hwf (by omega) _ rfl
  generalize alloc_loop dir (s.heap_size / sizeof_int) (s.heap_size / sizeof_int).toNat s
    ((a + 3) / 4) (if dir > 0 then s.heap_main else s.heap_main_end) 0 = r at key hs2
  have hfr : s2.mem = r.state.mem ∧ s2.heap_main = r.state.heap_main ∧
      s2.heap_main_end = r.state.heap_main_end ∧ s2.heap_size = r.state.heap_size ∧
      s2.reported = r.state.reported := by
    rcases hs2 with rfl | ⟨ty, n, rfl⟩
    · exact ⟨rfl, rfl, rfl, rfl, rfl⟩
    · exact ⟨dev_stat_update_mem _ _ _, dev_stat_update_heap_main _ _ _,
        dev_stat_update_heap_main_end _ _ _, dev_stat_update_heap_size _ _ _,
        dev_stat_update_reported _ _ _⟩
  obtain ⟨g1, g2, g3, g4, g5⟩ := hfr
  rcases key with ⟨hr, -⟩ | ⟨pre, F, post, new, htags, hF, hdF, e1, e2, e3, e4, -, e6⟩
  · rw [hr] at g1 g2 g3 g4 g5 ⊢
    simp only at g1 g2 g3 g4 g5 ⊢
    rw [free_null]
    exact ⟨wellFormed_congr hwf g1 g2 g3 g4, g5⟩
  · have hshape : pre = [] ∧ post = [] ∧ F = N := by
      rcases pre with _ | ⟨x, pre⟩
      · simp only [List.nil_append, List.cons.injEq, neg_inj] at htags
        exact ⟨rfl, htags.2.symm, htags.1.symm⟩
      · simp at htags
    obtain ⟨rfl, rfl, rfl⟩ := hshape
    simp only [List.nil_append, List.append_nil, span, add_zero] at e2 e4 e6
    have hk : r.state.heap_main = s.heap_main ∧ r.state.heap_main_end = s.heap_main_end ∧
        r.state.heap_size = s.heap_size ∧ r.state.reported = s.reported := by
      rw [e1]; exact ⟨rfl, rfl, rfl, rfl⟩
    obtain ⟨k1, k2, k3, k4⟩ := hk
    obtain ⟨hc, hend, hsz⟩ := hwf
    have hcF : c_abs (-F) = F := by rw [c_abs_of_neg (by omega)]; ring
    have hspN : span [-F] = F + 2 := by simp only [span, block_words, hcF]; ring
    have hwf2 : WellFormed s2 new := by
      refine ⟨by rw [g1, g2, k1]; exact e2, ?_, ?_⟩
      · rw [g2, g3, k1, k2, e3, ← hspN]; exact hend
      · rw [g4, k3, e3, ← hspN]; exact hsz
    have hp2 : (r.retval, r.data_size) ∈ ptrs s2.heap_main new := by
      rw [g2, k1, e4]; simp
    obtain ⟨pre, post, preK, postK, L, R, hnew, -, htpos, hL0, hR0, hLs, hRs, hLsh, hRsh,
      hwf3, -, hfe⟩ := free_wf s2 new r.retval r.data_size hwf2 (by rw [g2, k1]; exact hmain) hp2
    have hrep : (ns_dyn_mem_free r.retval s2).reported = s.reported := by
      rw [hfe]
      split
      · rw [dev_stat_update_reported]
        show s2.reported = s.reported
        rw [g5, k4]
      · show s2.reported = s.reported
        rw [g5, k4]
    refine ⟨?_, hrep⟩
    have hspn : span new = span pre + (r.data_size + 2) + span post := by
      rw [hnew, span_append]
      simp only [span, block_words, c_abs_of_pos htpos]; ring
    have hlists : preK = [] ∧ postK = [] := by
      have hd1 : 1 ≤ (a + 3) / 4 := by omega
      rcases e6 with ⟨-, -, ⟨hn, hlt⟩ | ⟨hn, hle⟩⟩ | ⟨-, -, ⟨hn, hlt⟩ | ⟨hn, hle⟩⟩
      · rw [hn] at hnew
        rcases pre with _ | ⟨x, _ | ⟨y, pre⟩⟩
        · simp only [List.nil_append, List.cons.injEq] at hnew
          obtain ⟨-, hpost⟩ := hnew
          subst hpost
          constructor
          · rcases hLsh with ⟨-, h, -⟩ | ⟨l, h, -⟩
            · exact h
            · simp at h
          · rcases hRsh with ⟨-, -, h | ⟨r0, p0, h, hpos⟩⟩ | ⟨r0, h, -⟩
            · simp at h
            · simp only [List.cons.injEq] at h; omega
            · simp only [List.cons.injEq] at h; exact h.2.symm
        · simp only [List.singleton_append, List.cons.injEq] at hnew
          omega
        · simp at hnew
      · rw [hn] at hnew
        rcases pre with _ | ⟨x, pre⟩
        · simp only [List.nil_append, List.cons.injEq] at hnew
          obtain ⟨-, hpost⟩ := hnew
          subst hpost
          constructor
          · rcases hLsh with ⟨-, h, -⟩ | ⟨l, h, -⟩
            · exact h
            · simp at h
          · rcases hRsh with ⟨-, h, -⟩ | ⟨r0, h, -⟩
            · exact h
            · simp at h
        · simp at hnew
      · rw [hn] at hnew
        rcases pre with _ | ⟨x, _ | ⟨y, pre⟩⟩
        · simp only [List.nil_append, List.cons.injEq] at hnew
          omega
        · simp only [List.singleton_append, List.cons.injEq] at hnew
          obtain ⟨hx, -, hpost⟩ := hnew
          subst hpost
          constructor
          · rcases hLsh with ⟨-, -, h | ⟨p0, l, h, hpos⟩⟩ | ⟨l, h, -⟩
            · simp at h
            · rcases p0 with _ | ⟨z, p0⟩
              · simp only [List.nil_append, List.cons.injEq, and_true] at h; omega
              · simp at h
            · rcases preK with _ | ⟨z, preK⟩
              · rfl
              · simp at h
          · rcases hRsh with ⟨-, h, -⟩ | ⟨r0, h, -⟩
            · exact h
            · simp at h
        · simp at hnew
      · rw [hn] at hnew
        rcases pre with _ | ⟨x, pre⟩
        · simp only [List.nil_append, List.cons.injEq] at hnew
          obtain ⟨-, hpost⟩ := hnew
          subst hpost
          constructor
          · rcases hLsh with ⟨-, h, -⟩ | ⟨l, h, -⟩
            · exact h
            · simp at h
          · rcases hRsh with ⟨-, h, -⟩ | ⟨r0, h, -⟩
            · exact h
            · simp at h
        · simp at hnew
    obtain ⟨rfl, rfl⟩ := hlists
    simp only [span, add_zero, zero_add] at hLs hRs
    have hM : r.data_size + L + R = F := by omega
    rw [hM] at hwf3
    simpa using hwf3

/-- The round trip on the pool `ns_dyn_mem_init` lays out, when that pool has
at least three words: the tags at `heap_main` and `heap_main_end` are again
those written by the initialisation and nothing is reported. -/
theorem round_trip_fresh_pool (dm : DataModel) (heap h_size : Int) (cb info : Bool) (s0 : State)
    (a dir : Int) (hheap : 0 < heap) (hsize : 0 ≤ h_size ∧ h_size ≤ 65535)
    (hwords : 3 ≤ (ns_dyn_mem_init heap h_size cb info s0).heap_size / sizeof_int)
    (ha : 1 ≤ a ∧ a ≤ (ns_dyn_mem_init heap h_size cb info s0).heap_size - 2 * sizeof_int)
    (ha16 : a ≤ 32767) (hdir : dir = 1 ∨ dir = -1) :
    (ns_dyn_mem_free
        (ns_dyn_mem_internal_alloc dm a dir (ns_dyn_mem_init heap h_size cb info s0)).2
        (ns_dyn_mem_internal_alloc dm a dir (ns_dyn_mem_init heap h_size cb info s0)).1).mem
        (ns_dyn_mem_init heap h_size cb info s0).heap_main
      = 2 - (ns_dyn_mem_init heap h_size cb info s0).heap_size / sizeof_int ∧
    (ns_dyn_mem_free
        (ns_dyn_mem_internal_alloc dm a dir (ns_dyn_mem_init heap h_size cb info s0)).2
        (ns_dyn_mem_internal_alloc dm a dir (ns_dyn_mem_init heap h_size cb info s0)).1).mem
        (ns_dyn_mem_init heap h_size cb info s0).heap_main_end
      = 2 - (ns_dyn_mem_init heap h_size cb info s0).heap_size / sizeof_int ∧
    (ns_dyn_mem_free
        (ns_dyn_mem_internal_alloc dm a dir (ns_dyn_mem_init heap h_size cb info s0)).2
        (ns_dyn_mem_internal_alloc dm a dir (ns_dyn_mem_init heap h_size cb info s0)).1).reported
      = (ns_dyn_mem_init heap h_size cb info s0).reported := by
  obtain ⟨i1, i2, i3, i4, i5, i6⟩ := init_shape heap h_size cb info s0 (by omega) hsize
  have hmain : 0 < (ns_dyn_mem_init heap h_size cb info s0).heap_main := by
    show 0 < (if heap % sizeof_int ≠ 0 then heap + (sizeof_int - heap % sizeof_int)
      else heap) / sizeof_int
    unfold sizeof_int; split <;> omega
  generalize ns_dyn_mem_init heap h_size cb info s0 = s at *
  have hc : c_abs (2 - s.heap_size / sizeof_int) = s.heap_size / sizeof_int - 2 := by
    rw [c_abs_of_neg (by omega)]; ring
  have hwf : WellFormed s [-(s.heap_size / sizeof_int - 2)] := by
    have e0 : -(s.heap_size / sizeof_int - 2) = 2 - s.heap_size / sizeof_int := by ring
    rw [e0]
    refine ⟨⟨by omega, i5, ?_, trivial⟩, ?_, ?_⟩
    · rw [hc]
      have e : s.heap_main + 1 * (s.heap_size / sizeof_int - 2 + 1) = s.heap_main_end := by
        rw [i4]; ring
      rw [e]; exact i6
    · simp only [span, block_words, hc]; rw [i4]; ring
    · simp only [span, block_words, hc]; ring
  obtain ⟨⟨hch, hend, -⟩, hrep⟩ := round_trip_single_block dm s (s.heap_size / sizeof_int - 2)
    a dir hwf (by omega) hmain i3 ha ha16 hdir
  obtain ⟨-, h1, h2, -⟩ := hch
  have hfix : ∀ x : State, ns_dyn_mem_free (ns_dyn_mem_internal_alloc dm a dir s).2
      (ns_dyn_mem_internal_alloc dm a dir s).1 = x →
      x.mem x.heap_main = -(s.heap_size / sizeof_int - 2) →
      x.heap_main + span [-(s.heap_size / sizeof_int - 2)] = x.heap_main_end + 1 →
      x.mem (x.heap_main + 1 * (c_abs (-(s.heap_size / sizeof_int - 2)) + 1))
        = -(s.heap_size / sizeof_int - 2) →
      (x.heap_main = s.heap_main → x.mem s.heap_main = 2 - s.heap_size / sizeof_int ∧
        x.mem s.heap_main_end = 2 - s.heap_size / sizeof_int) := by
    intro x _ hx1 hx2 hx3 hxm
    have e0 : -(s.heap_size / sizeof_int - 2) = 2 - s.heap_size / sizeof_int := by ring
    rw [e0] at hx1 hx2 hx3
    simp only [span, block_words, hc] at hx2
    rw [hc] at hx3
    rw [hxm] at hx1 hx3
    refine ⟨hx1, ?_⟩
    have e : s.heap_main + 1 * (s.heap_size / sizeof_int - 2 + 1) = s.heap_main_end := by
      rw [i4]; ring
    rw [e] at hx3; exact hx3
  have hmain' : (ns_dyn_mem_free (ns_dyn_mem_internal_alloc dm a dir s).2
      (ns_dyn_mem_internal_alloc dm a dir s).1).heap_main = s.heap_main := by
    have hinv := free_heap_main (ns_dyn_mem_internal_alloc dm a dir s).2
      (ns_dyn_mem_internal_alloc dm a dir s).1
    rw [hinv]
    exact internal_alloc_heap_main dm a dir s
  obtain ⟨r1, r2⟩ := hfix _ rfl h1 hend h2 hmain'
  exact ⟨r1, r2, hrep⟩

/-! ## What the code does with invalid sizes and with the buffer length -/

/-- Requests of 0, -1, -2 and -3 bytes round to 0 words: they are reported and
nothing else happens, with either width of `size_t`. -/
theorem invalid_size_no_words (dm : DataModel) (s : State) (a dir : Int)
    (hinit : s.heap_main ≠ 0) (ha : -3 ≤ a ∧ a ≤ 0) :
    ns_dyn_mem_internal_alloc dm a dir s
      = (heap_failure .NS_DYN_MEM_ALLOCATE_SIZE_NOT_VALID s, 0) := by
  have hd : (convert_allocation_size dm a s).2 = 0 := by
    unfold convert_allocation_size
    cases dm <;>
      simp only [to_size_t, to_uint, size_t_bits, to_sint, sizeof_int] <;>
      norm_num <;> omega
  have hc : (convert_allocation_size dm a s).1
      = heap_failure .NS_DYN_MEM_ALLOCATE_SIZE_NOT_VALID s := by
    unfold convert_allocation_size
    have c2 : a < 1 := by omega
    simp only [hinit, c2, if_true, if_false]
  unfold ns_dyn_mem_internal_alloc
  simp only [hd, hc, ne_eq, not_true_eq_false, if_false]

/-- A request above `heap_size - 2 * sizeof(int)` on a well-formed pool: the
invalid size is reported, the chain is scanned without a fit, null is
returned and no pool word changes. -/
theorem oversized_request_wf (dm : DataModel) (s : State) (tags : List Int) (a dir : Int)
    (hwf : WellFormed s tags) (hinit : s.heap_main ≠ 0)
    (hsize : 2 * sizeof_int ≤ s.heap_size ∧ s.heap_size ≤ 65535)
    (ha : 1 ≤ a ∧ s.heap_size - 2 * sizeof_int < a ∧ a ≤ 32767) (hdir : dir = 1 ∨ dir = -1) :
    (ns_dyn_mem_internal_alloc dm a dir s).2 = 0 ∧
    (ns_dyn_mem_internal_alloc dm a dir s).1.mem = s.mem ∧
    (s.heap_failure_callback = true →
      (ns_dyn_mem_internal_alloc dm a dir s).1.reported
        = s.reported ++ [.NS_DYN_MEM_ALLOCATE_SIZE_NOT_VALID]) := by
  have hs8 : s.heap_size - 2 * sizeof_int = s.heap_size - 8 := by unfold sizeof_int; ring
  have hs8' : 2 * sizeof_int = 8 := by unfold sizeof_int; ring
  rw [hs8] at ha
  rw [hs8'] at hsize
  have ha' : 1 ≤ a ∧ a ≤ 32767 := by omega
  have hc : (convert_allocation_size dm a s).1
      = heap_failure .NS_DYN_MEM_ALLOCATE_SIZE_NOT_VALID s := by
    unfold convert_allocation_size
    have c2 : ¬ (a < 1) := by omega
    have c3 : to_size_t dm a > to_size_t dm (s.heap_size - 2 * sizeof_int) := by
      rw [hs8, to_size_t_of_small dm a (by omega) (by omega),
        to_size_t_of_small dm (s.heap_size - 8) (by omega) (by omega)]
      omega
    simp only [hinit, c2, c3, if_true, if_false]
  obtain ⟨s2, he, hs2⟩ := internal_alloc_unfold dm a dir s ha'
  rw [hc] at he hs2
  have hwf1 : WellFormed (heap_failure .NS_DYN_MEM_ALLOCATE_SIZE_NOT_VALID s) tags :=
    wellFormed_congr hwf (heap_failure_mem _ _) (heap_failure_heap_main _ _)
      (heap_failure_heap_main_end _ _) (heap_failure_heap_size _ _)
  have hloop := alloc_loop_wf hdir ((a + 3) / 4) _ tags hwf1 (by omega) _ rfl
  have hr : alloc_loop dir
      ((heap_failure .NS_DYN_MEM_ALLOCATE_SIZE_NOT_VALID s).heap_size / sizeof_int)
      ((heap_failure .NS_DYN_MEM_ALLOCATE_SIZE_NOT_VALID s).heap_size / sizeof_int).toNat
      (heap_failure .NS_DYN_MEM_ALLOCATE_SIZE_NOT_VALID s) ((a + 3) / 4)
      (if dir > 0 then (heap_failure .NS_DYN_MEM_ALLOCATE_SIZE_NOT_VALID s).heap_main
       else (heap_failure .NS_DYN_MEM_ALLOCATE_SIZE_NOT_VALID s).heap_main_end) 0
      = ⟨heap_failure .NS_DYN_MEM_ALLOCATE_SIZE_NOT_VALID s, 0, (a + 3) / 4⟩ := by
    rcases hloop with ⟨hr, -⟩ | ⟨pre, F, post, new, htags, hF, hdF, -⟩
    · exact hr
    · exfalso
      obtain ⟨-, -, hsz⟩ := hwf
      have hcF : c_abs (-F) = F := by rw [c_abs_of_neg (by omega)]; ring
      have hsp : span tags = span pre + (F + 2) + span post := by
        rw [htags, span_append]; simp only [span, block_words, hcF]; ring
      have h1 := span_nonneg pre
      have h2 := span_nonneg post
      unfold sizeof_int at hsz
      omega
  rw [hr] at he hs2
  rw [he]
  simp only at hs2 ⊢
  rcases hs2 with rfl | ⟨ty, n, rfl⟩
  · exact ⟨trivial, heap_failure_mem _ _, heap_failure_reported _ _⟩
  · refine ⟨trivial, by rw [dev_stat_update_mem, heap_failure_mem], ?_⟩
    intro hcb
    rw [dev_stat_update_reported, heap_failure_reported _ _ hcb]

/-- The capacity `ns_dyn_mem_init` records for a word-aligned buffer of `len`
bytes: `len` for remainder 0, `len - 2` for remainder 2, but `len - 3` for
remainder 1 and `len - 1` for remainder 3. -/
theorem init_heap_size_aligned (heap len : Int) (cb info : Bool) (s0 : State)
    (hal : heap % sizeof_int = 0) (hlen : 3 ≤ len ∧ len ≤ 65535) :
    (ns_dyn_mem_init heap len cb info s0).heap_size
      = (if len % 4 = 0 then len else if len % 4 = 1 then len - 3
         else if len % 4 = 2 then len - 2 else len - 1) := by
  unfold ns_dyn_mem_init
  simp only [hal, ne_eq, not_true_eq_false, if_false]
  unfold sizeof_int to_uint
  norm_num
  split_ifs <;> omega

/-- Freeing a live pointer of a well-formed pool twice, whether or not a
callback is registered: the first call reports nothing, the second call is one
`heap_failure(NS_DYN_MEM_DOUBLE_FREE)` and nothing else. -/
theorem double_free_of_live_pointer (s : State) (tags : List Int) (p t : Int)
    (hwf : WellFormed s tags) (h0 : 0 < s.heap_main) (hp : (p, t) ∈ ptrs s.heap_main tags) :
    (ns_dyn_mem_free p s).reported = s.reported ∧
    ns_dyn_mem_free p (ns_dyn_mem_free p s)
      = heap_failure .NS_DYN_MEM_DOUBLE_FREE (ns_dyn_mem_free p s) := by
  have hb := ptrs_bounds hp
  obtain ⟨-, -, -, -, -, -, -, -, htpos, -, -, -, -, -, -, -, -, hfe⟩ :=
    free_wf s tags p t hwf h0 hp
  have hrep : (ns_dyn_mem_free p s).reported = s.reported := by
    rw [hfe]
    split
    · rw [dev_stat_update_reported]; rfl
    · rfl
  have hmem : (ns_dyn_mem_free p s).mem (p - 1) < 0 := by
    rw [hfe]
    split
    · rw [dev_stat_update_mem]
      exact free_merge_header_negative _ _ s htpos
    · exact free_merge_header_negative _ _ s htpos
  have hmain := free_heap_main p s
  refine ⟨hrep, ?_⟩
  generalize ns_dyn_mem_free p s = s' at hmem hmain
  have hp0 : p ≠ 0 := by omega
  have hm' : s'.heap_main ≠ 0 := by rw [hmain]; omega
  unfold ns_dyn_mem_free
  simp only [hp0, hm', hmem, if_true, if_false]

/-! ## Allocation on a well-formed pool: the full account -/

theorem internal_alloc_full (dm : DataModel) (a dir : Int) (s : State) (tags : List Int)
    (hwf : WellFormed s tags) (h0 : 0 ≤ s.heap_main) (ha : 1 ≤ a ∧ a ≤ 32767)
    (hdir : dir = 1 ∨ dir = -1) :
    ((ns_dyn_mem_internal_alloc dm a dir s).2 = 0 ∧
      (ns_dyn_mem_internal_alloc dm a dir s).1.mem = s.mem ∧
      ∀ t ∈ tags, Skipped ((a + 3) / 4) t) ∨
    ((ns_dyn_mem_internal_alloc dm a dir s).2 ≠ 0 ∧
      ∃ pre F post new size, tags = pre ++ (-F) :: post ∧ 0 < F ∧ (a + 3) / 4 ≤ F ∧
        WellFormed (ns_dyn_mem_internal_alloc dm a dir s).1 (pre ++ new ++ post) ∧
        span new = F + 2 ∧
        ptrs (s.heap_main + span pre) new = [((ns_dyn_mem_internal_alloc dm a dir s).2, size)] ∧
        (∀ x, x < s.heap_main + span pre ∨ s.heap_main + span pre + F + 2 ≤ x →
          (ns_dyn_mem_internal_alloc dm a dir s).1.mem x = s.mem x) ∧
        ((dir = 1 ∧ (∀ t ∈ pre, Skipped ((a + 3) / 4) t) ∧
            ((new = [(a + 3) / 4, -(F - (a + 3) / 4 - 2)] ∧ (a + 3) / 4 + 4 < F) ∨
              (new = [F] ∧ F ≤ (a + 3) / 4 + 4))) ∨
         (dir = -1 ∧ (∀ t ∈ post, Skipped ((a + 3) / 4) t) ∧
            ((new = [-(F - (a + 3) / 4 - 2), (a + 3) / 4] ∧ (a + 3) / 4 + 4 < F) ∨
              (new = [F] ∧ F ≤ (a + 3) / 4 + 4))))) := by
  obtain ⟨s2, he, hs2⟩ := internal_alloc_unfold dm a dir s ha
  obtain ⟨f1, f2, f3, f4, -, -⟩ := convert_allocation_size_frame dm a s
  have hwf1 : WellFormed (convert_allocation_size dm a s).1 tags :=
    wellFormed_congr hwf f1 f2 f3 f4
  have hd1 : 1 ≤ (a + 3) / 4 := by omega
  rw [he]
  simp only
  have key := alloc_loop_wf hdir ((a + 3) / 4) _ tags hwf1 hd1 _ rfl
  generalize (alloc_loop dir ((convert_allocation_size dm a s).1.heap_size / sizeof_int)
          ((convert_allocation_size dm a s).1.heap_size / sizeof_int).toNat
          (convert_allocation_size dm a s).1 ((a + 3) / 4)
          (if dir > 0 then (convert_allocation_size dm a s).1.heap_main
           else (convert_allocation_size dm a s).1.heap_main_end) 0) = r at key hs2
  have hfr : s2.mem = r.state.mem ∧ s2.heap_main = r.state.heap_main ∧
      s2.heap_main_end = r.state.heap_main_end ∧ s2.heap_size = r.state.heap_size := by
    rcases hs2 with rfl | ⟨ty, n, rfl⟩
    · exact ⟨rfl, rfl, rfl, rfl⟩
    · exact ⟨dev_stat_update_mem _ _ _, dev_stat_update_heap_main _ _ _,
        dev_stat_update_heap_main_end _ _ _, dev_stat_update_heap_size _ _ _⟩
  obtain ⟨g1, g2, g3, g4⟩ := hfr
  rcases key with ⟨hr, hsk⟩ | ⟨pre, F, post, new, htags, hF, hdF, e1, e2, e3, e4, e5, e6⟩
  · rw [hr] at g1
    simp only at g1
    exact Or.inl ⟨by rw [hr], by rw [g1, f1], hsk⟩
  · have hst : r.state.heap_main = s.heap_main ∧ r.state.heap_main_end = s.heap_main_end ∧
        r.state.heap_size = s.heap_size := by
      rw [e1]; exact ⟨f2, f3, f4⟩
    obtain ⟨k1, k2, k3⟩ := hst
    rw [f2] at e2 e4 e5
    rw [f1] at e5
    right
    constructor
    · have hb := @ptrs_bounds (s.heap_main + span pre) r.retval r.data_size new
        (by rw [e4]; simp)
      have := span_nonneg pre
      omega
    · refine ⟨pre, F, post, new, r.data_size, htags, hF, hdF, ?_, e3, e4, ?_, e6⟩
      · obtain ⟨hc, hend, hsz⟩ := hwf
        have hcF : c_abs (-F) = F := by rw [c_abs_of_neg (by omega)]; ring
        have hspan : span (pre ++ new ++ post) = span tags := by
          rw [htags, span_append, span_append, span_append, e3]
          simp only [span, block_words, hcF]; ring
        refine ⟨?_, ?_, ?_⟩
        · rw [g1, g2, k1]; exact e2
        · rw [g2, g3, k1, k2, hspan]; exact hend
        · rw [g4, k3, hspan]; exact hsz
      · intro x hx
        rw [g1]; exact e5 x hx

theorem dchain_unique (mem : Int → Int) (dir : Int) :
    ∀ (ts1 ts2 : List Int) (a : Int), DChain mem dir a ts1 → DChain mem dir a ts2 →
      span ts1 = span ts2 → ts1 = ts2 := by
  intro ts1
  induction ts1 with
  | nil =>
    intro ts2 a _ _ hs
    cases ts2 with
    | nil => rfl
    | cons u us =>
      have := span_pos_of_ne_nil (List.cons_ne_nil u us)
      simp only [span] at hs this
      omega
  | cons t ts ih =>
    intro ts2 a h1 h2 hs
    cases ts2 with
    | nil =>
      have := span_pos_of_ne_nil (List.cons_ne_nil t ts)
      simp only [span] at hs this
      omega
    | cons u us =>
      obtain ⟨-, a1, -, a3⟩ := h1
      obtain ⟨-, b1, -, b3⟩ := h2
      have htu : t = u := by rw [← a1, ← b1]
      subst htu
      simp only [span] at hs
      rw [ih us _ a3 b3 (by omega)]

theorem wellFormed_unique {s : State} {ts1 ts2 : List Int} (h1 : WellFormed s ts1)
    (h2 : WellFormed s ts2) : ts1 = ts2 :=
  dchain_unique s.mem 1 ts1 ts2 s.heap_main h1.1 h2.1 (by rw [← h1.2.2, ← h2.2.2])

/-! ## The pool laid out by the initialisation -/

theorem init_cases (heap h_size : Int) (cb info : Bool) (s0 : State)
    (hheap : 0 ≤ heap) (hsize : 0 ≤ h_size ∧ h_size ≤ 65535) :
    (3 ≤ (ns_dyn_mem_init heap h_size cb info s0).heap_size / sizeof_int ∧
      WellFormed (ns_dyn_mem_init heap h_size cb info s0)
        [2 - (ns_dyn_mem_init heap h_size cb info s0).heap_size / sizeof_int]) ∨
    ((ns_dyn_mem_init heap h_size cb info s0).heap_size / sizeof_int < 3 ∧
      Degenerate (ns_dyn_mem_init heap h_size cb info s0)) := by
  obtain ⟨i1, i2, i3, i4, i5, i6⟩ := init_shape heap h_size cb info s0 hheap hsize
  generalize ns_dyn_mem_init heap h_size cb info s0 = s at *
  have hh : 0 ≤ s.heap_size / sizeof_int := by unfold sizeof_int; omega
  by_cases h3 : 3 ≤ s.heap_size / sizeof_int
  · left
    refine ⟨h3, ⟨?_, ?_, ?_⟩⟩
    · have hc : c_abs (2 - s.heap_size / sizeof_int) = s.heap_size / sizeof_int - 2 := by
        rw [c_abs_of_neg (by omega)]; ring
      refine ⟨by omega, i5, ?_, trivial⟩
      rw [hc]
      have e : s.heap_main + 1 * (s.heap_size / sizeof_int - 2 + 1) = s.heap_main_end := by
        rw [i4]; ring
      rw [e]; exact i6
    · simp only [span, block_words]
      rw [c_abs_of_neg (by omega), i4]; ring
    · simp only [span, block_words]
      rw [c_abs_of_neg (by omega)]; ring
  · right
    refine ⟨by omega, ?_⟩
    unfold Degenerate
    have : s.heap_size / sizeof_int = 0 ∨ s.heap_size / sizeof_int = 1 ∨
        s.heap_size / sizeof_int = 2 := by omega
    rcases this with h | h | h
    · exact Or.inl h
    · refine Or.inr (Or.inl ⟨h, by rw [i4, h]; ring, by rw [i5, h]; ring⟩)
    · refine Or.inr (Or.inr ⟨h, by rw [i4, h]; ring, by rw [i5, h]; ring, by rw [i6, h]; ring⟩)

theorem init_heap_main_pos (heap h_size : Int) (cb info : Bool) (s0 : State)
    (hheap : 0 < heap) : 0 < (ns_dyn_mem_init heap h_size cb info s0).heap_main := by
  show 0 < (if heap % sizeof_int ≠ 0 then heap + (sizeof_int - heap % sizeof_int)
    else heap) / sizeof_int
  unfold sizeof_int; split <;> omega

/-- In a well-formed pool whose first block is free, a first allocation from
the start, a second allocation in the other direction, the free of the first
pointer and a new allocation of the first size from the start: when the first
two succeed, the second pointer differs from the first and the last allocation
returns the first pointer again. -/
theorem realloc_same_pointer (dm : DataModel) (s : State) (N a1 a2 : Int)
    (hwf : WellFormed s [-N]) (hN : 0 < N) (hmain : 0 < s.heap_main)
    (ha1 : 1 ≤ a1 ∧ a1 ≤ 32767) (ha2 : 1 ≤ a2 ∧ a2 ≤ 32767)
    (h1 : (ns_dyn_mem_internal_alloc dm a1 1 s).2 ≠ 0)
    (h2 : (ns_dyn_mem_internal_alloc dm a2 (-1) (ns_dyn_mem_internal_alloc dm a1 1 s).1).2 ≠ 0) :
    (ns_dyn_mem_internal_alloc dm a1 1 s).2 = s.heap_main + 1 ∧
    (ns_dyn_mem_internal_alloc dm a2 (-1) (ns_dyn_mem_internal_alloc dm a1 1 s).1).2
      ≠ (ns_dyn_mem_internal_alloc dm a1 1 s).2 ∧
    (ns_dyn_mem_internal_alloc dm a1 1
      (ns_dyn_mem_free (ns_dyn_mem_internal_alloc dm a1 1 s).2
        (ns_dyn_mem_internal_alloc dm a2 (-1) (ns_dyn_mem_internal_alloc dm a1 1 s).1).1)).2
      = (ns_dyn_mem_internal_alloc dm a1 1 s).2 := by
  have hd1 : 1 ≤ (a1 + 3) / 4 := by omega
  have hd2 : 1 ≤ (a2 + 3) / 4 := by omega
  -- first allocation
  have m1 := internal_alloc_heap_main dm a1 1 s
  rcases internal_alloc_full dm a1 1 s [-N] hwf (by omega) ha1 (Or.inl rfl) with
    ⟨hz, -⟩ | ⟨-, pre, F, post, new, size, htags, hF, hdF, hwf1, hsp1, hp1, -, hsh1⟩
  · exact absurd hz h1
  have hshape : pre = [] ∧ post = [] ∧ F = N := by
    rcases pre with _ | ⟨x, pre⟩
    · simp only [List.nil_append, List.cons.injEq, neg_inj] at htags
      exact ⟨rfl, htags.2.symm, htags.1.symm⟩
    · simp at htags
  obtain ⟨rfl, rfl, rfl⟩ := hshape
  simp only [List.nil_append, List.append_nil, span, add_zero] at hwf1 hp1
  have hnew : (new = [(a1 + 3) / 4, -(F - (a1 + 3) / 4 - 2)] ∧ (a1 + 3) / 4 + 4 < F) ∨
      (new = [F] ∧ F ≤ (a1 + 3) / 4 + 4) := by
    rcases hsh1 with ⟨-, -, h⟩ | ⟨hneg, -⟩
    · exact h
    · omega
  have hP1 : (ns_dyn_mem_internal_alloc dm a1 1 s).2 = s.heap_main + 1 := by
    rcases hnew with ⟨hn, hlt⟩ | ⟨hn, -⟩
    · rw [hn] at hp1
      have hpos : 0 < (a1 + 3) / 4 := by omega
      have hneg : ¬ (0 < -(F - (a1 + 3) / 4 - 2)) := by omega
      simp only [ptrs, hpos, hneg, if_true, if_false, List.cons.injEq, Prod.mk.injEq,
        and_true] at hp1
      exact hp1.1.symm
    · rw [hn] at hp1
      simp only [ptrs, hF, if_true, List.cons.injEq, Prod.mk.injEq, and_true] at hp1
      exact hp1.1.symm
  generalize ns_dyn_mem_internal_alloc dm a1 1 s = r1 at *
  -- second allocation
  have m2 := internal_alloc_heap_main dm a2 (-1) r1.1
  rcases internal_alloc_full dm a2 (-1) r1.1 new hwf1 (by omega) ha2 (Or.inr rfl) with
    ⟨hz, -⟩ | ⟨-, pre2, F2, post2, new2, size2, htags2, hF2, hdF2, hwf2, hsp2, hp2, -, -⟩
  · exact absurd hz h2
  rcases hnew with ⟨hn, hlt⟩ | ⟨hn, -⟩
  swap
  · rw [hn] at htags2
    rcases pre2 with _ | ⟨x, pre2⟩
    · simp only [List.nil_append, List.cons.injEq] at htags2
      omega
    · simp at htags2
  have hshape2 : pre2 = [(a1 + 3) / 4] ∧ post2 = [] := by
    rw [hn] at htags2
    rcases pre2 with _ | ⟨x, _ | ⟨y, pre2⟩⟩
    · simp only [List.nil_append, List.cons.injEq] at htags2
      omega
    · simp only [List.singleton_append, List.cons.injEq] at htags2
      exact ⟨by rw [htags2.1], htags2.2.2.symm⟩
    · simp at htags2
  obtain ⟨rfl, rfl⟩ := hshape2
  simp only [List.append_nil] at hwf2
  have hcd : c_abs ((a1 + 3) / 4) = (a1 + 3) / 4 := c_abs_of_pos (by omega)
  have hb2 := @ptrs_bounds (r1.1.heap_main + span [(a1 + 3) / 4])
    (ns_dyn_mem_internal_alloc dm a2 (-1) r1.1).2 size2 new2 (by rw [hp2]; simp)
  simp only [span, block_words, hcd, add_zero] at hb2
  have hP2 : (ns_dyn_mem_internal_alloc dm a2 (-1) r1.1).2 ≠ r1.2 := by
    rw [hP1, ← m1]; omega
  refine ⟨hP1, hP2, ?_⟩
  generalize ns_dyn_mem_internal_alloc dm a2 (-1) r1.1 = r2 at *
  -- free of the first pointer
  have hp3 : (r1.2, (a1 + 3) / 4) ∈ ptrs r2.1.heap_main ([(a1 + 3) / 4] ++ new2) := by
    have hpos : 0 < (a1 + 3) / 4 := by omega
    rw [hP1, m2, m1]
    simp [ptrs, hpos]
  obtain ⟨pre3, post3, preK, postK, L, R, htags3, hpe3, -, hL0, hR0, hLs, -, hLsh, -,
    hwf3, -, -⟩ := free_wf r2.1 _ r1.2 ((a1 + 3) / 4) hwf2 (by omega) hp3
  have hpre3 : pre3 = [] := by
    have hsp := span_nonneg pre3
    by_contra hne
    have := span_pos_of_ne_nil hne
    omega
  subst hpre3
  have hpreK : preK = [] ∧ L = 0 := by
    rcases hLsh with ⟨hL, hK, -⟩ | ⟨l, h, -⟩
    · exact ⟨hK, hL⟩
    · simp at h
  obtain ⟨rfl, rfl⟩ := hpreK
  simp only [List.nil_append, add_zero] at hwf3
  have m3 := free_heap_main r1.2 r2.1
  generalize ns_dyn_mem_free r1.2 r2.1 = s3 at *
  -- the new allocation of the first size
  rcases internal_alloc_full dm a1 1 s3 _ hwf3 (by omega) ha1 (Or.inl rfl) with
    ⟨-, -, hsk⟩ | ⟨-, pre4, F4, post4, new4, size4, htags4, hF4, hdF4, -, -, hp4, -, hsh4⟩
  · exfalso
    have := hsk (-((a1 + 3) / 4 + R)) (by simp)
    exact this ⟨by omega, by omega⟩
  · have hpre4 : pre4 = [] := by
      rcases hsh4 with ⟨-, hsk, -⟩ | ⟨hneg, -⟩
      · rcases pre4 with _ | ⟨x, pre4⟩
        · rfl
        · exfalso
          simp only [List.singleton_append, List.cons_append, List.cons.injEq] at htags4
          have := hsk x (by simp)
          rw [← htags4.1] at this
          exact this ⟨by omega, by omega⟩
      · omega
    subst hpre4
    simp only [span, add_zero] at hp4
    have hnew4 : (new4 = [(a1 + 3) / 4, -(F4 - (a1 + 3) / 4 - 2)] ∧ (a1 + 3) / 4 + 4 < F4) ∨
        (new4 = [F4] ∧ F4 ≤ (a1 + 3) / 4 + 4) := by
      rcases hsh4 with ⟨-, -, h⟩ | ⟨hneg, -⟩
      · exact h
      · omega
    rw [hP1, ← m1, ← m2, ← m3]
    rcases hnew4 with ⟨hn4, hlt4⟩ | ⟨hn4, -⟩
    · rw [hn4] at hp4
      have hpos : 0 < (a1 + 3) / 4 := by omega
      have hneg : ¬ (0 < -(F4 - (a1 + 3) / 4 - 2)) := by omega
      simp only [ptrs, hpos, hneg, if_true, if_false, List.cons.injEq, Prod.mk.injEq,
        and_true] at hp4
      exact hp4.1.symm
    · rw [hn4] at hp4
      simp only [ptrs, hF4, if_true, List.cons.injEq, Prod.mk.injEq, and_true] at hp4
      exact hp4.1.symm

/-! ## A scan that meets an invalid block -/

theorem free_failure_reasons (s : State) (p : Int) (hp : p ≠ 0) (hm : s.heap_main ≠ 0) :
    (∃ r, (r = heap_fail_t.NS_DYN_MEM_DOUBLE_FREE ∨ r = heap_fail_t.NS_DYN_MEM_POINTER_NOT_VALID ∨
        r = heap_fail_t.NS_DYN_MEM_HEAP_SECTOR_CORRUPTED) ∧
      ns_dyn_mem_free p s = heap_failure r s) ∨
    (ns_dyn_mem_free p s).reported = s.reported := by
  unfold ns_dyn_mem_free
  simp only [hp, hm, if_false]
  by_cases c1 : s.mem (p - 1) < 0
  · left; exact ⟨_, Or.inl rfl, by rw [if_pos c1]⟩
  · rw [if_neg c1]
    by_cases c2 : p - 1 < s.heap_main ∨ p - 1 ≥ s.heap_main_end
    · left; exact ⟨_, Or.inr (Or.inl rfl), by rw [if_pos c2]⟩
    · rw [if_neg c2]
      by_cases c3 : p - 1 + s.mem (p - 1) ≥ s.heap_main_end
      · left; exact ⟨_, Or.inr (Or.inl rfl), by rw [if_pos c3]⟩
      · rw [if_neg c3]
        by_cases c4 : ns_block_validate s.mem (p - 1) 1 ≠ 0
        · left; exact ⟨_, Or.inr (Or.inr rfl), by rw [if_pos c4]⟩
        · rw [if_neg c4]
          right
          split
          · rw [dev_stat_update_reported]; rfl
          · rfl

/-! ## Adjacent free blocks -/

theorem noAdj_iff_chain (ts : List Int) :
    NoAdjFree ts ↔ List.Chain' (fun a b => ¬ (a < 0 ∧ b < 0)) ts := by
  match ts with
  | [] => simp [NoAdjFree]
  | [_] => simp [NoAdjFree]
  | a :: b :: ts =>
    rw [List.chain'_cons, ← noAdj_iff_chain (b :: ts)]
    simp only [NoAdjFree]

theorem noAdj_nil : NoAdjFree [] := trivial

theorem noAdj_singleton (t : Int) : NoAdjFree [t] := trivial

theorem noAdj_reverse (ts : List Int) : NoAdjFree ts.reverse ↔ NoAdjFree ts := by
  rw [noAdj_iff_chain, noAdj_iff_chain, List.chain'_reverse]
  apply List.Chain'.iff
  intro a b
  simp only [flip]
  tauto

theorem noAdj_split (xs : List Int) (m : Int) (ys : List Int) :
    NoAdjFree (xs ++ m :: ys) ↔ NoAdjFree (xs ++ [m]) ∧ NoAdjFree (m :: ys) := by
  rw [noAdj_iff_chain, noAdj_iff_chain, noAdj_iff_chain]
  exact List.chain'_split

theorem noAdj_cons_swap {r m : Int} {ys : List Int} (h : NoAdjFree (r :: ys)) (hr : r < 0) :
    NoAdjFree (m :: ys) := by
  cases ys with
  | nil => trivial
  | cons y ys => exact ⟨fun hh => h.1 ⟨hr, hh.2⟩, h.2⟩

theorem noAdj_snoc_swap {l m : Int} {xs : List Int} (h : NoAdjFree (xs ++ [l])) (hl : l < 0) :
    NoAdjFree (xs ++ [m]) := by
  rw [← noAdj_reverse] at h ⊢
  rw [List.reverse_append] at h ⊢
  exact noAdj_cons_swap h hl

theorem noAdj_cons_nonneg {m r : Int} {ys : List Int} (h : NoAdjFree (r :: ys)) (hr : ¬ r < 0) :
    NoAdjFree (m :: r :: ys) :=
  ⟨fun hh => hr hh.2, h⟩

theorem noAdj_snoc_nonneg {l m : Int} {xs : List Int} (h : NoAdjFree (xs ++ [l]))
    (hl : ¬ l < 0) : NoAdjFree (xs ++ [l] ++ [m]) := by
  rw [← noAdj_reverse] at h ⊢
  rw [List.reverse_append, List.reverse_append] at *
  exact noAdj_cons_nonneg h hl

theorem noAdj_cons_head_nonneg {m r : Int} {ys : List Int} (h : NoAdjFree (r :: ys))
    (hm : ¬ m < 0) : NoAdjFree (m :: r :: ys) :=
  ⟨fun hh => hm hh.1, h⟩

theorem noAdj_snoc_last_nonneg {l m : Int} {xs : List Int} (h : NoAdjFree (xs ++ [l]))
    (hm : ¬ m < 0) : NoAdjFree (xs ++ [l] ++ [m]) := by
  rw [← noAdj_reverse] at h ⊢
  rw [List.reverse_append, List.reverse_append] at *
  exact noAdj_cons_head_nonneg h hm

theorem noAdj_tail {r : Int} {ys : List Int} (h : NoAdjFree (r :: ys)) : NoAdjFree ys := by
  rw [noAdj_iff_chain] at h ⊢
  exact List.Chain'.tail h

theorem noAdj_init {l : Int} {xs : List Int} (h : NoAdjFree (xs ++ [l])) : NoAdjFree xs := by
  rw [noAdj_iff_chain] at h ⊢
  exact List.Chain'.left_of_append h

theorem noAdj_of_span_le {ts : List Int} (h : span ts ≤ 3) : NoAdjFree ts := by
  match ts, h with
  | [], _ => trivial
  | [t], _ => trivial
  | t :: u :: us, h =>
    exfalso
    simp only [span, block_words] at h
    have := c_abs_nonneg t
    have := c_abs_nonneg u
    have := span_nonneg us
    omega

theorem alloc_noAdj (dm : DataModel) (a dir : Int) (s : State) (tags : List Int)
    (hwf : WellFormed s tags) (hn : NoAdjFree tags) (h0 : 0 ≤ s.heap_main)
    (ha : 1 ≤ a ∧ a ≤ 32767) (hdir : dir = 1 ∨ dir = -1) :
    ∃ tags1, WellFormed (ns_dyn_mem_internal_alloc dm a dir s).1 tags1 ∧ NoAdjFree tags1 := by
  obtain ⟨k2, k3, k4, -⟩ := internal_alloc_wf dm a dir s tags hwf h0 ha hdir
  rcases internal_alloc_full dm a dir s tags hwf h0 ha hdir with
    ⟨-, hmem, -⟩ | ⟨-, pre, F, post, new, size, htags, hF, hdF, hwf1, -, -, -, hshape⟩
  · exact ⟨tags, wellFormed_congr hwf hmem k2 k3 k4, hn⟩
  · refine ⟨_, hwf1, ?_⟩
    rw [htags, noAdj_split] at hn
    obtain ⟨hl, hr⟩ := hn
    have hneg : -F < 0 := by omega
    have hwhole : NoAdjFree (pre ++ [F] ++ post) := by
      rw [List.append_assoc, List.singleton_append, noAdj_split]
      exact ⟨noAdj_snoc_swap hl hneg, noAdj_cons_swap hr hneg⟩
    rcases hshape with ⟨-, -, ⟨rfl, hlt⟩ | ⟨rfl, -⟩⟩ | ⟨-, -, ⟨rfl, hlt⟩ | ⟨rfl, -⟩⟩
    · have e : pre ++ [(a + 3) / 4, -(F - (a + 3) / 4 - 2)] ++ post
          = pre ++ (a + 3) / 4 :: (-(F - (a + 3) / 4 - 2) :: post) := by simp
      rw [e, noAdj_split]
      exact ⟨noAdj_snoc_swap hl hneg,
        noAdj_cons_head_nonneg (noAdj_cons_swap hr hneg) (by omega)⟩
    · exact hwhole
    · have e : pre ++ [-(F - (a + 3) / 4 - 2), (a + 3) / 4] ++ post
          = (pre ++ [-(F - (a + 3) / 4 - 2)]) ++ (a + 3) / 4 :: post := by simp
      rw [e, noAdj_split]
      exact ⟨noAdj_snoc_last_nonneg (noAdj_snoc_swap hl hneg) (by omega),
        noAdj_cons_swap hr hneg⟩
    · exact hwhole

theorem free_noAdj (s : State) (tags : List Int) (p t : Int) (hwf : WellFormed s tags)
    (hn : NoAdjFree tags) (h0 : 0 ≤ s.heap_main) (hp : (p, t) ∈ ptrs s.heap_main tags) :
    ∃ tags1, WellFormed (ns_dyn_mem_free p s) tags1 ∧ NoAdjFree tags1 := by
  by_cases hz : s.heap_main = 0
  · have hb := ptrs_bounds hp
    have hfree : ns_dyn_mem_free p s
        = heap_failure .NS_DYN_MEM_HEAP_SECTOR_UNITIALIZED s := by
      unfold ns_dyn_mem_free
      have : p ≠ 0 := by omega
      simp only [this, hz, if_true, if_false]
    rw [hfree]
    exact ⟨tags, wellFormed_congr hwf (heap_failure_mem _ _) (heap_failure_heap_main _ _)
      (heap_failure_heap_main_end _ _) (heap_failure_heap_size _ _), hn⟩
  · obtain ⟨pre, post, preK, postK, L, R, htags, -, htpos, -, -, -, -, hLs, hRs, hwf1, -, -⟩ :=
      free_wf s tags p t hwf (by omega) hp
    refine ⟨_, hwf1, ?_⟩
    rw [htags, noAdj_split] at hn
    obtain ⟨hl, hr⟩ := hn
    rw [List.append_assoc, List.singleton_append, noAdj_split]
    constructor
    · rcases hLs with ⟨-, rfl, rfl | ⟨pre0, l, rfl, hlpos⟩⟩ | ⟨l, rfl, hlneg, -⟩
      · exact noAdj_singleton _
      · exact noAdj_snoc_nonneg (noAdj_init hl) (by omega)
      · exact noAdj_snoc_swap (noAdj_init hl) hlneg
    · rcases hRs with ⟨-, rfl, rfl | ⟨r, post0, rfl, hrpos⟩⟩ | ⟨r, rfl, hrneg, -⟩
      · exact noAdj_singleton _
      · exact noAdj_cons_nonneg (noAdj_tail hr) (by omega)
      · exact noAdj_cons_swap (noAdj_tail hr) hrneg

theorem reachable_noAdj (dm : DataModel) (s : State) (live : List Int)
    (hr : Reachable dm s live) : ∀ tags, WellFormed s tags → NoAdjFree tags := by
  induction hr with
  | init heap h_size cb info s0 hheap hsize =>
    intro tags hwf
    rcases init_cases heap h_size cb info s0 hheap hsize with ⟨-, hwf0⟩ | ⟨hlt, -⟩
    · rw [wellFormed_unique hwf hwf0]
      exact noAdj_singleton _
    · exact noAdj_of_span_le (by rw [← hwf.2.2]; omega)
  | alloc s live a dir hr0 hsz hdir ih =>
    intro tags hwf
    obtain ⟨h0, hcase⟩ := reachable_inv dm s live hr0
    rcases hcase with ⟨hdeg, -⟩ | ⟨tags0, hwf0, -, -⟩
    · obtain ⟨-, -, -, -, k4⟩ := internal_alloc_degenerate dm a dir s hdeg hsz
      apply noAdj_of_span_le
      rw [← hwf.2.2, k4]
      rcases hdeg with h | ⟨h, -⟩ | ⟨h, -⟩ <;> omega
    · obtain ⟨tags1, hwf1, hn1⟩ := alloc_noAdj dm a dir s tags0 hwf0 (ih tags0 hwf0) h0 hsz hdir
      rw [wellFormed_unique hwf hwf1]
      exact hn1
  | free s live p hr0 hp ih =>
    intro tags hwf
    obtain ⟨h0, hcase⟩ := reachable_inv dm s live hr0
    rcases hcase with ⟨-, rfl⟩ | ⟨tags0, hwf0, -, hlive⟩
    · simp at hp
    · obtain ⟨t, ht⟩ := hlive p hp
      obtain ⟨tags1, hwf1, hn1⟩ := free_noAdj s tags0 p t hwf0 (ih tags0 hwf0) h0 ht
      rw [wellFormed_unique hwf hwf1]
      exact hn1

theorem reachable_wellFormed (dm : DataModel) (s : State) (live : List Int)
    (hr : Reachable dm s live) (h3 : 3 ≤ s.heap_size / sizeof_int) :
    ∃ tags, WellFormed s tags := by
  obtain ⟨-, hcase⟩ := reachable_inv dm s live hr
  rcases hcase with ⟨hdeg, -⟩ | ⟨tags, hwf, -, -⟩
  · rcases hdeg with h | ⟨h, -⟩ | ⟨h, -⟩ <;> omega
  · exact ⟨tags, hwf⟩

/-! ## The chain as a partition of the pool -/

theorem dchain_ne_zero {mem : Int → Int} {dir : Int} :
    ∀ (ts : List Int) (a : Int), DChain mem dir a ts → ∀ t ∈ ts, t ≠ 0 := by
  intro ts
  induction ts with
  | nil => intro a _ t ht; simp at ht
  | cons u us ih =>
    intro a hc t ht
    obtain ⟨h0, -, -, h3⟩ := hc
    rcases List.mem_cons.1 ht with rfl | ht
    · exact h0
    · exact ih _ h3 t ht

theorem span_eq_sum (ts : List Int) : span ts = (ts.map (fun t => c_abs t + 2)).sum := by
  induction ts with
  | nil => rfl
  | cons t ts ih => simp only [span, block_words, List.map_cons, List.sum_cons, ih]

/-! ## Shape of a successful allocation -/

theorem internal_alloc_shapes (dm : DataModel) (a dir : Int) (s : State) (tags : List Int)
    (hwf : WellFormed s tags) (h0 : 0 ≤ s.heap_main) (ha : 1 ≤ a ∧ a ≤ 32767)
    (hdir : dir = 1 ∨ dir = -1) (hres : (ns_dyn_mem_internal_alloc dm a dir s).2 ≠ 0) :
    ∃ pre F post new, tags = pre ++ (-F) :: post ∧ 0 < F ∧ (a + 3) / 4 ≤ F ∧
      WellFormed (ns_dyn_mem_internal_alloc dm a dir s).1 (pre ++ new ++ post) ∧
      span new = F + 2 ∧
      (∀ x, x < s.heap_main + span pre ∨ s.heap_main + span pre + F + 2 ≤ x →
        (ns_dyn_mem_internal_alloc dm a dir s).1.mem x = s.mem x) ∧
      ((dir = 1 ∧ (∀ t ∈ pre, Skipped ((a + 3) / 4) t) ∧
          (((a + 3) / 4 + 4 < F ∧ new = [(a + 3) / 4, -(F - (a + 3) / 4 - 2)]) ∨
            (F ≤ (a + 3) / 4 + 4 ∧ new = [F])) ∧
          (ns_dyn_mem_internal_alloc dm a dir s).2 = s.heap_main + span pre + 1) ∨
       (dir = -1 ∧ (∀ t ∈ post, Skipped ((a + 3) / 4) t) ∧
          (((a + 3) / 4 + 4 < F ∧ new = [-(F - (a + 3) / 4 - 2), (a + 3) / 4] ∧
              (ns_dyn_mem_internal_alloc dm a dir s).2
                = s.heap_main + span pre + (F - (a + 3) / 4 - 2) + 3) ∨
            (F ≤ (a + 3) / 4 + 4 ∧ new = [F] ∧
              (ns_dyn_mem_internal_alloc dm a dir s).2 = s.heap_main + span pre + 1)))) := by
  rcases internal_alloc_full dm a dir s tags hwf h0 ha hdir with
    ⟨hz, -, -⟩ | ⟨-, pre, F, post, new, size, htags, hF, hdF, hwf1, hsp, hptr, hframe, hshape⟩
  · exact absurd hz hres
  · have hd1 : 1 ≤ (a + 3) / 4 := by omega
    refine ⟨pre, F, post, new, htags, hF, hdF, hwf1, hsp, hframe, ?_⟩
    rcases hshape with ⟨hd, hsk, ⟨rfl, hlt⟩ | ⟨rfl, hle⟩⟩ | ⟨hd, hsk, ⟨rfl, hlt⟩ | ⟨rfl, hle⟩⟩
    · refine Or.inl ⟨hd, hsk, Or.inl ⟨hlt, rfl⟩, ?_⟩
      have hneg : ¬ (0 < -(F - (a + 3) / 4 - 2)) := by omega
      have hpos : 0 < (a + 3) / 4 := by omega
      simp only [ptrs, hpos, hneg, if_true, if_false, List.cons.injEq, Prod.mk.injEq,
        and_true] at hptr
      exact hptr.1.symm
    · refine Or.inl ⟨hd, hsk, Or.inr ⟨hle, rfl⟩, ?_⟩
      simp only [ptrs, hF, if_true, List.cons.injEq, Prod.mk.injEq, and_true] at hptr
      exact hptr.1.symm
    · refine Or.inr ⟨hd, hsk, Or.inl ⟨hlt, rfl, ?_⟩⟩
      have hneg : ¬ (0 < -(F - (a + 3) / 4 - 2)) := by omega
      have hpos : 0 < (a + 3) / 4 := by omega
      have hc : c_abs (-(F - (a + 3) / 4 - 2)) = F - (a + 3) / 4 - 2 := by
        rw [c_abs_of_neg (by omega)]; ring
      simp only [ptrs, hpos, hneg, if_true, if_false, List.cons.injEq, Prod.mk.injEq,
        and_true, block_words, hc] at hptr
      rw [← hptr.1]; ring
    · refine Or.inr ⟨hd, hsk, Or.inr ⟨hle, rfl, ?_⟩⟩
      simp only [ptrs, hF, if_true, List.cons.injEq, Prod.mk.injEq, and_true] at hptr
      exact hptr.1.symm

theorem internal_alloc_block (dm : DataModel) (a dir : Int) (s : State) (tags : List Int)
    (hwf : WellFormed s tags) (h0 : 0 ≤ s.heap_main) (ha : 1 ≤ a ∧ a ≤ 32767)
    (hdir : dir = 1 ∨ dir = -1) (hres : (ns_dyn_mem_internal_alloc dm a dir s).2 ≠ 0) :
    ∃ pre F post size, tags = pre ++ (-F) :: post ∧ (a + 3) / 4 ≤ F ∧
      (dir = 1 → ∀ t ∈ pre, Skipped ((a + 3) / 4) t) ∧
      (dir = -1 → ∀ t ∈ post, Skipped ((a + 3) / 4) t) ∧
      (ns_dyn_mem_internal_alloc dm a dir s).1.mem ((ns_dyn_mem_internal_alloc dm a dir s).2 - 1)
        = size ∧
      (ns_dyn_mem_internal_alloc dm a dir s).1.mem
        ((ns_dyn_mem_internal_alloc dm a dir s).2 + size) = size ∧
      (a + 3) / 4 ≤ size ∧
      s.heap_main + span pre + 1 ≤ (ns_dyn_mem_internal_alloc dm a dir s).2 ∧
      (ns_dyn_mem_internal_alloc dm a dir s).2 + size ≤ s.heap_main + span pre + F + 1 ∧
      (∀ x, x < s.heap_main + span pre ∨ s.heap_main + span pre + F + 2 ≤ x →
        (ns_dyn_mem_internal_alloc dm a dir s).1.mem x = s.mem x) := by
  obtain ⟨k2, -, -, -⟩ := internal_alloc_wf dm a dir s tags hwf h0 ha hdir
  rcases internal_alloc_full dm a dir s tags hwf h0 ha hdir with
    ⟨hz, -, -⟩ | ⟨-, pre, F, post, new, size, htags, hF, hdF, hwf1, hsp, hptr, hframe, hshape⟩
  · exact absurd hz hres
  · have hmem : ((ns_dyn_mem_internal_alloc dm a dir s).2, size)
        ∈ ptrs (ns_dyn_mem_internal_alloc dm a dir s).1.heap_main (pre ++ new ++ post) := by
      rw [k2, List.append_assoc, ptrs_append, ptrs_append, hptr]
      simp
    obtain ⟨t1, t2⟩ := ptrs_chain_tag hwf1.1 hmem
    have hb := @ptrs_bounds (s.heap_main + span pre)
      (ns_dyn_mem_internal_alloc dm a dir s).2 size new (by rw [hptr]; simp)
    have hsize : (a + 3) / 4 ≤ size := by
      have hpos : 0 < (a + 3) / 4 := by omega
      rcases hshape with ⟨-, -, ⟨rfl, hlt⟩ | ⟨rfl, hle⟩⟩ | ⟨-, -, ⟨rfl, hlt⟩ | ⟨rfl, hle⟩⟩
      · have hneg : ¬ (0 < -(F - (a + 3) / 4 - 2)) := by omega
        simp only [ptrs, hpos, hneg, if_true, if_false, List.cons.injEq, Prod.mk.injEq,
          and_true] at hptr
        omega
      · simp only [ptrs, hF, if_true, List.cons.injEq, Prod.mk.injEq, and_true] at hptr
        omega
      · have hneg : ¬ (0 < -(F - (a + 3) / 4 - 2)) := by omega
        simp only [ptrs, hpos, hneg, if_true, if_false, List.cons.injEq, Prod.mk.injEq,
          and_true] at hptr
        omega
      · simp only [ptrs, hF, if_true, List.cons.injEq, Prod.mk.injEq, and_true] at hptr
        omega
    refine ⟨pre, F, post, size, htags, hdF, ?_, ?_, t1, t2, hsize, by omega, by omega, hframe⟩
    · intro hd
      rcases hshape with ⟨-, hsk, -⟩ | ⟨hd2, -, -⟩
      · exact hsk
      · omega
    · intro hd
      rcases hshape with ⟨hd2, -, -⟩ | ⟨-, hsk, -⟩
      · omega
      · exact hsk

/-! ## Statistics of a free -/

theorem to_sint16_sub_trunc (b x : Int) : to_sint 16 (b - to_sint 16 x) = to_sint 16 (b - x) := by
  unfold to_sint
  norm_num
  omega

theorem to_sint16_of_range (x : Int) (h1 : -32768 ≤ x) (h2 : x ≤ 32767) : to_sint 16 x = x := by
  unfold to_sint
  norm_num
  omega

theorem free_stat (s : State) (p t : Int) (st : mem_stat_t)
    (hst : s.mem_stat_info_ptr = some st)
    (hfe : ns_dyn_mem_free p s =
      (if s.mem_stat_info_ptr.isSome then
        dev_stat_update .DEV_HEAP_FREE (to_sint 16 ((t + 2) * sizeof_int))
          (ns_free_and_merge_with_adjacent_blocks (p - 1) t s)
       else ns_free_and_merge_with_adjacent_blocks (p - 1) t s)) :
    (ns_dyn_mem_free p s).mem_stat_info_ptr =
      some { st with
        heap_sector_alloc_cnt := to_sint 16 (st.heap_sector_alloc_cnt - 1)
        heap_sector_allocated_bytes :=
          to_sint 16 (st.heap_sector_allocated_bytes - (t + 2) * sizeof_int) } := by
  rw [hfe, hst]
  simp only [Option.isSome_some, if_true]
  rw [free_merge_frame]
  unfold dev_stat_update
  simp only [hst, to_sint16_sub_trunc]

theorem free_reported_of_merge (s : State) (p t : Int)
    (hfe : ns_dyn_mem_free p s =
      (if s.mem_stat_info_ptr.isSome then
        dev_stat_update .DEV_HEAP_FREE (to_sint 16 ((t + 2) * sizeof_int))
          (ns_free_and_merge_with_adjacent_blocks (p - 1) t s)
       else ns_free_and_merge_with_adjacent_blocks (p - 1) t s)) :
    (ns_dyn_mem_free p s).reported = s.reported ∧
    (s.mem_stat_info_ptr = none → (ns_dyn_mem_free p s).mem_stat_info_ptr = none) := by
  rw [hfe]
  constructor
  · split
    · rw [dev_stat_update_reported]; rfl
    · rfl
  · intro hnone
    rw [hnone]
    simp only [Option.isSome_none, Bool.false_eq_true, if_false]
    rw [free_merge_frame]
    exact hnone

/-! ## The pool inside the buffer -/

theorem init_bounds (heap h_size : Int) (cb info : Bool) (s0 : State)
    (hsize : 16 ≤ h_size ∧ h_size ≤ 65535) :
    heap ≤ sizeof_int * (ns_dyn_mem_init heap h_size cb info s0).heap_main ∧
    sizeof_int * (ns_dyn_mem_init heap h_size cb info s0).heap_main
      + (ns_dyn_mem_init heap h_size cb info s0).heap_size ≤ heap + h_size ∧
    8 ≤ (ns_dyn_mem_init heap h_size cb info s0).heap_size := by
  unfold ns_dyn_mem_init
  simp only []
  unfold sizeof_int to_uint
  norm_num
  split_ifs <;> omega

theorem init_mem_frame (heap h_size : Int) (cb info : Bool) (s0 : State) (x : Int)
    (h1 : x ≠ (ns_dyn_mem_init heap h_size cb info s0).heap_main)
    (h2 : x ≠ (ns_dyn_mem_init heap h_size cb info s0).heap_main_end) :
    (ns_dyn_mem_init heap h_size cb info s0).mem x = s0.mem x := by
  unfold ns_dyn_mem_init at h1 h2 ⊢
  simp only [] at h1 h2 ⊢
  rw [write_other _ _ h2, write_other _ _ h1]

/-! ## Statistics of a successful allocation -/

theorem internal_alloc_stat (dm : DataModel) (a dir : Int) (s : State) (tags : List Int)
    (hwf : WellFormed s tags) (h0 : 0 ≤ s.heap_main) (ha : 1 ≤ a ∧ a ≤ 32767)
    (hdir : dir = 1 ∨ dir = -1) (hsome : s.mem_stat_info_ptr.isSome = true)
    (hres : (ns_dyn_mem_internal_alloc dm a dir s).2 ≠ 0) :
    ∃ size, 0 < size ∧
      (ns_dyn_mem_internal_alloc dm a dir s).1.mem
        ((ns_dyn_mem_internal_alloc dm a dir s).2 - 1) = size ∧
      (ns_dyn_mem_internal_alloc dm a dir s).1.mem_stat_info_ptr
        = (dev_stat_update .DEV_HEAP_ALLOC_OK (to_sint 16 ((size + 2) * sizeof_int))
            s).mem_stat_info_ptr := by
  obtain ⟨k2, -, -, -⟩ := internal_alloc_wf dm a dir s tags hwf h0 ha hdir
  obtain ⟨pre, F, post, size, -, -, -, -, htag, -, hsize, -, -, -⟩ :=
    internal_alloc_block dm a dir s tags hwf h0 ha hdir hres
  refine ⟨size, by omega, htag, ?_⟩
  obtain ⟨f1, f2, f3, f4, f5, -⟩ := convert_allocation_size_frame dm a s
  have hwf1 : WellFormed (convert_allocation_size dm a s).1 tags :=
    wellFormed_congr hwf f1 f2 f3 f4
  have hd := convert_allocation_size_snd dm a s ha
  have hd0 : (a + 3) / 4 ≠ 0 := by omega
  have hd1 : 1 ≤ (a + 3) / 4 := by omega
  have key := alloc_loop_wf hdir ((a + 3) / 4) _ tags hwf1 hd1 _ rfl
  have he : ns_dyn_mem_internal_alloc dm a dir s =
      ((if (alloc_loop dir ((convert_allocation_size dm a s).1.heap_size / sizeof_int)
          ((convert_allocation_size dm a s).1.heap_size / sizeof_int).toNat
          (convert_allocation_size dm a s).1 ((a + 3) / 4)
          (if dir > 0 then (convert_allocation_size dm a s).1.heap_main
           else (convert_allocation_size dm a s).1.heap_main_end) 0).state.mem_stat_info_ptr.isSome
        then
          if (alloc_loop dir ((convert_allocation_size dm a s).1.heap_size / sizeof_int)
          ((convert_allocation_size dm a s).1.heap_size / sizeof_int).toNat
          (convert_allocation_size dm a s).1 ((a + 3) / 4)
          (if dir > 0 then (convert_allocation_size dm a s).1.heap_main
           else (convert_allocation_size dm a s).1.heap_main_end) 0).retval ≠ 0 then
            dev_stat_update .DEV_HEAP_ALLOC_OK
              (to_sint 16 (((alloc_loop dir ((convert_allocation_size dm a s).1.heap_size / sizeof_int)
          ((convert_allocation_size dm a s).1.heap_size / sizeof_int).toNat
          (convert_allocation_size dm a s).1 ((a + 3) / 4)
          (if dir > 0 then (convert_allocation_size dm a s).1.heap_main
           else (convert_allocation_size dm a s).1.heap_main_end) 0).data_size + 2) * sizeof_int))
              (alloc_loop dir ((convert_allocation_size dm a s).1.heap_size / sizeof_int)
          ((convert_allocation_size dm a s).1.heap_size / sizeof_int).toNat
          (convert_allocation_size dm a s).1 ((a + 3) / 4)
          (if dir > 0 then (convert_allocation_size dm a s).1.heap_main
           else (convert_allocation_size dm a s).1.heap_main_end) 0).state
          else
            dev_stat_update .DEV_HEAP_ALLOC_FAIL 0
              (alloc_loop dir ((convert_allocation_size dm a s).1.heap_size / sizeof_int)
          ((convert_allocation_size dm a s).1.heap_size / sizeof_int).toNat
          (convert_allocation_size dm a s).1 ((a + 3) / 4)
          (if dir > 0 then (convert_allocation_size dm a s).1.heap_main
           else (convert_allocation_size dm a s).1.heap_main_end) 0).state
        else (alloc_loop dir ((convert_allocation_size dm a s).1.heap_size / sizeof_int)
          ((convert_allocation_size dm a s).1.heap_size / sizeof_int).toNat
          (convert_allocation_size dm a s).1 ((a + 3) / 4)
          (if dir > 0 then (convert_allocation_size dm a s).1.heap_main
           else (convert_allocation_size dm a s).1.heap_main_end) 0).state),
       (alloc_loop dir ((convert_allocation_size dm a s).1.heap_size / sizeof_int)
          ((convert_allocation_size dm a s).1.heap_size / sizeof_int).toNat
          (convert_allocation_size dm a s).1 ((a + 3) / 4)
          (if dir > 0 then (convert_allocation_size dm a s).1.heap_main
           else (convert_allocation_size dm a s).1.heap_main_end) 0).retval) := by
    unfold ns_dyn_mem_internal_alloc
    simp only [hd, ne_eq, hd0, not_false_eq_true, if_true]
  generalize (alloc_loop dir ((convert_allocation_size dm a s).1.heap_size / sizeof_int)
          ((convert_allocation_size dm a s).1.heap_size / sizeof_int).toNat
          (convert_allocation_size dm a s).1 ((a + 3) / 4)
          (if dir > 0 then (convert_allocation_size dm a s).1.heap_main
           else (convert_allocation_size dm a s).1.heap_main_end) 0) = r at key he
  rw [he] at hres htag ⊢
  simp only at hres htag ⊢
  rcases key with ⟨hr, -⟩ | ⟨pre2, F2, post2, new2, htags2, hF2, -, e1, e2, -, e4, -, -⟩
  · rw [hr] at hres
    exact absurd rfl hres
  · have hstat : r.state.mem_stat_info_ptr = s.mem_stat_info_ptr := by
      rw [e1]; exact f5
    have hsome1 : r.state.mem_stat_info_ptr.isSome = true := by rw [hstat]; exact hsome
    rw [if_pos hsome1, if_pos hres] at htag ⊢
    rw [dev_stat_update_mem] at htag
    have hmem : (r.retval, r.data_size) ∈ ptrs (convert_allocation_size dm a s).1.heap_main
        (pre2 ++ new2 ++ post2) := by
      rw [List.append_assoc, ptrs_append, ptrs_append, e4]
      simp
    have htag2 := (ptrs_chain_tag e2 hmem).1
    have hsz : r.data_size = size := by rw [← htag2, htag]
    rw [hsz]
    obtain ⟨st, hst⟩ := Option.isSome_iff_exists.1 hsome
    unfold dev_stat_update
    simp only [hstat, hst]

/-- In a well-formed pool that is one free block, a first allocation from the
end, a second allocation from the start, the free of the first pointer and a
new allocation of the first size from the end: when the first two succeed, the
second pointer differs from the first and the last allocation returns the
first pointer again. -/
theorem realloc_same_pointer_end (dm : DataModel) (s : State) (N a1 a2 : Int)
    (hwf : WellFormed s [-N]) (hN : 0 < N) (hmain : 0 < s.heap_main)
    (ha1 : 1 ≤ a1 ∧ a1 ≤ 32767) (ha2 : 1 ≤ a2 ∧ a2 ≤ 32767)
    (h1 : (ns_dyn_mem_internal_alloc dm a1 (-1) s).2 ≠ 0)
    (h2 : (ns_dyn_mem_internal_alloc dm a2 1 (ns_dyn_mem_internal_alloc dm a1 (-1) s).1).2 ≠ 0) :
    (ns_dyn_mem_internal_alloc dm a2 1 (ns_dyn_mem_internal_alloc dm a1 (-1) s).1).2
      ≠ (ns_dyn_mem_internal_alloc dm a1 (-1) s).2 ∧
    (ns_dyn_mem_internal_alloc dm a1 (-1)
      (ns_dyn_mem_free (ns_dyn_mem_internal_alloc dm a1 (-1) s).2
        (ns_dyn_mem_internal_alloc dm a2 1 (ns_dyn_mem_internal_alloc dm a1 (-1) s).1).1)).2
      = (ns_dyn_mem_internal_alloc dm a1 (-1) s).2 := by
  have hd1 : 1 ≤ (a1 + 3) / 4 := by omega
  have hd2 : 1 ≤ (a2 + 3) / 4 := by omega
  -- first allocation
  have m1 := internal_alloc_heap_main dm a1 (-1) s
  obtain ⟨pre, F, post, new, htags, hF, hdF, hwf1, hsp1, -, hsh1⟩ :=
    internal_alloc_shapes dm a1 (-1) s [-N] hwf (by omega) ha1 (Or.inr rfl) h1
  have hshape : pre = [] ∧ post = [] ∧ F = N := by
    rcases pre with _ | ⟨x, pre⟩
    · simp only [List.nil_append, List.cons.injEq, neg_inj] at htags
      exact ⟨rfl, htags.2.symm, htags.1.symm⟩
    · simp at htags
  obtain ⟨rfl, rfl, rfl⟩ := hshape
  simp only [List.nil_append, List.append_nil, span, add_zero] at hwf1 hsh1
  have hnew : ((a1 + 3) / 4 + 4 < F ∧ new = [-(F - (a1 + 3) / 4 - 2), (a1 + 3) / 4] ∧
        (ns_dyn_mem_internal_alloc dm a1 (-1) s).2 = s.heap_main + (F - (a1 + 3) / 4 - 2) + 3) ∨
      (F ≤ (a1 + 3) / 4 + 4 ∧ new = [F] ∧
        (ns_dyn_mem_internal_alloc dm a1 (-1) s).2 = s.heap_main + 1) := by
    rcases hsh1 with ⟨hbad, -⟩ | ⟨-, -, h⟩
    · omega
    · exact h
  generalize ns_dyn_mem_internal_alloc dm a1 (-1) s = r1 at *
  -- second allocation
  have m2 := internal_alloc_heap_main dm a2 1 r1.1
  obtain ⟨pre2, F2, post2, new2, htags2, hF2, hdF2, hwf2, hsp2, -, hsh2⟩ :=
    internal_alloc_shapes dm a2 1 r1.1 new hwf1 (by omega) ha2 (Or.inl rfl) h2
  rcases hnew with ⟨hlt, hn, hP1⟩ | ⟨-, hn, -⟩
  swap
  · rw [hn] at htags2
    rcases pre2 with _ | ⟨x, pre2⟩
    · simp only [List.nil_append, List.cons.injEq] at htags2
      omega
    · simp at htags2
  have hshape2 : pre2 = [] ∧ F2 = F - (a1 + 3) / 4 - 2 ∧ post2 = [(a1 + 3) / 4] := by
    rw [hn] at htags2
    rcases pre2 with _ | ⟨x, _ | ⟨y, pre2⟩⟩
    · simp only [List.nil_append, List.cons.injEq, neg_inj] at htags2
      exact ⟨rfl, htags2.1.symm, htags2.2.symm⟩
    · simp only [List.singleton_append, List.cons.injEq] at htags2
      omega
    · simp at htags2
  obtain ⟨rfl, hF2e, rfl⟩ := hshape2
  simp only [List.nil_append, span, add_zero] at hwf2 hsh2
  have hP2 : (ns_dyn_mem_internal_alloc dm a2 1 r1.1).2 = r1.1.heap_main + 1 := by
    rcases hsh2 with ⟨-, -, -, hp⟩ | ⟨hbad, -⟩
    · exact hp
    · omega
  have hlast : (((a2 + 3) / 4 + 4 < F2 ∧ new2 = [(a2 + 3) / 4, -(F2 - (a2 + 3) / 4 - 2)]) ∨
      (F2 ≤ (a2 + 3) / 4 + 4 ∧ new2 = [F2])) := by
    rcases hsh2 with ⟨-, -, h, -⟩ | ⟨hbad, -⟩
    · exact h
    · omega
  have hP2ne : (ns_dyn_mem_internal_alloc dm a2 1 r1.1).2 ≠ r1.2 := by
    rw [hP2, hP1, m1]; omega
  refine ⟨hP2ne, ?_⟩
  generalize ns_dyn_mem_internal_alloc dm a2 1 r1.1 = r2 at *
  -- free of the first pointer
  have hpos : 0 < (a1 + 3) / 4 := by omega
  have hcd : c_abs ((a1 + 3) / 4) = (a1 + 3) / 4 := c_abs_of_pos hpos
  have hp3 : (r1.2, (a1 + 3) / 4) ∈ ptrs r2.1.heap_main (new2 ++ [(a1 + 3) / 4]) := by
    rw [ptrs_append, hsp2, hP1, m2, m1]
    apply List.mem_append_right
    simp only [ptrs, hpos, if_true, List.mem_cons, Prod.mk.injEq, and_true]
    left; omega
  obtain ⟨pre3, post3, preK, postK, L, R, htags3, hpe3, -, hL0, hR0, hLs, hRs, hLsh, -,
    hwf3, -, -⟩ := free_wf r2.1 _ r1.2 ((a1 + 3) / 4) hwf2 (by omega) hp3
  have hspan3 : span new2 + ((a1 + 3) / 4 + 2) = span pre3 + ((a1 + 3) / 4 + 2 + span post3) := by
    have := congrArg span htags3
    rw [span_append, span_append] at this
    simp only [span, block_words, hcd, add_zero] at this
    exact this
  have hsp3 := span_nonneg post3
  have hspK := span_nonneg postK
  have hpost3 : post3 = [] := by
    by_contra hne
    have := span_pos_of_ne_nil hne
    omega
  subst hpost3
  have hpostK : postK = [] := by
    by_contra hne
    have := span_pos_of_ne_nil hne
    simp only [span] at hRs
    omega
  subst hpostK
  have hR : R = 0 := by simp only [span] at hRs; omega
  subst hR
  have hpre3 : pre3 = new2 := (List.append_cancel_right htags3).symm
  subst hpre3
  simp only [List.append_nil, add_zero] at hwf3
  have hL : L = 0 ∨ 5 ≤ L := by
    rcases hLsh with ⟨hL, -⟩ | ⟨l, hl, hneg, hLe⟩
    · exact Or.inl hL
    · right
      rcases hlast with ⟨hlt2, hn2⟩ | ⟨-, hn2⟩
      · rw [hn2] at hl
        have := congrArg List.getLast? hl
        simp at this
        omega
      · rw [hn2] at hl
        have := congrArg List.getLast? hl
        simp at this
        omega
  have m3 := free_heap_main r1.2 r2.1
  generalize ns_dyn_mem_free r1.2 r2.1 = s3 at *
  -- the new allocation of the first size
  have hnz : (ns_dyn_mem_internal_alloc dm a1 (-1) s3).2 ≠ 0 := by
    rcases internal_alloc_full dm a1 (-1) s3 _ hwf3 (by omega) ha1 (Or.inr rfl) with
      ⟨-, -, hsk⟩ | ⟨hnz, -⟩
    · exfalso
      have := hsk (-((a1 + 3) / 4 + L)) (by simp)
      exact this ⟨by omega, by omega⟩
    · exact hnz
  obtain ⟨pre4, F4, post4, new4, htags4, hF4, hdF4, -, -, -, hsh4⟩ :=
    internal_alloc_shapes dm a1 (-1) s3 _ hwf3 (by omega) ha1 (Or.inr rfl) hnz
  rcases hsh4 with ⟨hbad, -⟩ | ⟨-, hsk4, hsh4⟩
  · omega
  have hpost4 : post4 = [] := by
    rcases List.eq_nil_or_concat post4 with h | ⟨post0, z, h⟩
    · exact h
    · exfalso
      rw [List.concat_eq_append] at h
      rw [h, ← List.cons_append, ← List.append_assoc] at htags4
      have hz := (List.append_inj' htags4 rfl).2
      simp only [List.cons.injEq, and_true] at hz
      have := hsk4 z (by rw [h]; simp)
      rw [← hz] at this
      exact this ⟨by omega, by omega⟩
  subst hpost4
  obtain ⟨hpre4, hF4e⟩ := List.append_inj' htags4 rfl
  simp only [List.cons.injEq, neg_inj, and_true] at hF4e
  subst hpre4
  rw [hP1, ← m1, ← m2, ← m3]
  rw [hsp2] at hLs
  rcases hsh4 with ⟨hlt4, -, hp4⟩ | ⟨hle4, -, hp4⟩
  · rw [hp4]; omega
  · rw [hp4]; omega

/-! ## The claims -/

/-- C1 (code defect, the one of C8): a word-aligned buffer of 13 bytes is given
capacity 10 instead of 12, so the pool has two words, both 0, and no block.
The request of 1 byte is inside `[1, heap_size - 2 * sizeof(int)] = [1, 2]`, yet
both entry points report `NS_DYN_MEM_HEAP_SECTOR_CORRUPTED` and return null, so
the allocate-then-free round trip does report a failure. -/
theorem C1_round_trip_reports_failure :
    (pool_of_length 13).heap_size = 10 ∧
    (pool_of_length 13).mem (pool_of_length 13).heap_main = 0 ∧
    (pool_of_length 13).mem (pool_of_length 13).heap_main_end = 0 ∧
    (1 : Int) ≤ (pool_of_length 13).heap_size - 2 * sizeof_int ∧
    (ns_dyn_mem_temporary_alloc .ILP32 1 (pool_of_length 13)).2 = 0 ∧
    (ns_dyn_mem_free (ns_dyn_mem_temporary_alloc .ILP32 1 (pool_of_length 13)).2
        (ns_dyn_mem_temporary_alloc .ILP32 1 (pool_of_length 13)).1).reported
      = [.NS_DYN_MEM_HEAP_SECTOR_CORRUPTED] ∧
    (ns_dyn_mem_alloc .ILP32 1 (pool_of_length 13)).2 = 0 ∧
    (ns_dyn_mem_free (ns_dyn_mem_alloc .ILP32 1 (pool_of_length 13)).2
        (ns_dyn_mem_alloc .ILP32 1 (pool_of_length 13)).1).reported
      = [.NS_DYN_MEM_HEAP_SECTOR_CORRUPTED] := by
  decide

/-- C2: in every state reachable from `ns_dyn_mem_init` by allocations of at
least one byte (from either end) and frees of live pointers, every live pointer
`p` has a positive size in its header word `p - 1`, its payload words
`[p, p + size)` lie strictly between `heap_main` and `heap_main_end`, and the
payload ranges of two different live pointers do not overlap. -/
theorem C2_live_payloads_disjoint (dm : DataModel) (s : State) (live : List Int)
    (hr : Reachable dm s live) :
    (∀ p ∈ live, s.heap_main < p ∧ 0 < s.mem (p - 1) ∧ p + s.mem (p - 1) ≤ s.heap_main_end) ∧
    (∀ p ∈ live, ∀ q ∈ live, p ≠ q →
      p + s.mem (p - 1) ≤ q ∨ q + s.mem (q - 1) ≤ p) := by
  obtain ⟨-, hcase⟩ := reachable_inv dm s live hr
  rcases hcase with ⟨-, rfl⟩ | ⟨tags, ⟨hc, hend, -⟩, -, hlive⟩
  · simp
  · constructor
    · intro p hp
      obtain ⟨t, ht⟩ := hlive p hp
      have hb := ptrs_bounds ht
      rw [(ptrs_chain_tag hc ht).1]
      omega
    · intro p hp q hq hne
      obtain ⟨t, ht⟩ := hlive p hp
      obtain ⟨u, hu⟩ := hlive q hq
      rw [(ptrs_chain_tag hc ht).1, (ptrs_chain_tag hc hu).1]
      have := ptrs_disjoint ht hu hne
      simp only at this
      omega

/-- Witness of C2: a 64-byte pool after one allocation of 10 bytes from the
start and one of 10 bytes from the end; the live pointers are 1036 and 1025. -/
theorem C2_live_payloads_disjoint_witness :
    Reachable .ILP32
        (ns_dyn_mem_internal_alloc .ILP32 10 (-1)
          (ns_dyn_mem_internal_alloc .ILP32 10 1 fresh64).1).1 [1036, 1025] ∧
      ((∀ p ∈ [1036, 1025],
          (ns_dyn_mem_internal_alloc .ILP32 10 (-1)
            (ns_dyn_mem_internal_alloc .ILP32 10 1 fresh64).1).1.heap_main < p ∧
          0 < (ns_dyn_mem_internal_alloc .ILP32 10 (-1)
            (ns_dyn_mem_internal_alloc .ILP32 10 1 fresh64).1).1.mem (p - 1) ∧
          p + (ns_dyn_mem_internal_alloc .ILP32 10 (-1)
            (ns_dyn_mem_internal_alloc .ILP32 10 1 fresh64).1).1.mem (p - 1)
            ≤ (ns_dyn_mem_internal_alloc .ILP32 10 (-1)
            (ns_dyn_mem_internal_alloc .ILP32 10 1 fresh64).1).1.heap_main_end) ∧
       (∀ p ∈ [1036, 1025], ∀ q ∈ [1036, 1025], p ≠ q →
          p + (ns_dyn_mem_internal_alloc .ILP32 10 (-1)
            (ns_dyn_mem_internal_alloc .ILP32 10 1 fresh64).1).1.mem (p - 1) ≤ q ∨
          q + (ns_dyn_mem_internal_alloc .ILP32 10 (-1)
            (ns_dyn_mem_internal_alloc .ILP32 10 1 fresh64).1).1.mem (q - 1) ≤ p)) := by
  have h1 : Reachable .ILP32 (ns_dyn_mem_internal_alloc .ILP32 10 1 fresh64).1 [1025] :=
    Reachable.alloc fresh64 [] 10 1
      (Reachable.init 4096 64 true true (boot (fun _ => 0)) (by decide) (by decide))
      (by decide) (by decide)
  have h2 : Reachable .ILP32
      (ns_dyn_mem_internal_alloc .ILP32 10 (-1)
        (ns_dyn_mem_internal_alloc .ILP32 10 1 fresh64).1).1 [1036, 1025] :=
    Reachable.alloc _ [1025] 10 (-1) h1 (by decide) (by decide)
  exact ⟨h2, C2_live_payloads_disjoint .ILP32 _ _ h2⟩

/-- C3 (code defect): `convert_allocation_size` reports the invalid size but
still returns the rounded word count, which is not 0 for a request of -4 bytes
or less.  With a 64-bit `size_t` the count of a request of -4 bytes is -1: the
scan takes the first free block, returns a non-null pointer and overwrites the
tags of the pool (word 1024 from the start, word 1039 from the end).  With a
32-bit `size_t` the count is 1073741823: the scan finds no fit and null is
returned, after counting an allocation failure. -/
theorem C3_negative_size_is_allocated :
    (convert_allocation_size .LP64 (-4) fresh64).2 = -1 ∧
    (ns_dyn_mem_temporary_alloc .LP64 (-4) fresh64).1.reported
      = [.NS_DYN_MEM_ALLOCATE_SIZE_NOT_VALID] ∧
    (ns_dyn_mem_temporary_alloc .LP64 (-4) fresh64).2 = 1025 ∧
    fresh64.mem 1024 = -14 ∧
    (ns_dyn_mem_temporary_alloc .LP64 (-4) fresh64).1.mem 1024 = -1 ∧
    (ns_dyn_mem_alloc .LP64 (-4) fresh64).2 = 1040 ∧
    fresh64.mem 1039 = -14 ∧
    (ns_dyn_mem_alloc .LP64 (-4) fresh64).1.mem 1039 = -1 ∧
    (convert_allocation_size .ILP32 (-4) fresh64).2 = 1073741823 ∧
    (ns_dyn_mem_temporary_alloc .ILP32 (-4) fresh64).2 = 0 ∧
    (ns_dyn_mem_temporary_alloc .ILP32 (-4) fresh64).1.mem_stat_info_ptr
      = some { heap_sector_size := 64, heap_sector_alloc_cnt := 0,
               heap_sector_allocated_bytes := 0, heap_sector_allocated_bytes_max := 0,
               heap_alloc_total_bytes := 0, heap_alloc_fail_cnt := 1 } := by
  decide

/-- C4 (code defect): after reporting `NS_DYN_MEM_ALLOCATE_SIZE_NOT_VALID` the
allocation goes on to scan the chain.  On the two-word pool of an 8-byte buffer
a request of 1 byte (more than `heap_size - 2 * sizeof(int) = 0`) reports the
invalid size and then `NS_DYN_MEM_HEAP_SECTOR_CORRUPTED`; so does a request of
100 bytes on a 64-byte pool whose first tag has been overwritten with 0.  On
the intact 64-byte pool the same request walks the chain to its end and counts
an allocation failure. -/
theorem C4_oversized_request_is_scanned :
    (pool_of_length 8).heap_size = 8 ∧
    (ns_dyn_mem_temporary_alloc .ILP32 1 (pool_of_length 8)).1.reported
      = [.NS_DYN_MEM_ALLOCATE_SIZE_NOT_VALID, .NS_DYN_MEM_HEAP_SECTOR_CORRUPTED] ∧
    (ns_dyn_mem_alloc .ILP32 1 (pool_of_length 8)).1.reported
      = [.NS_DYN_MEM_ALLOCATE_SIZE_NOT_VALID, .NS_DYN_MEM_HEAP_SECTOR_CORRUPTED] ∧
    fresh64.heap_size = 64 ∧
    (ns_dyn_mem_temporary_alloc .ILP32 100
        { fresh64 with mem := write fresh64.mem 1024 0 }).1.reported
      = [.NS_DYN_MEM_ALLOCATE_SIZE_NOT_VALID, .NS_DYN_MEM_HEAP_SECTOR_CORRUPTED] ∧
    (ns_dyn_mem_temporary_alloc .ILP32 100 fresh64).1.reported
      = [.NS_DYN_MEM_ALLOCATE_SIZE_NOT_VALID] ∧
    (ns_dyn_mem_temporary_alloc .ILP32 100 fresh64).1.mem_stat_info_ptr
      = some { heap_sector_size := 64, heap_sector_alloc_cnt := 0,
               heap_sector_allocated_bytes := 0, heap_sector_allocated_bytes_max := 0,
               heap_alloc_total_bytes := 0, heap_alloc_fail_cnt := 1 } := by
  decide

/-- C5: with a callback registered, after a first `ns_dyn_mem_free(p)` of a
non-null pointer on an initialised heap that reports no failure, a second
`ns_dyn_mem_free(p)` reports `NS_DYN_MEM_DOUBLE_FREE` and nothing else, and
leaves every pool word, every statistics counter and every static as the first
free left them.  No assumption is made on the neighbours of the block, so the
case of a merge into a free left neighbour is included. -/
theorem C5_double_free (s : State) (p : Int) (hcb : s.heap_failure_callback = true)
    (hp : p ≠ 0) (hm : s.heap_main ≠ 0)
    (hfirst : (ns_dyn_mem_free p s).reported = s.reported) :
    ns_dyn_mem_free p (ns_dyn_mem_free p s)
      = { ns_dyn_mem_free p s with
          reported := (ns_dyn_mem_free p s).reported ++ [.NS_DYN_MEM_DOUBLE_FREE] } := by
  rcases free_failure_or_merge s p hp hm with ⟨r, hr⟩ | ⟨hpos, he⟩
  · rw [hr, heap_failure_reported r s hcb] at hfirst
    have := congrArg List.length hfirst
    simp at this
  · have hmem : (ns_dyn_mem_free p s).mem (p - 1) < 0 := by
      rw [he]
      split
      · rw [dev_stat_update_mem]
        exact free_merge_header_negative _ _ s hpos
      · exact free_merge_header_negative _ _ s hpos
    have hmain : (ns_dyn_mem_free p s).heap_main = s.heap_main := by
      rw [he]
      split
      · exact dev_stat_update_heap_main _ _ _
      · rfl
    have hcb' : (ns_dyn_mem_free p s).heap_failure_callback = true := by
      rw [he]
      split
      · rw [dev_stat_update_callback]; exact hcb
      · exact hcb
    generalize ns_dyn_mem_free p s = s' at hmem hmain hcb'
    have hm' : s'.heap_main ≠ 0 := by rw [hmain]; exact hm
    unfold ns_dyn_mem_free
    simp only [hp, hm', hmem, if_true, if_false]
    unfold heap_failure
    simp only [hcb', if_true]

/-- Witness of C5: in a 64-byte pool two blocks of 10 bytes are allocated from
the start and the first is freed; freeing the second then merges it into its
free left neighbour, and freeing it once more is the double free. -/
theorem C5_double_free_witness :
    (ns_dyn_mem_free 1030 (ns_dyn_mem_free 1025
        (ns_dyn_mem_temporary_alloc .ILP32 10
          (ns_dyn_mem_temporary_alloc .ILP32 10 fresh64).1).1)).mem 1024 = -14 ∧
    ns_dyn_mem_free 1030 (ns_dyn_mem_free 1030 (ns_dyn_mem_free 1025
        (ns_dyn_mem_temporary_alloc .ILP32 10
          (ns_dyn_mem_temporary_alloc .ILP32 10 fresh64).1).1))
      = { ns_dyn_mem_free 1030 (ns_dyn_mem_free 1025
            (ns_dyn_mem_temporary_alloc .ILP32 10
              (ns_dyn_mem_temporary_alloc .ILP32 10 fresh64).1).1) with
          reported := (ns_dyn_mem_free 1030 (ns_dyn_mem_free 1025
            (ns_dyn_mem_temporary_alloc .ILP32 10
              (ns_dyn_mem_temporary_alloc .ILP32 10 fresh64).1).1)).reported
            ++ [.NS_DYN_MEM_DOUBLE_FREE] } :=
  ⟨by decide,
   C5_double_free (ns_dyn_mem_free 1025
        (ns_dyn_mem_temporary_alloc .ILP32 10
          (ns_dyn_mem_temporary_alloc .ILP32 10 fresh64).1).1) 1030
      (by decide) (by decide) (by decide) (by decide)⟩

/-- C6 (counterexample): in a 64-byte pool at words 1024..1039, set up over
memory whose words all hold -1, pointer 2001 lies outside the pool, and
`ns_dyn_mem_free(2001)` reports `NS_DYN_MEM_DOUBLE_FREE`, not
`NS_DYN_MEM_POINTER_NOT_VALID`. -/
theorem C6_counterexample :
    (ns_dyn_mem_init 4096 64 true true (boot (fun _ => -1))).heap_main = 1024 ∧
    (ns_dyn_mem_init 4096 64 true true (boot (fun _ => -1))).heap_main_end = 1039 ∧
    (ns_dyn_mem_init 4096 64 true true (boot (fun _ => -1))).mem 2000 = -1 ∧
    (ns_dyn_mem_free 2001 (ns_dyn_mem_init 4096 64 true true (boot (fun _ => -1)))).reported
      = [.NS_DYN_MEM_DOUBLE_FREE] := by
  decide

/-- C6 (amended): on an initialised heap, for a non-null pointer `p` that lies
outside `[heap_main, heap_main_end]`, or whose block would extend past
`heap_main_end` by the header word at `p - 1` while `p - 1` plus that word is
still a word address of the address space (so that the pointer sum of the
source is the sum of the integers), `ns_dyn_mem_free(p)` does nothing but call
`heap_failure` once: with `NS_DYN_MEM_POINTER_NOT_VALID` when the word at
`p - 1` is not negative, with `NS_DYN_MEM_DOUBLE_FREE` when it is negative
(the sign of that word is tested before the bounds). -/
theorem C6_invalid_pointer (dm : DataModel) (s : State) (p : Int) (hp : p ≠ 0)
    (hm : s.heap_main ≠ 0)
    (hout : p < s.heap_main ∨ s.heap_main_end < p ∨
      (s.heap_main_end < p + s.mem (p - 1) ∧ p - 1 + s.mem (p - 1) < addr_words dm)) :
    ns_dyn_mem_free p s
      = heap_failure (if s.mem (p - 1) < 0 then .NS_DYN_MEM_DOUBLE_FREE
          else .NS_DYN_MEM_POINTER_NOT_VALID) s ∧
    (ns_dyn_mem_free p s).mem = s.mem ∧
    (ns_dyn_mem_free p s).mem_stat_info_ptr = s.mem_stat_info_ptr ∧
    (ns_dyn_mem_free p s).heap_main = s.heap_main ∧
    (ns_dyn_mem_free p s).heap_main_end = s.heap_main_end ∧
    (ns_dyn_mem_free p s).heap_size = s.heap_size ∧
    (s.heap_failure_callback = true →
      (ns_dyn_mem_free p s).reported
        = s.reported ++ [if s.mem (p - 1) < 0 then .NS_DYN_MEM_DOUBLE_FREE
            else .NS_DYN_MEM_POINTER_NOT_VALID]) := by
  have key : ns_dyn_mem_free p s
      = heap_failure (if s.mem (p - 1) < 0 then .NS_DYN_MEM_DOUBLE_FREE
          else .NS_DYN_MEM_POINTER_NOT_VALID) s := by
    unfold ns_dyn_mem_free
    simp only [hp, hm, if_false]
    by_cases c1 : s.mem (p - 1) < 0
    · simp only [c1, if_true]
    · simp only [c1, if_false]
      by_cases c2 : p - 1 < s.heap_main ∨ p - 1 ≥ s.heap_main_end
      · rw [if_pos c2]
      · rw [if_neg c2]
        have c3 : p - 1 + s.mem (p - 1) ≥ s.heap_main_end := by
          rcases hout with h | h | ⟨h, -⟩ <;> omega
        rw [if_pos c3]
  rw [key]
  exact ⟨rfl, heap_failure_mem _ _, heap_failure_stat _ _, heap_failure_heap_main _ _,
    heap_failure_heap_main_end _ _, heap_failure_heap_size _ _, heap_failure_reported _ _⟩

/-- Witness of C6: on `overlong64` the word before pointer 1031 is 100, so the
block would end at word 1130, past `heap_main_end = 1039` and far below the
`2 ^ 30` words of a 32-bit address space; pointer 2001 lies outside the pool
of `fresh64` and the word before it is 0.  Both frees report
`NS_DYN_MEM_POINTER_NOT_VALID` and change no word. -/
theorem C6_invalid_pointer_witness :
    overlong64.mem 1030 = 100 ∧ overlong64.heap_main_end = 1039 ∧
    (ns_dyn_mem_free 1031 overlong64).reported = [.NS_DYN_MEM_POINTER_NOT_VALID] ∧
    (ns_dyn_mem_free 1031 overlong64).mem = overlong64.mem ∧
    (ns_dyn_mem_free 2001 fresh64).reported = [.NS_DYN_MEM_POINTER_NOT_VALID] ∧
    (ns_dyn_mem_free 2001 fresh64).mem = fresh64.mem :=
  ⟨by decide, by decide,
   (C6_invalid_pointer .ILP32 overlong64 1031 (by decide) (by decide)
     (by decide)).2.2.2.2.2.2 rfl,
   (C6_invalid_pointer .ILP32 overlong64 1031 (by decide) (by decide) (by decide)).2.1,
   (C6_invalid_pointer .ILP32 fresh64 2001 (by decide) (by decide) (by decide)).2.2.2.2.2.2 rfl,
   (C6_invalid_pointer .ILP32 fresh64 2001 (by decide) (by decide) (by decide)).2.1⟩

/-- C8 (code defect): the length correction subtracts `sizeof(int) - r` where
`r` is the remainder of the length, instead of `r`.  A word-aligned buffer of 9
bytes gets capacity 6, not 8, and 6 is not a multiple of `sizeof(int)`; lengths
11 and 13 give 10. -/
theorem C8_length_is_not_truncated_to_words :
    (ns_dyn_mem_init 4096 9 true true (boot (fun _ => 0))).heap_size = 6 ∧
    (9 : Int) - 9 % sizeof_int = 8 ∧
    (ns_dyn_mem_init 4096 9 true true (boot (fun _ => 0))).heap_size % sizeof_int = 2 ∧
    (ns_dyn_mem_init 4096 11 true true (boot (fun _ => 0))).heap_size = 10 ∧
    (ns_dyn_mem_init 4096 13 true true (boot (fun _ => 0))).heap_size = 10 ∧
    (ns_dyn_mem_init 4097 16 true true (boot (fun _ => 0))).heap_size = 10 := by
  decide

/-- C9 (counterexample): `ns_dyn_mem_alloc(10)` on the fresh 64-byte pool makes
a block of 3 words with header at word 1035 and footer at word 1039, payload
1036..1038.  The returned pointer is 1036, the word after the header; the
payload word before the footer is 1038. -/
theorem C9_counterexample :
    (ns_dyn_mem_alloc .ILP32 10 fresh64).2 = 1036 ∧
    (ns_dyn_mem_alloc .ILP32 10 fresh64).1.mem 1035 = 3 ∧
    (ns_dyn_mem_alloc .ILP32 10 fresh64).1.mem 1039 = 3 ∧
    (ns_dyn_mem_alloc .ILP32 10 fresh64).2 ≠ 1039 - 1 := by
  decide

/-- C9 (amended): for a request of at least one byte, in either direction
(`ns_dyn_mem_temporary_alloc` is direction 1, `ns_dyn_mem_alloc` direction -1)
and from any state, when the returned pointer `p` is not null the word at
`p - 1`, the header right before the payload, holds a positive size, the word
at `p + size`, the footer right after the payload, holds the same size, and so
`p` is the payload word right after the header in both directions. -/
theorem C9_tags_of_allocated_block (dm : DataModel) (s : State) (a dir : Int)
    (ha : 1 ≤ a ∧ a ≤ 32767)
    (hret : (ns_dyn_mem_internal_alloc dm a dir s).2 ≠ 0) :
    0 < (ns_dyn_mem_internal_alloc dm a dir s).1.mem
          ((ns_dyn_mem_internal_alloc dm a dir s).2 - 1) ∧
    (ns_dyn_mem_internal_alloc dm a dir s).1.mem
        ((ns_dyn_mem_internal_alloc dm a dir s).2
          + (ns_dyn_mem_internal_alloc dm a dir s).1.mem
              ((ns_dyn_mem_internal_alloc dm a dir s).2 - 1))
      = (ns_dyn_mem_internal_alloc dm a dir s).1.mem
          ((ns_dyn_mem_internal_alloc dm a dir s).2 - 1) := by
  obtain ⟨s2, he, hs2⟩ := internal_alloc_unfold dm a dir s ha
  rw [he] at hret ⊢
  simp only at hret ⊢
  obtain ⟨k1, k2, k3⟩ := alloc_loop_success dir _ ((a + 3) / 4) (by omega) _ _ _ _ hret
  have hmem : s2.mem = (alloc_loop dir ((convert_allocation_size dm a s).1.heap_size / sizeof_int)
          ((convert_allocation_size dm a s).1.heap_size / sizeof_int).toNat
          (convert_allocation_size dm a s).1 ((a + 3) / 4)
          (if dir > 0 then (convert_allocation_size dm a s).1.heap_main
           else (convert_allocation_size dm a s).1.heap_main_end) 0).state.mem := by
    rcases hs2 with rfl | ⟨ty, n, rfl⟩
    · rfl
    · exact dev_stat_update_mem _ _ _
  rw [hmem, k2]
  exact ⟨k1, k3⟩

/-- Witness of C9: 10 bytes from the end of the fresh 64-byte pool. -/
theorem C9_tags_of_allocated_block_witness :
    (ns_dyn_mem_internal_alloc .ILP32 10 (-1) fresh64).2 = 1036 ∧
    (0 < (ns_dyn_mem_internal_alloc .ILP32 10 (-1) fresh64).1.mem
          ((ns_dyn_mem_internal_alloc .ILP32 10 (-1) fresh64).2 - 1) ∧
     (ns_dyn_mem_internal_alloc .ILP32 10 (-1) fresh64).1.mem
        ((ns_dyn_mem_internal_alloc .ILP32 10 (-1) fresh64).2
          + (ns_dyn_mem_internal_alloc .ILP32 10 (-1) fresh64).1.mem
              ((ns_dyn_mem_internal_alloc .ILP32 10 (-1) fresh64).2 - 1))
      = (ns_dyn_mem_internal_alloc .ILP32 10 (-1) fresh64).1.mem
          ((ns_dyn_mem_internal_alloc .ILP32 10 (-1) fresh64).2 - 1)) :=
  ⟨by decide, C9_tags_of_allocated_block .ILP32 fresh64 10 (-1) (by decide) (by decide)⟩

/-- C10 (counterexample): in the state before `ns_dyn_mem_init` no callback is
registered (`heap_failure_callback` is assigned by `ns_dyn_mem_init` only), so
an allocation of 10 bytes from either end and a free of pointer 5 deliver no
reason at all, `NS_DYN_MEM_HEAP_SECTOR_UNITIALIZED` included. -/
theorem C10_counterexample :
    (boot (fun _ => 0)).heap_failure_callback = false ∧
    (ns_dyn_mem_temporary_alloc .ILP32 10 (boot (fun _ => 0))).1.reported = [] ∧
    (ns_dyn_mem_alloc .ILP32 10 (boot (fun _ => 0))).1.reported = [] ∧
    (ns_dyn_mem_free 5 (boot (fun _ => 0))).reported = [] := by
  decide

/-- With `heap_main` null, `heap_size` 0 and no statistics record, an
allocation of any size in any direction returns null, and it and a free of any
non-null pointer leave exactly the state that one call of
`heap_failure(NS_DYN_MEM_HEAP_SECTOR_UNITIALIZED)` leaves, whatever the memory
holds; a callback, when one is registered, receives exactly that one
reason. -/
theorem uninitialised_heap_calls (dm : DataModel) (s : State) (a dir p : Int)
    (h1 : s.heap_main = 0) (h2 : s.heap_size = 0) (h3 : s.mem_stat_info_ptr = none)
    (hp : p ≠ 0) :
    ns_dyn_mem_internal_alloc dm a dir s
      = (heap_failure .NS_DYN_MEM_HEAP_SECTOR_UNITIALIZED s, 0) ∧
    ns_dyn_mem_free p s = heap_failure .NS_DYN_MEM_HEAP_SECTOR_UNITIALIZED s ∧
    (s.heap_failure_callback = true →
      (heap_failure .NS_DYN_MEM_HEAP_SECTOR_UNITIALIZED s).reported
        = s.reported ++ [.NS_DYN_MEM_HEAP_SECTOR_UNITIALIZED]) := by
  have key : ns_dyn_mem_internal_alloc dm a dir s
      = (heap_failure .NS_DYN_MEM_HEAP_SECTOR_UNITIALIZED s, 0) := by
    have hc : (convert_allocation_size dm a s).1
        = heap_failure .NS_DYN_MEM_HEAP_SECTOR_UNITIALIZED s := by
      unfold convert_allocation_size
      simp only [h1, if_true]
    unfold ns_dyn_mem_internal_alloc
    simp only [hc, heap_failure_heap_size, heap_failure_heap_main, heap_failure_heap_main_end, h2]
    split
    · have hz : ((0 : Int) / sizeof_int).toNat = 0 := by decide
      rw [hz, alloc_loop]
      simp only [heap_failure_stat, h3, Option.isSome_none, Bool.false_eq_true, if_false]
    · rfl
  have kfree : ns_dyn_mem_free p s = heap_failure .NS_DYN_MEM_HEAP_SECTOR_UNITIALIZED s := by
    unfold ns_dyn_mem_free
    simp only [hp, h1, if_true, if_false]
  exact ⟨key, kfree, heap_failure_reported _ _⟩

/-- C10 (amended): in the state before `ns_dyn_mem_init` (`heap_main` null,
`heap_size` 0, no callback and no statistics record registered), whatever the
memory holds, an allocation of any size in any direction returns null and
leaves the state as it is, and so does `ns_dyn_mem_free` of any pointer: no
memory word and no static changes and no reason is delivered, because
`heap_failure(NS_DYN_MEM_HEAP_SECTOR_UNITIALIZED)` finds no callback. -/
theorem C10_uninitialised_heap (dm : DataModel) (mem : Int → Int) (a dir p : Int) :
    ns_dyn_mem_internal_alloc dm a dir (boot mem) = (boot mem, 0) ∧
    ns_dyn_mem_free p (boot mem) = boot mem ∧
    (boot mem).heap_main = 0 ∧ (boot mem).heap_size = 0 ∧
    (boot mem).heap_failure_callback = false ∧ (boot mem).mem_stat_info_ptr = none ∧
    (boot mem).reported = [] := by
  refine ⟨?_, ?_, rfl, rfl, rfl, rfl, rfl⟩
  · rw [(uninitialised_heap_calls dm (boot mem) a dir 1 rfl rfl rfl (by decide)).1]
    rfl
  · by_cases hp : p = 0
    · rw [hp, free_null]
    · rw [(uninitialised_heap_calls dm (boot mem) a dir p rfl rfl rfl hp).2.1]
      rfl

/-- C11: on the pool `s` that `ns_dyn_mem_init` lays out in a non-null buffer,
for requests of `a1` and `a2` bytes (at least 1 byte each) and either
direction `dir`: when the allocation of `a1` bytes in direction `dir` and then
the allocation of `a2` bytes in the opposite direction both succeed, the
second pointer differs from the first, and after `ns_dyn_mem_free` of the
first pointer a new allocation of `a1` bytes in direction `dir` returns the
first pointer again.  The 64-byte scenario of the claim (10 bytes from the
start, 10 bytes from the end, pointers 1025 and 1036) is the witness. -/
theorem C11_reallocation_returns_first_pointer (dm : DataModel) (heap h_size : Int)
    (cb info : Bool) (s0 s : State) (a1 a2 dir : Int)
    (hs : s = ns_dyn_mem_init heap h_size cb info s0)
    (hheap : 0 < heap) (hsize : 0 ≤ h_size ∧ h_size ≤ 65535)
    (ha1 : 1 ≤ a1 ∧ a1 ≤ 32767) (ha2 : 1 ≤ a2 ∧ a2 ≤ 32767) (hdir : dir = 1 ∨ dir = -1)
    (h1 : (ns_dyn_mem_internal_alloc dm a1 dir s).2 ≠ 0)
    (h2 : (ns_dyn_mem_internal_alloc dm a2 (-dir)
      (ns_dyn_mem_internal_alloc dm a1 dir s).1).2 ≠ 0) :
    (ns_dyn_mem_internal_alloc dm a2 (-dir) (ns_dyn_mem_internal_alloc dm a1 dir s).1).2
      ≠ (ns_dyn_mem_internal_alloc dm a1 dir s).2 ∧
    (ns_dyn_mem_internal_alloc dm a1 dir
      (ns_dyn_mem_free (ns_dyn_mem_internal_alloc dm a1 dir s).2
        (ns_dyn_mem_internal_alloc dm a2 (-dir) (ns_dyn_mem_internal_alloc dm a1 dir s).1).1)).2
      = (ns_dyn_mem_internal_alloc dm a1 dir s).2 := by
  have hpos : 0 < s.heap_main := by rw [hs]; exact init_heap_main_pos heap h_size cb info s0 hheap
  have hcases := init_cases heap h_size cb info s0 (by omega) hsize
  rw [← hs] at hcases
  rcases hcases with ⟨h3, hwf⟩ | ⟨-, hdeg⟩
  · have e : [2 - s.heap_size / sizeof_int] = [-(s.heap_size / sizeof_int - 2)] := by
      congr 1; ring
    rw [e] at hwf
    rcases hdir with rfl | rfl
    · exact (realloc_same_pointer dm s _ a1 a2 hwf (by omega) hpos ha1 ha2 h1 h2).2
    · rw [neg_neg] at h2 ⊢
      exact realloc_same_pointer_end dm s _ a1 a2 hwf (by omega) hpos ha1 ha2 h1 h2
  · exact absurd (internal_alloc_degenerate dm a1 dir s hdeg ha1).1 h1

/-- Witness of C11: the scenario on a word-aligned 64-byte buffer, 10 bytes
from the start (pointer 1025), 10 bytes from the end (pointer 1036), free of
1025 and 10 bytes from the start again. -/
theorem C11_reallocation_returns_first_pointer_witness :
    (ns_dyn_mem_temporary_alloc .ILP32 10 fresh64).2 = 1025 ∧
    (ns_dyn_mem_alloc .ILP32 10 (ns_dyn_mem_temporary_alloc .ILP32 10 fresh64).1).2 = 1036 ∧
    ((ns_dyn_mem_alloc .ILP32 10 (ns_dyn_mem_temporary_alloc .ILP32 10 fresh64).1).2
      ≠ (ns_dyn_mem_temporary_alloc .ILP32 10 fresh64).2 ∧
    (ns_dyn_mem_temporary_alloc .ILP32 10
      (ns_dyn_mem_free (ns_dyn_mem_temporary_alloc .ILP32 10 fresh64).2
        (ns_dyn_mem_alloc .ILP32 10 (ns_dyn_mem_temporary_alloc .ILP32 10 fresh64).1).1)).2
      = (ns_dyn_mem_temporary_alloc .ILP32 10 fresh64).2) :=
  ⟨by decide, by decide,
   C11_reallocation_returns_first_pointer .ILP32 4096 64 true true (boot (fun _ => 0)) fresh64
     10 10 1 rfl (by decide) (by decide) (by decide) (by decide) (by decide) (by decide)
     (by decide)⟩

/-- C13: on an initialised pool, when `ns_dyn_mem_free` of a non-null pointer
delivers a reason to the callback, the reason is one of
`NS_DYN_MEM_DOUBLE_FREE`, `NS_DYN_MEM_POINTER_NOT_VALID` and
`NS_DYN_MEM_HEAP_SECTOR_CORRUPTED`, it is the only one added, and the call
leaves every memory word, the statistics record and the pool bounds as they
were; `ns_dyn_mem_free` of the null pointer returns the state unchanged. -/
theorem C13_failed_free_changes_nothing (s : State) (p : Int) (hp : p ≠ 0)
    (hm : s.heap_main ≠ 0) (hrep : (ns_dyn_mem_free p s).reported ≠ s.reported) :
    ((ns_dyn_mem_free p s).mem = s.mem ∧
     (ns_dyn_mem_free p s).mem_stat_info_ptr = s.mem_stat_info_ptr ∧
     (ns_dyn_mem_free p s).heap_main = s.heap_main ∧
     (ns_dyn_mem_free p s).heap_main_end = s.heap_main_end ∧
     (ns_dyn_mem_free p s).heap_size = s.heap_size ∧
     ∃ r, (r = heap_fail_t.NS_DYN_MEM_DOUBLE_FREE ∨
           r = heap_fail_t.NS_DYN_MEM_POINTER_NOT_VALID ∨
           r = heap_fail_t.NS_DYN_MEM_HEAP_SECTOR_CORRUPTED) ∧
       (ns_dyn_mem_free p s).reported = s.reported ++ [r]) ∧
    ns_dyn_mem_free 0 s = s := by
  refine ⟨?_, free_null s⟩
  rcases free_failure_reasons s p hp hm with ⟨r, hr, he⟩ | hsame
  · have hcb : s.heap_failure_callback = true := by
      by_contra hc
      apply hrep
      rw [he]
      unfold heap_failure
      rw [if_neg hc]
    rw [he]
    exact ⟨heap_failure_mem _ _, heap_failure_stat _ _, heap_failure_heap_main _ _,
      heap_failure_heap_main_end _ _, heap_failure_heap_size _ _, r, hr,
      heap_failure_reported _ _ hcb⟩
  · exact absurd hsame hrep

/-- Witness of C13: on `damaged64` word 1028 holds 3, the footer of the
allocated block, and the word 4 further holds 0; the free of 1029 reports
`NS_DYN_MEM_HEAP_SECTOR_CORRUPTED`. -/
theorem C13_failed_free_changes_nothing_witness :
    ((ns_dyn_mem_free 1029 damaged64).mem = damaged64.mem ∧
     (ns_dyn_mem_free 1029 damaged64).mem_stat_info_ptr = damaged64.mem_stat_info_ptr ∧
     (ns_dyn_mem_free 1029 damaged64).heap_main = damaged64.heap_main ∧
     (ns_dyn_mem_free 1029 damaged64).heap_main_end = damaged64.heap_main_end ∧
     (ns_dyn_mem_free 1029 damaged64).heap_size = damaged64.heap_size ∧
     ∃ r, (r = heap_fail_t.NS_DYN_MEM_DOUBLE_FREE ∨
           r = heap_fail_t.NS_DYN_MEM_POINTER_NOT_VALID ∨
           r = heap_fail_t.NS_DYN_MEM_HEAP_SECTOR_CORRUPTED) ∧
       (ns_dyn_mem_free 1029 damaged64).reported = damaged64.reported ++ [r]) ∧
    ns_dyn_mem_free 0 damaged64 = damaged64 :=
  C13_failed_free_changes_nothing damaged64 1029 (by decide) (by decide) (by decide)

/-- C14: on a pool of 40000 bytes with statistics registered, the allocation
of 32760 bytes from the start succeeds (pointer 1025) and produces a block of
8190 payload words, so `(size + 2) * sizeof(int)` is 32768; the `int16_t`
parameter of `dev_stat_update` receives -32768: `heap_sector_alloc_cnt`
becomes 1, but `heap_sector_allocated_bytes` becomes -32768,
`heap_sector_allocated_bytes_max` stays 0 and `heap_alloc_total_bytes`
becomes 4294934528 instead of 32768. -/
theorem C14_statistics_size_is_truncated :
    (ns_dyn_mem_temporary_alloc .ILP32 32760 (pool_of_length 40000)).2 = 1025 ∧
    (ns_dyn_mem_temporary_alloc .ILP32 32760 (pool_of_length 40000)).1.mem 1024 = 8190 ∧
    (ns_dyn_mem_temporary_alloc .ILP32 32760 (pool_of_length 40000)).1.mem 1025 = 0 ∧
    (ns_dyn_mem_temporary_alloc .ILP32 32760 (pool_of_length 40000)).1.mem 9215 = 8190 ∧
    (8190 + 2) * sizeof_int = 32768 ∧
    (pool_of_length 40000).mem_stat_info_ptr =
      some { heap_sector_size := -25536
             heap_sector_alloc_cnt := 0
             heap_sector_allocated_bytes := 0
             heap_sector_allocated_bytes_max := 0
             heap_alloc_total_bytes := 0
             heap_alloc_fail_cnt := 0 } ∧
    (ns_dyn_mem_temporary_alloc .ILP32 32760 (pool_of_length 40000)).1.mem_stat_info_ptr =
      some { heap_sector_size := -25536
             heap_sector_alloc_cnt := 1
             heap_sector_allocated_bytes := -32768
             heap_sector_allocated_bytes_max := 0
             heap_alloc_total_bytes := 4294934528
             heap_alloc_fail_cnt := 0 } ∧
    (ns_dyn_mem_temporary_alloc .ILP32 32760 (pool_of_length 40000)).1.reported = [] := by
  decide

/-- C15 (counterexample to the claim as worded): on `stale64` the allocation of
36 bytes from the end gives the well-formed chain of a free block of 3 words
and an allocated block of 9 words (pointer 1030), without adjacent free
blocks.  The payload holds stale words that look like a block of 1 word at
1032 between two free tags; `ns_dyn_mem_free` of 1033, which is not a pointer
the allocator returned, reports no failure and leaves the well-formed chain of
two adjacent free blocks of 3 and 9 words. -/
theorem C15_counterexample :
    (ns_dyn_mem_alloc .ILP32 36 stale64).2 = 1030 ∧
    WellFormed (ns_dyn_mem_alloc .ILP32 36 stale64).1 [-3, 9] ∧
    NoAdjFree [-3, 9] ∧
    (ns_dyn_mem_alloc .ILP32 36 stale64).1.heap_failure_callback = true ∧
    (ns_dyn_mem_alloc .ILP32 36 stale64).1.reported = [] ∧
    (ns_dyn_mem_free 1033 (ns_dyn_mem_alloc .ILP32 36 stale64).1).reported = [] ∧
    WellFormed (ns_dyn_mem_free 1033 (ns_dyn_mem_alloc .ILP32 36 stale64).1) [-3, -9] ∧
    ¬ NoAdjFree [-3, -9] := by
  decide

/-- C15 (amended): "no two free blocks are directly adjacent" holds for the
chain of the pool laid out by `ns_dyn_mem_init`; on a well-formed pool whose
chain has the property it is kept by every allocation of at least 1 byte in
either direction and by every `ns_dyn_mem_free` of the payload pointer of an
allocated block of the chain; hence it holds for the chain of every state
reachable from `ns_dyn_mem_init` by such allocations and frees of live
pointers, and that chain exists when the pool has at least 3 words. -/
theorem C15_no_adjacent_free_blocks (dm : DataModel) :
    (∀ (heap h_size : Int) (cb info : Bool) (s0 : State) (tags : List Int),
      0 ≤ heap → 0 ≤ h_size ∧ h_size ≤ 65535 →
      WellFormed (ns_dyn_mem_init heap h_size cb info s0) tags → NoAdjFree tags) ∧
    (∀ (s : State) (tags : List Int) (a dir : Int),
      WellFormed s tags → NoAdjFree tags → 0 ≤ s.heap_main →
      1 ≤ a ∧ a ≤ 32767 → dir = 1 ∨ dir = -1 →
      ∃ tags1, WellFormed (ns_dyn_mem_internal_alloc dm a dir s).1 tags1 ∧ NoAdjFree tags1) ∧
    (∀ (s : State) (tags : List Int) (p t : Int),
      WellFormed s tags → NoAdjFree tags → 0 ≤ s.heap_main →
      (p, t) ∈ ptrs s.heap_main tags →
      ∃ tags1, WellFormed (ns_dyn_mem_free p s) tags1 ∧ NoAdjFree tags1) ∧
    (∀ (s : State) (live : List Int), Reachable dm s live →
      (∀ tags, WellFormed s tags → NoAdjFree tags) ∧
      (3 ≤ s.heap_size / sizeof_int → ∃ tags, WellFormed s tags ∧ NoAdjFree tags)) := by
  refine ⟨?_, ?_, ?_, ?_⟩
  · intro heap h_size cb info s0 tags hheap hsize hwf
    exact reachable_noAdj dm _ [] (Reachable.init heap h_size cb info s0 hheap hsize) tags hwf
  · intro s tags a dir hwf hn h0 ha hdir
    exact alloc_noAdj dm a dir s tags hwf hn h0 ha hdir
  · intro s tags p t hwf hn h0 hp
    exact free_noAdj s tags p t hwf hn h0 hp
  · intro s live hr
    refine ⟨reachable_noAdj dm s live hr, fun h3 => ?_⟩
    obtain ⟨tags, hwf⟩ := reachable_wellFormed dm s live hr h3
    exact ⟨tags, hwf, reachable_noAdj dm s live hr tags hwf⟩

/-- Witness of C15: on the 64-byte pool after an allocation of 10 bytes from
the start (chain of an allocated block of 3 words and a free block of 9
words), a further allocation of 10 bytes from the end and the free of the live
pointer 1025 each leave a well-formed chain without adjacent free blocks. -/
theorem C15_no_adjacent_free_blocks_witness :
    WellFormed (ns_dyn_mem_internal_alloc .ILP32 10 1 fresh64).1 [3, -9] ∧
    NoAdjFree [3, -9] ∧
    (1025, 3) ∈ ptrs (ns_dyn_mem_internal_alloc .ILP32 10 1 fresh64).1.heap_main [3, -9] ∧
    (∃ tags1, WellFormed (ns_dyn_mem_internal_alloc .ILP32 10 (-1)
        (ns_dyn_mem_internal_alloc .ILP32 10 1 fresh64).1).1 tags1 ∧ NoAdjFree tags1) ∧
    (∃ tags1, WellFormed (ns_dyn_mem_free 1025
        (ns_dyn_mem_internal_alloc .ILP32 10 1 fresh64).1) tags1 ∧ NoAdjFree tags1) :=
  ⟨by decide, by decide, by decide,
   (C15_no_adjacent_free_blocks .ILP32).2.1 _ [3, -9] 10 (-1) (by decide) (by decide)
     (by decide) (by decide) (by decide),
   (C15_no_adjacent_free_blocks .ILP32).2.2.1 _ [3, -9] 1025 3 (by decide) (by decide)
     (by decide) (by decide)⟩

/-- C16: in every state reachable from `ns_dyn_mem_init` by allocations of at
least 1 byte in either direction and frees of live pointers, when the pool has
at least 3 words, there is a list of tags such that the walk from `heap_main`
in steps of `|tag| + 2` words meets exactly these blocks, each with a non-zero
tag equal to the word `|tag| + 1` further, ends one word past `heap_main_end`,
and the sum of `|tag| + 2` over the blocks is `heap_size / sizeof(int)`. -/
theorem C16_chain_partitions_pool (dm : DataModel) (s : State) (live : List Int)
    (hr : Reachable dm s live) (h3 : 3 ≤ s.heap_size / sizeof_int) :
    ∃ tags, DChain s.mem 1 s.heap_main tags ∧ (∀ t ∈ tags, t ≠ 0) ∧
      s.heap_main + span tags = s.heap_main_end + 1 ∧
      (tags.map (fun t => c_abs t + 2)).sum = s.heap_size / sizeof_int := by
  obtain ⟨tags, hc, hend, hsz⟩ := reachable_wellFormed dm s live hr h3
  exact ⟨tags, hc, dchain_ne_zero tags _ hc, hend, by rw [← span_eq_sum, hsz]⟩

/-- Witness of C16: the 64-byte pool after an allocation of 10 bytes from the
end and one of 10 bytes from the start. -/
theorem C16_chain_partitions_pool_witness :
    3 ≤ (ns_dyn_mem_internal_alloc .ILP32 10 1
          (ns_dyn_mem_internal_alloc .ILP32 10 (-1) fresh64).1).1.heap_size / sizeof_int ∧
    ∃ tags,
      DChain (ns_dyn_mem_internal_alloc .ILP32 10 1
          (ns_dyn_mem_internal_alloc .ILP32 10 (-1) fresh64).1).1.mem 1
        (ns_dyn_mem_internal_alloc .ILP32 10 1
          (ns_dyn_mem_internal_alloc .ILP32 10 (-1) fresh64).1).1.heap_main tags ∧
      (∀ t ∈ tags, t ≠ 0) ∧
      (ns_dyn_mem_internal_alloc .ILP32 10 1
          (ns_dyn_mem_internal_alloc .ILP32 10 (-1) fresh64).1).1.heap_main + span tags
        = (ns_dyn_mem_internal_alloc .ILP32 10 1
          (ns_dyn_mem_internal_alloc .ILP32 10 (-1) fresh64).1).1.heap_main_end + 1 ∧
      (tags.map (fun t => c_abs t + 2)).sum
        = (ns_dyn_mem_internal_alloc .ILP32 10 1
          (ns_dyn_mem_internal_alloc .ILP32 10 (-1) fresh64).1).1.heap_size / sizeof_int :=
  ⟨by decide,
   C16_chain_partitions_pool .ILP32 _ [1025, 1036]
     (Reachable.alloc _ [1036] 10 1
       (Reachable.alloc fresh64 [] 10 (-1)
         (Reachable.init 4096 64 true true (boot (fun _ => 0)) (by decide) (by decide))
         (by decide) (by decide))
       (by decide) (by decide))
     (by decide)⟩

/-- C17: on a well-formed pool, for a request of `a` bytes (at least 1) with
`d = (a + 3) / 4` words and either direction, the allocation returns non-null
exactly when some free block has at least `d` words; then the chain is
`pre ++ -F :: post` with `d ≤ F` where no block met earlier in the scan (`pre`
from the start, `post` from the end) is a free block of at least `d` words,
the allocated block has tags `size ≥ d`, its payload lies inside the payload
of that free block, and no word outside the `F + 2` words of that free block
is changed. -/
theorem C17_first_fit (dm : DataModel) (a dir : Int) (s : State) (tags : List Int)
    (hwf : WellFormed s tags) (h0 : 0 ≤ s.heap_main) (ha : 1 ≤ a ∧ a ≤ 32767)
    (hdir : dir = 1 ∨ dir = -1) :
    ((ns_dyn_mem_internal_alloc dm a dir s).2 ≠ 0 ↔ ∃ t ∈ tags, t < 0 ∧ (a + 3) / 4 ≤ -t) ∧
    ((ns_dyn_mem_internal_alloc dm a dir s).2 ≠ 0 →
      ∃ pre F post size, tags = pre ++ (-F) :: post ∧ (a + 3) / 4 ≤ F ∧
        (dir = 1 → ∀ t ∈ pre, Skipped ((a + 3) / 4) t) ∧
        (dir = -1 → ∀ t ∈ post, Skipped ((a + 3) / 4) t) ∧
        (ns_dyn_mem_internal_alloc dm a dir s).1.mem
          ((ns_dyn_mem_internal_alloc dm a dir s).2 - 1) = size ∧
        (ns_dyn_mem_internal_alloc dm a dir s).1.mem
          ((ns_dyn_mem_internal_alloc dm a dir s).2 + size) = size ∧
        (a + 3) / 4 ≤ size ∧
        s.heap_main + span pre + 1 ≤ (ns_dyn_mem_internal_alloc dm a dir s).2 ∧
        (ns_dyn_mem_internal_alloc dm a dir s).2 + size ≤ s.heap_main + span pre + F + 1 ∧
        (∀ x, x < s.heap_main + span pre ∨ s.heap_main + span pre + F + 2 ≤ x →
          (ns_dyn_mem_internal_alloc dm a dir s).1.mem x = s.mem x)) := by
  refine ⟨⟨fun hres => ?_, fun hex => ?_⟩, internal_alloc_block dm a dir s tags hwf h0 ha hdir⟩
  · obtain ⟨pre, F, post, -, htags, hdF, -⟩ :=
      internal_alloc_block dm a dir s tags hwf h0 ha hdir hres
    refine ⟨-F, by rw [htags]; simp, by omega, by omega⟩
  · obtain ⟨t, ht, hneg, hfit⟩ := hex
    rcases internal_alloc_full dm a dir s tags hwf h0 ha hdir with ⟨-, -, hsk⟩ | ⟨hnz, -⟩
    · exact absurd ⟨hneg, hfit⟩ (hsk t ht)
    · exact hnz

/-- Witness of C17: the 64-byte pool after an allocation of 10 bytes from the
start is the chain of an allocated block of 3 words and a free block of 9
words; a request of 20 bytes from the start. -/
theorem C17_first_fit_witness :
    WellFormed (ns_dyn_mem_internal_alloc .ILP32 10 1 fresh64).1 [3, -9] ∧
    (ns_dyn_mem_internal_alloc .ILP32 20 1 (ns_dyn_mem_internal_alloc .ILP32 10 1 fresh64).1).2
      = 1030 ∧
    ((ns_dyn_mem_internal_alloc .ILP32 20 1
        (ns_dyn_mem_internal_alloc .ILP32 10 1 fresh64).1).2 ≠ 0 ↔
      ∃ t ∈ [3, -9], t < 0 ∧ (20 + 3) / 4 ≤ -t) :=
  ⟨by decide, by decide,
   (C17_first_fit .ILP32 20 1 (ns_dyn_mem_internal_alloc .ILP32 10 1 fresh64).1 [3, -9]
     (by decide) (by decide) (by decide) (by decide)).1⟩

/-- C18: on a well-formed pool, a successful allocation of `a` bytes (at least
1, `d = (a + 3) / 4` words) takes a free block of `F ≥ d` words of the chain
`pre ++ -F :: post` and replaces it by the blocks `new`, which occupy the same
`F + 2` words.  When `F > d + 4`, `new` is an allocated block of `d` words
followed by a free block of `F - d - 2` words for a scan from the start
(pointer right after the old header), and the free block followed by the
allocated block for a scan from the end; when `F ≤ d + 4`, `new` is the one
allocated block of `F` words.  The resulting chain is well formed, so every
block carries the same tag at both ends. -/
theorem C18_split_or_whole_block (dm : DataModel) (a dir : Int) (s : State) (tags : List Int)
    (hwf : WellFormed s tags) (h0 : 0 ≤ s.heap_main) (ha : 1 ≤ a ∧ a ≤ 32767)
    (hdir : dir = 1 ∨ dir = -1) (hres : (ns_dyn_mem_internal_alloc dm a dir s).2 ≠ 0) :
    ∃ pre F post new, tags = pre ++ (-F) :: post ∧ 0 < F ∧ (a + 3) / 4 ≤ F ∧
      WellFormed (ns_dyn_mem_internal_alloc dm a dir s).1 (pre ++ new ++ post) ∧
      span new = F + 2 ∧
      (((a + 3) / 4 + 4 < F ∧ dir = 1 ∧ new = [(a + 3) / 4, -(F - (a + 3) / 4 - 2)] ∧
          (ns_dyn_mem_internal_alloc dm a dir s).2 = s.heap_main + span pre + 1) ∨
       ((a + 3) / 4 + 4 < F ∧ dir = -1 ∧ new = [-(F - (a + 3) / 4 - 2), (a + 3) / 4] ∧
          (ns_dyn_mem_internal_alloc dm a dir s).2
            = s.heap_main + span pre + (F - (a + 3) / 4 - 2) + 3) ∨
       (F ≤ (a + 3) / 4 + 4 ∧ new = [F] ∧
          (ns_dyn_mem_internal_alloc dm a dir s).2 = s.heap_main + span pre + 1)) := by
  obtain ⟨pre, F, post, new, htags, hF, hdF, hwf1, hsp, -, hshape⟩ :=
    internal_alloc_shapes dm a dir s tags hwf h0 ha hdir hres
  refine ⟨pre, F, post, new, htags, hF, hdF, hwf1, hsp, ?_⟩
  rcases hshape with ⟨hd, -, ⟨hlt, hn⟩ | ⟨hle, hn⟩, hp⟩ |
      ⟨hd, -, ⟨hlt, hn, hp⟩ | ⟨hle, hn, hp⟩⟩
  · exact Or.inl ⟨hlt, hd, hn, hp⟩
  · exact Or.inr (Or.inr ⟨hle, hn, hp⟩)
  · exact Or.inr (Or.inl ⟨hlt, hd, hn, hp⟩)
  · exact Or.inr (Or.inr ⟨hle, hn, hp⟩)

/-- Witness of C18: on the fresh 64-byte pool (one free block of 14 words) a
request of 10 bytes from the end splits the block into a free block of 9 words
and an allocated block of 3 words (pointer 1036); a request of 40 bytes takes
the whole block (pointer 1025). -/
theorem C18_split_or_whole_block_witness :
    WellFormed fresh64 [-14] ∧
    WellFormed (ns_dyn_mem_internal_alloc .ILP32 10 (-1) fresh64).1 [-9, 3] ∧
    (ns_dyn_mem_internal_alloc .ILP32 10 (-1) fresh64).2 = 1036 ∧
    WellFormed (ns_dyn_mem_internal_alloc .ILP32 40 (-1) fresh64).1 [14] ∧
    (ns_dyn_mem_internal_alloc .ILP32 40 (-1) fresh64).2 = 1025 ∧
    ∃ pre F post new, [-14] = pre ++ (-F) :: post ∧ 0 < F ∧ (10 + 3) / 4 ≤ F ∧
      WellFormed (ns_dyn_mem_internal_alloc .ILP32 10 (-1) fresh64).1 (pre ++ new ++ post) ∧
      span new = F + 2 ∧
      (((10 + 3) / 4 + 4 < F ∧ (-1 : Int) = 1 ∧ new = [(10 + 3) / 4, -(F - (10 + 3) / 4 - 2)] ∧
          (ns_dyn_mem_internal_alloc .ILP32 10 (-1) fresh64).2
            = fresh64.heap_main + span pre + 1) ∨
       ((10 + 3) / 4 + 4 < F ∧ (-1 : Int) = -1 ∧
          new = [-(F - (10 + 3) / 4 - 2), (10 + 3) / 4] ∧
          (ns_dyn_mem_internal_alloc .ILP32 10 (-1) fresh64).2
            = fresh64.heap_main + span pre + (F - (10 + 3) / 4 - 2) + 3) ∨
       (F ≤ (10 + 3) / 4 + 4 ∧ new = [F] ∧
          (ns_dyn_mem_internal_alloc .ILP32 10 (-1) fresh64).2
            = fresh64.heap_main + span pre + 1)) :=
  ⟨by decide, by decide, by decide, by decide, by decide,
   C18_split_or_whole_block .ILP32 10 (-1) fresh64 [-14] (by decide) (by decide) (by decide)
     (by decide) (by decide)⟩

/-- C19 (code defect): the byte counter does not drop by
`(size + 2) * sizeof(int)` when a live block is freed.  On a pool of 65532
bytes two allocations of 20000 bytes from the start give the well-formed
chain of two allocated blocks of 5000 words and a free block of 6377 words;
`heap_sector_allocated_bytes` is -25520 (40016 as an `int16_t`), and the free
of the second block (pointer 6027, `(5000 + 2) * 4 = 20008` bytes) merges it
with the free block as claimed and takes the count from 2 to 1, but the byte
counter goes from -25520 up to 20008.  On a pool of 40000 bytes, after the
allocation of 32760 bytes (a block of 8190 words, 32768 bytes) the free of the
block passes -32768 in the `int16_t` parameter of `dev_stat_update`: the byte
counter goes from -32768 up to 0. -/
theorem C19_byte_counter_does_not_drop :
    WellFormed
      (ns_dyn_mem_temporary_alloc .ILP32 20000
        (ns_dyn_mem_temporary_alloc .ILP32 20000 (pool_of_length 65532)).1).1
      [5000, 5000, -6377] ∧
    NoAdjFree [5000, 5000, -6377] ∧
    (ns_dyn_mem_temporary_alloc .ILP32 20000
        (ns_dyn_mem_temporary_alloc .ILP32 20000 (pool_of_length 65532)).1).2 = 6027 ∧
    (5000 + 2) * sizeof_int = 20008 ∧
    (ns_dyn_mem_temporary_alloc .ILP32 20000
        (ns_dyn_mem_temporary_alloc .ILP32 20000 (pool_of_length 65532)).1).1.mem_stat_info_ptr =
      some { heap_sector_size := -4
             heap_sector_alloc_cnt := 2
             heap_sector_allocated_bytes := -25520
             heap_sector_allocated_bytes_max := 20008
             heap_alloc_total_bytes := 40016
             heap_alloc_fail_cnt := 0 } ∧
    WellFormed
      (ns_dyn_mem_free 6027
        (ns_dyn_mem_temporary_alloc .ILP32 20000
          (ns_dyn_mem_temporary_alloc .ILP32 20000 (pool_of_length 65532)).1).1)
      [5000, -11379] ∧
    (ns_dyn_mem_free 6027
        (ns_dyn_mem_temporary_alloc .ILP32 20000
          (ns_dyn_mem_temporary_alloc .ILP32 20000 (pool_of_length 65532)).1).1).reported = [] ∧
    (ns_dyn_mem_free 6027
        (ns_dyn_mem_temporary_alloc .ILP32 20000
          (ns_dyn_mem_temporary_alloc .ILP32 20000
            (pool_of_length 65532)).1).1).mem_stat_info_ptr =
      some { heap_sector_size := -4
             heap_sector_alloc_cnt := 1
             heap_sector_allocated_bytes := 20008
             heap_sector_allocated_bytes_max := 20008
             heap_alloc_total_bytes := 40016
             heap_alloc_fail_cnt := 0 } ∧
    WellFormed (ns_dyn_mem_temporary_alloc .ILP32 32760 (pool_of_length 40000)).1
      [8190, -1806] ∧
    (ns_dyn_mem_temporary_alloc .ILP32 32760 (pool_of_length 40000)).2 = 1025 ∧
    (8190 + 2) * sizeof_int = 32768 ∧
    (ns_dyn_mem_temporary_alloc .ILP32 32760 (pool_of_length 40000)).1.mem_stat_info_ptr =
      some { heap_sector_size := -25536
             heap_sector_alloc_cnt := 1
             heap_sector_allocated_bytes := -32768
             heap_sector_allocated_bytes_max := 0
             heap_alloc_total_bytes := 4294934528
             heap_alloc_fail_cnt := 0 } ∧
    WellFormed
      (ns_dyn_mem_free 1025 (ns_dyn_mem_temporary_alloc .ILP32 32760 (pool_of_length 40000)).1)
      [-9998] ∧
    (ns_dyn_mem_free 1025
        (ns_dyn_mem_temporary_alloc .ILP32 32760 (pool_of_length 40000)).1).mem_stat_info_ptr =
      some { heap_sector_size := -25536
             heap_sector_alloc_cnt := 0
             heap_sector_allocated_bytes := 0
             heap_sector_allocated_bytes_max := 0
             heap_alloc_total_bytes := 4294934528
             heap_alloc_fail_cnt := 0 } := by
  decide

/-- Free of a block of a well-formed pool: on an initialised well-formed pool
without adjacent free blocks, for the payload pointer `p` of an allocated
block of `t` words of the chain (`tags = pre ++ t :: post`),
`ns_dyn_mem_free p` reports nothing and leaves the well-formed chain
`preK ++ [-(t + L + R)] ++ postK`, again without adjacent free blocks: `L` is
`|l| + 2` and `preK` is `pre` without its last block `l` when that block is
free, otherwise `L = 0` and `preK = pre`; `R` and `postK` likewise for the
first block of `post`.  With statistics registered `heap_sector_alloc_cnt`
becomes the old value minus 1 and `heap_sector_allocated_bytes` the old value
minus `(t + 2) * sizeof(int)`, both converted to `int16_t`, the other counters
are unchanged; the two differences are exact only when they lie in the range
of `int16_t`. -/
theorem free_merges_neighbours (s : State) (tags : List Int) (p t : Int)
    (hwf : WellFormed s tags) (hn : NoAdjFree tags) (h0 : 0 < s.heap_main)
    (hp : (p, t) ∈ ptrs s.heap_main tags) :
    (ns_dyn_mem_free p s).reported = s.reported ∧
    (∃ pre post preK postK L R,
      tags = pre ++ t :: post ∧ p = s.heap_main + span pre + 1 ∧ 0 < t ∧
      ((L = 0 ∧ preK = pre ∧ (pre = [] ∨ ∃ pre0 l, pre = pre0 ++ [l] ∧ 0 < l)) ∨
        (∃ l, pre = preK ++ [l] ∧ l < 0 ∧ L = c_abs l + 2)) ∧
      ((R = 0 ∧ postK = post ∧ (post = [] ∨ ∃ r post0, post = r :: post0 ∧ 0 < r)) ∨
        (∃ r, post = r :: postK ∧ r < 0 ∧ R = c_abs r + 2)) ∧
      WellFormed (ns_dyn_mem_free p s) (preK ++ [-(t + L + R)] ++ postK) ∧
      NoAdjFree (preK ++ [-(t + L + R)] ++ postK)) ∧
    (s.mem_stat_info_ptr = none → (ns_dyn_mem_free p s).mem_stat_info_ptr = none) ∧
    (∀ st, s.mem_stat_info_ptr = some st →
      (ns_dyn_mem_free p s).mem_stat_info_ptr =
        some { st with
          heap_sector_alloc_cnt := to_sint 16 (st.heap_sector_alloc_cnt - 1)
          heap_sector_allocated_bytes :=
            to_sint 16 (st.heap_sector_allocated_bytes - (t + 2) * sizeof_int) } ∧
      (-32768 ≤ st.heap_sector_alloc_cnt - 1 ∧ st.heap_sector_alloc_cnt - 1 ≤ 32767 ∧
        -32768 ≤ st.heap_sector_allocated_bytes - (t + 2) * sizeof_int ∧
        st.heap_sector_allocated_bytes - (t + 2) * sizeof_int ≤ 32767 →
        (ns_dyn_mem_free p s).mem_stat_info_ptr =
          some { st with
            heap_sector_alloc_cnt := st.heap_sector_alloc_cnt - 1
            heap_sector_allocated_bytes :=
              st.heap_sector_allocated_bytes - (t + 2) * sizeof_int })) := by
  obtain ⟨pre, post, preK, postK, L, R, htags, hpe, htpos, -, -, -, -, hLs, hRs, hwf1, -, hfe⟩ :=
    free_wf s tags p t hwf h0 hp
  obtain ⟨hrep, hnone⟩ := free_reported_of_merge s p t hfe
  refine ⟨hrep, ⟨pre, post, preK, postK, L, R, htags, hpe, htpos, ?_, ?_, hwf1, ?_⟩, hnone, ?_⟩
  · rcases hLs with h | ⟨l, h1, h2, h3⟩
    · exact Or.inl h
    · exact Or.inr ⟨l, h1, h2, by rw [c_abs_of_neg h2, h3]; ring⟩
  · rcases hRs with h | ⟨r, h1, h2, h3⟩
    · exact Or.inl h
    · exact Or.inr ⟨r, h1, h2, by rw [c_abs_of_neg h2, h3]; ring⟩
  · obtain ⟨tags1, hwf2, hn2⟩ := free_noAdj s tags p t hwf hn (by omega) hp
    rw [wellFormed_unique hwf1 hwf2]
    exact hn2
  · intro st hst
    have hstat := free_stat s p t st hst hfe
    refine ⟨hstat, fun hrange => ?_⟩
    rw [hstat, to_sint16_of_range _ hrange.1 hrange.2.1,
      to_sint16_of_range _ hrange.2.2.1 hrange.2.2.2]

/-- Example of `free_merges_neighbours`: on `merge64` (a free block of 3 words, an allocated block
of 3 words at pointer 1030, a free block of 4 words) the free of 1030 leaves
one free block of 14 words. -/
theorem free_merges_neighbours_on_merge64 :
    WellFormed (ns_dyn_mem_free 1030 merge64) [-14] ∧
    merge64.mem_stat_info_ptr =
      some { heap_sector_size := 64, heap_sector_alloc_cnt := 1,
             heap_sector_allocated_bytes := 20, heap_sector_allocated_bytes_max := 40,
             heap_alloc_total_bytes := 40, heap_alloc_fail_cnt := 0 } ∧
    (ns_dyn_mem_free 1030 merge64).mem_stat_info_ptr =
      some { heap_sector_size := 64, heap_sector_alloc_cnt := 0,
             heap_sector_allocated_bytes := 0, heap_sector_allocated_bytes_max := 40,
             heap_alloc_total_bytes := 40, heap_alloc_fail_cnt := 0 } ∧
    (ns_dyn_mem_free 1030 merge64).reported = merge64.reported ∧
    (∃ pre post preK postK L R,
      [-3, 3, -4] = pre ++ 3 :: post ∧ 1030 = merge64.heap_main + span pre + 1 ∧ (0 : Int) < 3 ∧
      ((L = 0 ∧ preK = pre ∧ (pre = [] ∨ ∃ pre0 l, pre = pre0 ++ [l] ∧ 0 < l)) ∨
        (∃ l, pre = preK ++ [l] ∧ l < 0 ∧ L = c_abs l + 2)) ∧
      ((R = 0 ∧ postK = post ∧ (post = [] ∨ ∃ r post0, post = r :: post0 ∧ 0 < r)) ∨
        (∃ r, post = r :: postK ∧ r < 0 ∧ R = c_abs r + 2)) ∧
      WellFormed (ns_dyn_mem_free 1030 merge64) (preK ++ [-(3 + L + R)] ++ postK) ∧
      NoAdjFree (preK ++ [-(3 + L + R)] ++ postK)) :=
  ⟨by decide, by decide, by decide,
   (free_merges_neighbours merge64 [-3, 3, -4] 1030 3 (by decide) (by decide) (by decide)
     (by decide)).1,
   (free_merges_neighbours merge64 [-3, 3, -4] 1030 3 (by decide) (by decide) (by decide)
     (by decide)).2.1⟩

/-- C20: for a buffer at byte address `heap` (any alignment) of `L` bytes,
`L` at least 4 words, the pool laid out by `ns_dyn_mem_init` lies inside the
buffer: the byte address of `heap_main` is at least `heap`, the byte after the
word `heap_main_end` is at most `heap + L`; the words at `heap_main` and
`heap_main_end` hold `-(heap_size / sizeof(int) - 2)`, `heap_main_end` is
`heap_size / sizeof(int) - 1` words after `heap_main`, and no other word of
memory is written. -/
theorem C20_pool_inside_buffer (heap L : Int) (cb info : Bool) (s0 : State)
    (hheap : 0 ≤ heap) (hL : 4 * sizeof_int ≤ L ∧ L ≤ 65535) :
    heap ≤ sizeof_int * (ns_dyn_mem_init heap L cb info s0).heap_main ∧
    sizeof_int * ((ns_dyn_mem_init heap L cb info s0).heap_main_end + 1) ≤ heap + L ∧
    (ns_dyn_mem_init heap L cb info s0).mem (ns_dyn_mem_init heap L cb info s0).heap_main
      = -((ns_dyn_mem_init heap L cb info s0).heap_size / sizeof_int - 2) ∧
    (ns_dyn_mem_init heap L cb info s0).mem (ns_dyn_mem_init heap L cb info s0).heap_main_end
      = -((ns_dyn_mem_init heap L cb info s0).heap_size / sizeof_int - 2) ∧
    (ns_dyn_mem_init heap L cb info s0).heap_main_end
      = (ns_dyn_mem_init heap L cb info s0).heap_main
        + ((ns_dyn_mem_init heap L cb info s0).heap_size / sizeof_int - 1) ∧
    (∀ x, x ≠ (ns_dyn_mem_init heap L cb info s0).heap_main →
      x ≠ (ns_dyn_mem_init heap L cb info s0).heap_main_end →
      (ns_dyn_mem_init heap L cb info s0).mem x = s0.mem x) := by
  have hL16 : 16 ≤ L ∧ L ≤ 65535 := by unfold sizeof_int at hL; omega
  obtain ⟨b1, b2, b3⟩ := init_bounds heap L cb info s0 hL16
  obtain ⟨-, -, -, i4, i5, i6⟩ := init_shape heap L cb info s0 hheap (by omega)
  refine ⟨b1, ?_, by rw [i5]; ring, by rw [i6]; ring, by rw [i4]; ring,
    fun x h1 h2 => init_mem_frame heap L cb info s0 x h1 h2⟩
  rw [i4]
  generalize (ns_dyn_mem_init heap L cb info s0).heap_main = m at *
  generalize (ns_dyn_mem_init heap L cb info s0).heap_size = h at *
  unfold sizeof_int at *
  omega

/-- Witness of C20: a buffer of 21 bytes at the odd byte address 4097; the
pool is the 4 words 1025 to 1028 (bytes 4100 to 4115), the first and the last
set to -2. -/
theorem C20_pool_inside_buffer_witness :
    (ns_dyn_mem_init 4097 21 true true (boot (fun _ => 7))).heap_main = 1025 ∧
    (ns_dyn_mem_init 4097 21 true true (boot (fun _ => 7))).heap_main_end = 1028 ∧
    (ns_dyn_mem_init 4097 21 true true (boot (fun _ => 7))).heap_size = 16 ∧
    (ns_dyn_mem_init 4097 21 true true (boot (fun _ => 7))).mem 1025 = -2 ∧
    (ns_dyn_mem_init 4097 21 true true (boot (fun _ => 7))).mem 1028 = -2 ∧
    (4097 : Int) ≤ sizeof_int * (ns_dyn_mem_init 4097 21 true true (boot (fun _ => 7))).heap_main ∧
    sizeof_int * ((ns_dyn_mem_init 4097 21 true true (boot (fun _ => 7))).heap_main_end + 1)
      ≤ 4097 + 21 :=
  ⟨by decide, by decide, by decide, by decide, by decide,
   (C20_pool_inside_buffer 4097 21 true true (boot (fun _ => 7)) (by decide) (by decide)).1,
   (C20_pool_inside_buffer 4097 21 true true (boot (fun _ => 7)) (by decide) (by decide)).2.1⟩

end NsDynMem
